import Mathlib

/-!
# logspout-logstash: a shallow embedding of `logstash.go`

The adapter enriches container log lines with tags, fields and docker
metadata and writes them as JSON lines to a connection.  This file embeds
the functions of `logstash.go` as Lean definitions and proves properties
of them.

Conventions of the embedding:

* a Go `string` is its sequence of bytes, `List Nat` (every byte sequence
  is covered; literals are ASCII);
* a Go `map[string]V` is a list of entries with pairwise distinct keys;
  the order of the entries is the order in which `range` visits them;
* `os.Getenv` reads a process environment passed as a parameter;
* `encoding/json`, the docker client and the connection are collaborators
  passed as parameters; what the adapter does to them is recorded in a
  trace of events.
-/

namespace Logstash

/-! ## Go strings -/

/-- Go `string`: a sequence of bytes. -/
abbrev GoString := List Nat

/-- The bytes of an ASCII literal. -/
def lit (s : String) : GoString := s.toList.map Char.toNat

/-- The byte `,`. -/
def comma : Nat := 44
/-- The byte `=`. -/
def equals : Nat := 61
/-- The byte `\r`. -/
def carriageReturn : Nat := 13
/-- The byte `\n`. -/
def newline : Nat := 10
/-- The byte `.`. -/
def dot : Nat := 46
/-- The byte `_`. -/
def underscore : Nat := 95

/-- Go `strings.HasPrefix(s, pre)`. -/
def HasPrefix (s pre : GoString) : Bool := pre.isPrefixOf s

/-- Go `strings.TrimPrefix(s, pre)`. -/
def TrimPrefix (s pre : GoString) : GoString :=
  if HasPrefix s pre then s.drop pre.length else s

/-- Go `strings.Split(s, sep)` for a separator `sep` of one byte: the
pieces of `s` between the occurrences of `sep`, in order; the empty
string gives one empty piece. -/
def Split : GoString → Nat → List GoString
  | [], _ => [[]]
  | c :: cs, sep =>
    if c = sep then [] :: Split cs sep
    else
      match Split cs sep with
      | [] => [[c]]
      | p :: ps => (c :: p) :: ps

/-- Go `strings.Join(xs, sep)` for a separator of one byte. -/
def Join : List GoString → Nat → GoString
  | [], _ => []
  | [x], _ => x
  | x :: y :: rest, sep => x ++ sep :: Join (y :: rest) sep

/-- Go `strings.Index(s, sep) < 0` negated, for a separator of one byte:
whether `sep` occurs in `s`. -/
def Contains (s : GoString) (sep : Nat) : Bool := s.contains sep

/-- Go `strings.Replace(s, old, new, -1)` for `old` and `new` of one byte. -/
def Replace (s : GoString) (old new : Nat) : GoString :=
  s.map (fun c => if c = old then new else c)

/-! ## Go maps -/

/-- Lookup in a list of entries: the first entry with the key. -/
def rawGet {V : Type} (k : GoString) : List (GoString × V) → Option V
  | [] => none
  | (k', v) :: es => if k' = k then some v else rawGet k es

/-- Assignment in a list of entries: replaces the entry with the key, or
appends a new entry. -/
def rawSet {V : Type} (k : GoString) (v : V) : List (GoString × V) → List (GoString × V)
  | [] => [(k, v)]
  | (k', v') :: es => if k' = k then (k, v) :: es else (k', v') :: rawSet k v es

theorem rawSet_keys {V : Type} (k : GoString) (v : V) (es : List (GoString × V)) :
    (rawSet k v es).map Prod.fst =
      if k ∈ es.map Prod.fst then es.map Prod.fst else es.map Prod.fst ++ [k] := by
  induction es with
  | nil => simp [rawSet]
  | cons e es ih =>
    obtain ⟨k', v'⟩ := e
    by_cases h : k' = k
    · subst h
      simp [rawSet]
    · have h2 : ¬ k = k' := fun h3 => h h3.symm
      by_cases hm : k ∈ es.map Prod.fst
      · simp only [rawSet, h, if_false, List.map_cons, ih, hm, if_true, List.mem_cons, or_true]
      · simp only [rawSet, h, if_false, List.map_cons, ih, hm, List.mem_cons, h2, or_self,
          List.cons_append]

theorem rawSet_nodup {V : Type} (k : GoString) (v : V) (es : List (GoString × V))
    (h : (es.map Prod.fst).Nodup) : ((rawSet k v es).map Prod.fst).Nodup := by
  rw [rawSet_keys]
  by_cases hm : k ∈ es.map Prod.fst
  · simpa [hm] using h
  · simp only [hm, if_false]
    exact List.Nodup.append h (List.nodup_singleton k) (by simpa using hm)

/-- Go `map[string]V`: entries with pairwise distinct keys. -/
structure GoMap (V : Type) where
  /-- The entries, in the order in which `range` visits them. -/
  entries : List (GoString × V)
  /-- No key occurs twice. -/
  nodup : (entries.map Prod.fst).Nodup

namespace GoMap

/-- Go `make(map[string]V)` and the literal `map[string]V{}`. -/
def empty {V : Type} : GoMap V := ⟨[], List.nodup_nil⟩

/-- Go `v, ok := m[k]`. -/
def get {V : Type} (m : GoMap V) (k : GoString) : Option V := rawGet k m.entries

/-- Go `m[k] = v`. -/
def set {V : Type} (m : GoMap V) (k : GoString) (v : V) : GoMap V :=
  ⟨rawSet k v m.entries, rawSet_nodup k v m.entries m.nodup⟩

/-- The keys of the map. -/
def keys {V : Type} (m : GoMap V) : List GoString := m.entries.map Prod.fst

end GoMap

/-! ## The process environment -/

/-- The environment of the process: the variables that are set. -/
abbrev Environ := List (GoString × GoString)

/-- Go `os.Getenv(key)`: the value of the variable, empty if it is unset. -/
def Getenv (os : Environ) (key : GoString) : GoString := (rawGet key os).getD []

/-! ## Values, containers and collaborators -/

/-- The fields of `docker.Config` that the adapter reads. -/
structure Config where
  Env : List GoString
  Labels : GoMap GoString
  Image : GoString
  Hostname : GoString

/-- The fields of `docker.Container` that the adapter reads. -/
structure Container where
  ID : GoString
  Name : GoString
  Config : Config

/-- The fields of `router.Message` that the adapter reads. -/
structure Message where
  Container : Container
  Source : GoString
  Data : GoString

/-- The struct `DockerInfo` of `logstash.go`; `Labels` is `none` for the
nil map. -/
structure DockerInfo where
  Name : GoString
  ID : GoString
  Image : GoString
  Hostname : GoString
  Labels : Option (GoMap GoString)

/-- The Go values stored under `interface{}` in the record: what
`json.Unmarshal` produces (nil, bool, float64 by its bit pattern, string,
slice, map) and what `sendMessage` stores (strings, the docker info, the
tag slice). -/
inductive Value where
  | null
  | bool (b : Bool)
  | number (bits : Nat)
  | str (s : GoString)
  | arr (xs : List Value)
  | obj (kvs : List (GoString × Value))
  | docker (d : DockerInfo)
  | tags (ts : List GoString)

/-- What `err = json.Unmarshal([]byte(message), &data)` leaves behind for
`data` of type `map[string]interface{}`, nil before the call. -/
structure UnmarshalResult where
  /-- Whether `err != nil`. -/
  err : Bool
  /-- The map `data` after the call; `none` is the nil map. -/
  data : Option (GoMap Value)

/-- The two functions of `encoding/json` that the adapter calls. -/
structure EncodingJson where
  Unmarshal : GoString → UnmarshalResult
  /-- The bytes of the encoding, or `none` for an error. -/
  Marshal : GoMap Value → Option GoString

/-- The fields of `docker.APIContainers` that the adapter reads. -/
structure APIContainers where
  ID : GoString
  Labels : GoMap GoString

/-- The fields of the daemon's `docker.DockerInfo` that the adapter reads. -/
structure DaemonInfo where
  Name : GoString
  ServerVersion : GoString

/-- The interface `DockerClient`, without `CreateContainer`, which the
adapter never calls.  `ListContainers` takes the one label filter of the
options. -/
structure DockerClient where
  ListContainers : GoString → Except GoString (List APIContainers)
  Info : Except GoString DaemonInfo

/-- What the adapter does to its collaborators, in the order it does it. -/
inductive Event where
  /-- A call `conn.Write(b)`, with whether it returned an error. -/
  | write (b : GoString) (failed : Bool)
  /-- A call `time.Sleep` of so many seconds. -/
  | sleep (seconds : Nat)
  /-- A call `client.ListContainers` with the label filter. -/
  | listContainers (filter : GoString)
  /-- A call `client.Info()`. -/
  | info

/-- The struct `LogstashAdapter`.  The connection is given by the results
of its coming `Write` calls (`true` for an error; once the list is used up
every write succeeds).  The trace is not a field of the Go struct: it
records the calls made through `conn` and `client` and the sleeps, oldest
first. -/
structure LogstashAdapter where
  conn : List Bool
  containerTags : GoMap (List GoString)
  logstashFields : GoMap (GoMap GoString)
  decodeJsonLogs : GoMap Bool
  k8sLabels : GoMap (GoMap GoString)
  client : DockerClient
  trace : List Event

/-- How a call ends: it returns, the process exits through `log.Fatal`, or
a run-time panic is raised. -/
inductive Outcome (α : Type) where
  | ok (v : α)
  | fatal
  | panic

/-- The constant `K8S_POD_UID_LABEL`. -/
def K8S_POD_UID_LABEL : GoString := lit "io.kubernetes.pod.uid"
/-- The constant `K8S_POD_TYPE_LABEL`. -/
def K8S_POD_TYPE_LABEL : GoString := lit "io.kubernetes.docker.type"
/-- The constant `K8S_POD_PARENT_TYPE`. -/
def K8S_POD_PARENT_TYPE : GoString := lit "podsandbox"
/-- The constant `K8S_POD_CONTAINER_TYPE`. -/
def K8S_POD_CONTAINER_TYPE : GoString := lit "container"
/-- The constant `K8S_IO_PREFIX`. -/
def K8S_IO_PREFIX : GoString := lit "io.kubernetes."
/-- The constant `K8S_ANNOTATION_PREFIX`. -/
def K8S_ANNOTATION_PREFIX : GoString := lit "annotation.kubernetes.io/"

/-! ## `GetContainerTags` -/

/-- The loop of `GetContainerTags` over the container's env: the first
entry with the prefix `LOGSTASH_TAGS=` replaces `tagsStr` and ends the
loop. -/
def GetContainerTags.scan (tagsStr : GoString) : List GoString → GoString
  | [] => tagsStr
  | e :: es =>
    if HasPrefix e (lit "LOGSTASH_TAGS=") then TrimPrefix e (lit "LOGSTASH_TAGS=")
    else GetContainerTags.scan tagsStr es

/-- The tag list of `GetContainerTags` for the resolved string `tagsStr`. -/
def GetContainerTags.split (tagsStr : GoString) : List GoString :=
  if tagsStr.length > 0 then Split tagsStr comma else []

/-- The function `GetContainerTags`: the tags and the adapter after the
call. -/
def GetContainerTags (os : Environ) (c : Container) (a : LogstashAdapter) :
    List GoString × LogstashAdapter :=
  match a.containerTags.get c.ID with
  | some tags => (tags, a)
  | none =>
    let tagsStr := GetContainerTags.scan (Getenv os (lit "LOGSTASH_TAGS")) c.Config.Env
    let tags := GetContainerTags.split tagsStr
    (tags, { a with containerTags := a.containerTags.set c.ID tags })

/-! ## `GetLogstashFields` -/

/-- The first loop of `GetLogstashFields` over the container's env: every
entry with the prefix `LOGSTASH_FIELDS=` replaces `fieldsStr`. -/
def GetLogstashFields.scan (fieldsStr : GoString) : List GoString → GoString
  | [] => fieldsStr
  | e :: es =>
    if HasPrefix e (lit "LOGSTASH_FIELDS=") then
      GetLogstashFields.scan (TrimPrefix e (lit "LOGSTASH_FIELDS=")) es
    else GetLogstashFields.scan fieldsStr es

/-- The second loop of `GetLogstashFields` over the pieces of the field
string: `sp := strings.Split(f, "=")`, `k, v := sp[0], sp[1]`,
`fields[k] = v`; `none` when `sp[1]` is out of range. -/
def GetLogstashFields.fill (fields : GoMap GoString) : List GoString → Option (GoMap GoString)
  | [] => some fields
  | f :: fs =>
    match Split f equals with
    | k :: v :: _ => GetLogstashFields.fill (fields.set k v) fs
    | _ => none

/-- The field map of `GetLogstashFields` for the resolved string
`fieldsStr`; `none` for the panic. -/
def GetLogstashFields.parse (fieldsStr : GoString) : Option (GoMap GoString) :=
  if fieldsStr.length > 0 then GetLogstashFields.fill GoMap.empty (Split fieldsStr comma)
  else some GoMap.empty

/-- The function `GetLogstashFields`: the fields and the adapter after the
call. -/
def GetLogstashFields (os : Environ) (c : Container) (a : LogstashAdapter) :
    Outcome (GoMap GoString) × LogstashAdapter :=
  match a.logstashFields.get c.ID with
  | some fields => (.ok fields, a)
  | none =>
    let fieldsStr := GetLogstashFields.scan (Getenv os (lit "LOGSTASH_FIELDS")) c.Config.Env
    match GetLogstashFields.parse fieldsStr with
    | none => (.panic, a)
    | some fields => (.ok fields, { a with logstashFields := a.logstashFields.set c.ID fields })

/-! ## Pod labels -/

/-- The loop of `SelectContainerLabels`: the entries whose key has neither
kubernetes prefix are assigned to `result`. -/
def SelectContainerLabels.loop (result : GoMap GoString) :
    List (GoString × GoString) → GoMap GoString
  | [] => result
  | (k, v) :: rest =>
    if HasPrefix k K8S_IO_PREFIX || HasPrefix k K8S_ANNOTATION_PREFIX then
      SelectContainerLabels.loop result rest
    else SelectContainerLabels.loop (result.set k v) rest

/-- The function `SelectContainerLabels`. -/
def SelectContainerLabels (source : GoMap GoString) : GoMap GoString :=
  SelectContainerLabels.loop GoMap.empty source.entries

/-- The loop of `Merge` over the entries of `m1` in the order `visit`: a
key absent from `m2` is assigned, a key present in `m2` is assigned under
`"pod_" + key`. -/
def Merge.loop : List (GoString × GoString) → GoMap GoString → GoMap GoString
  | [], m2 => m2
  | (i, v) :: rest, m2 =>
    match m2.get i with
    | none => Merge.loop rest (m2.set i v)
    | some _ => Merge.loop rest (m2.set (lit "pod_" ++ i) v)

/-- The function `Merge`; `m1` is `none` for the nil map, over which
`range` makes no step. -/
def Merge (m1 : Option (GoMap GoString)) (m2 : GoMap GoString) : GoMap GoString :=
  match m1 with
  | none => m2
  | some m => Merge.loop m.entries m2

/-- The function `GetDockerLabels`: the labels (`none` for nil) and the
adapter after the call. -/
def GetDockerLabels (a : LogstashAdapter) : Option (GoMap GoString) × LogstashAdapter :=
  let a1 := { a with trace := a.trace ++ [Event.info] }
  match a.client.Info with
  | .error _ => (none, a1)
  | .ok info =>
    (some ((GoMap.empty.set (lit "host") info.Name).set (lit "docker_version")
      info.ServerVersion), a1)

/-- Go `m[k]` for a map of strings: the value, or the empty string when
the key is absent. -/
def GoMap.index (m : GoMap GoString) (k : GoString) : GoString := (m.get k).getD []

/-- The loop of `GetPodLabels` over the containers of the inventory: the
first pod leader ends the call with the merged labels, which are cached;
`none` when the loop ends without a leader. -/
def GetPodLabels.loop (c : Container) (current_labels : GoMap GoString) (a : LogstashAdapter) :
    List APIContainers → Option (GoMap GoString × LogstashAdapter)
  | [] => none
  | ctr :: rest =>
    if ctr.Labels.index K8S_POD_UID_LABEL = c.Config.Labels.index K8S_POD_UID_LABEL
        ∧ ctr.Labels.index K8S_POD_TYPE_LABEL = K8S_POD_PARENT_TYPE then
      let merged := Merge (some (SelectContainerLabels ctr.Labels)) current_labels
      let a1 := { a with k8sLabels := a.k8sLabels.set c.ID merged }
      let (docker, a2) := GetDockerLabels a1
      let merged2 := Merge docker ((a2.k8sLabels.get c.ID).getD GoMap.empty)
      let a3 := { a2 with k8sLabels := a2.k8sLabels.set c.ID merged2 }
      some ((a3.k8sLabels.get c.ID).getD GoMap.empty, a3)
    else GetPodLabels.loop c current_labels a rest

/-- The function `GetPodLabels`: the labels or the error, and the adapter
after the call. -/
def GetPodLabels (c : Container) (current_labels : GoMap GoString) (a : LogstashAdapter) :
    Except GoString (GoMap GoString) × LogstashAdapter :=
  match a.k8sLabels.get c.ID with
  | some labels => (.ok labels, a)
  | none =>
    match c.Config.Labels.get K8S_POD_UID_LABEL with
    | none => (.ok current_labels, a)
    | some _ =>
      let fltr := K8S_POD_UID_LABEL ++ lit "=" ++ c.Config.Labels.index K8S_POD_UID_LABEL
      let a1 := { a with trace := a.trace ++ [Event.listContainers fltr] }
      match a.client.ListContainers fltr with
      | .error err => (.error err, a1)
      | .ok containers =>
        match GetPodLabels.loop c current_labels a1 containers with
        | some (labels, a2) => (.ok labels, a2)
        | none => (.ok current_labels, a1)

/-! ## `IsDecodeJsonLogs` -/

/-- The loop of `IsDecodeJsonLogs` over the container's env: every entry
with the prefix `DECODE_JSON_LOGS=` replaces `decodeJsonLogsStr`. -/
def IsDecodeJsonLogs.scan (decodeJsonLogsStr : GoString) : List GoString → GoString
  | [] => decodeJsonLogsStr
  | e :: es =>
    if HasPrefix e (lit "DECODE_JSON_LOGS=") then
      IsDecodeJsonLogs.scan (TrimPrefix e (lit "DECODE_JSON_LOGS=")) es
    else IsDecodeJsonLogs.scan decodeJsonLogsStr es

/-- The function `IsDecodeJsonLogs`: the flag and the adapter after the
call. -/
def IsDecodeJsonLogs (os : Environ) (c : Container) (a : LogstashAdapter) :
    Bool × LogstashAdapter :=
  match a.decodeJsonLogs.get c.ID with
  | some decodeJsonLogs => (decodeJsonLogs, a)
  | none =>
    let decodeJsonLogsStr :=
      IsDecodeJsonLogs.scan (Getenv os (lit "DECODE_JSON_LOGS")) c.Config.Env
    let decodeJsonLogs := decide (decodeJsonLogsStr ≠ lit "false")
    (decodeJsonLogs, { a with decodeJsonLogs := a.decodeJsonLogs.set c.ID decodeJsonLogs })

/-! ## `sendMessage` -/

/-- The loop `for k, v := range fields { data[k] = v }` of `sendMessage`. -/
def sendMessage.overlay (data : GoMap Value) : List (GoString × GoString) → GoMap Value
  | [] => data
  | (k, v) :: rest => sendMessage.overlay (data.set k (Value.str v)) rest

/-- The map `data` of `sendMessage` after the decoding step: the decoded
map, or the message under the key `message`. -/
def sendMessage.base (json : EncodingJson) (message : GoString) (decodeJson : Bool) :
    GoMap Value :=
  let r : UnmarshalResult := if decodeJson then json.Unmarshal message else ⟨false, none⟩
  match r.err, r.data with
  | false, some data => data
  | _, _ => GoMap.empty.set (lit "message") (Value.str message)

/-- The map `data` of `sendMessage` when it is passed to `json.Marshal`. -/
def sendMessage.record (json : EncodingJson) (source message : GoString)
    (dockerInfo : DockerInfo) (tags : List GoString) (fields : GoMap GoString)
    (decodeJson : Bool) : GoMap Value :=
  let data := sendMessage.base json message decodeJson
  let data := sendMessage.overlay data fields.entries
  let data := data.set (lit "docker") (Value.docker dockerInfo)
  let data := data.set (lit "stream") (Value.str source)
  data.set (lit "tags") (Value.tags tags)

/-- The write loop of `sendMessage`: `conn.Write(js)` is repeated until it
succeeds; a failure ends the process when `RETRY_SEND` is empty and is
followed by a sleep of two seconds otherwise.  The connection is the list
of the results of its coming writes, so it accepts every write after
finitely many failures; a connection that fails forever, on which the Go
loop with `RETRY_SEND` set never ends, is not a value of this type. -/
def sendMessage.write (retry : Bool) (js : GoString) :
    List Bool → List Event → Outcome Unit × List Bool × List Event
  | [], trace => (.ok (), [], trace ++ [Event.write js false])
  | false :: conn, trace => (.ok (), conn, trace ++ [Event.write js false])
  | true :: conn, trace =>
    if retry then
      sendMessage.write retry js conn (trace ++ [Event.write js true, Event.sleep 2])
    else (.fatal, conn, trace ++ [Event.write js true])

/-- The method `sendMessage`. -/
def sendMessage (os : Environ) (json : EncodingJson) (a : LogstashAdapter)
    (source message : GoString) (dockerInfo : DockerInfo) (tags : List GoString)
    (fields : GoMap GoString) (decodeJson : Bool) : Outcome Unit × LogstashAdapter :=
  match json.Marshal (sendMessage.record json source message dockerInfo tags fields decodeJson) with
  | none => (.ok (), a)
  | some js =>
    let (out, conn, trace) :=
      sendMessage.write (decide (Getenv os (lit "RETRY_SEND") ≠ [])) (js ++ [newline])
        a.conn a.trace
    (out, { a with conn := conn, trace := trace })

/-! ## `Stream` -/

/-- The loop of `Stream` that copies the container's labels under keys
with every `.` replaced by `_`. -/
def Stream.labels (labels : GoMap GoString) : List (GoString × GoString) → GoMap GoString
  | [] => labels
  | (label, value) :: rest => Stream.labels (labels.set (Replace label dot underscore) value) rest

/-- The loop of `Stream` over the pieces of a message split on `\r`. -/
def Stream.sendAll (os : Environ) (json : EncodingJson) (source : GoString)
    (dockerInfo : DockerInfo) (tags : List GoString) (fields : GoMap GoString)
    (decodeJson : Bool) : LogstashAdapter → List GoString → Outcome Unit × LogstashAdapter
  | a, [] => (.ok (), a)
  | a, msg :: rest =>
    match sendMessage os json a source msg dockerInfo tags fields decodeJson with
    | (.ok _, a1) => Stream.sendAll os json source dockerInfo tags fields decodeJson a1 rest
    | (.fatal, a1) => (.fatal, a1)
    | (.panic, a1) => (.panic, a1)

/-- The part of the body of the loop of `Stream` that fills
`dockerInfo.Labels` when `DOCKER_LABELS` is set. -/
def Stream.dockerInfo (os : Environ) (a : LogstashAdapter) (m : Message) :
    Outcome DockerInfo × LogstashAdapter :=
  let dockerInfo : DockerInfo :=
    { Name := m.Container.Name, ID := m.Container.ID, Image := m.Container.Config.Image,
      Hostname := m.Container.Config.Hostname, Labels := none }
  if Getenv os (lit "DOCKER_LABELS") ≠ [] then
    let labels := Stream.labels GoMap.empty m.Container.Config.Labels.entries
    match GetPodLabels m.Container labels a with
    | (.error _, a1) => (.fatal, a1)
    | (.ok labels, a1) => (.ok { dockerInfo with Labels := some labels }, a1)
  else (.ok dockerInfo, a)

/-- The body of the loop of `Stream` for one message. -/
def Stream.body (os : Environ) (json : EncodingJson) (a : LogstashAdapter) (m : Message) :
    Outcome Unit × LogstashAdapter :=
  match Stream.dockerInfo os a m with
  | (.fatal, a1) => (.fatal, a1)
  | (.panic, a1) => (.panic, a1)
  | (.ok dockerInfo, a1) =>
    let (tags, a2) := GetContainerTags os m.Container a1
    match GetLogstashFields os m.Container a2 with
    | (.fatal, a3) => (.fatal, a3)
    | (.panic, a3) => (.panic, a3)
    | (.ok fields, a3) =>
      let (decodeJson, a4) := IsDecodeJsonLogs os m.Container a3
      if Getenv os (lit "BROKEN_JOURNALD") ≠ [] then
        if Contains m.Data carriageReturn = false then
          sendMessage os json a4 m.Source m.Data dockerInfo tags fields decodeJson
        else
          Stream.sendAll os json m.Source dockerInfo tags fields decodeJson a4
            (Split m.Data carriageReturn)
      else (.ok (), a4)

/-- The method `Stream`, on the messages that the channel delivers before
it is closed. -/
def Stream (os : Environ) (json : EncodingJson) : LogstashAdapter → List Message →
    Outcome Unit × LogstashAdapter
  | a, [] => (.ok (), a)
  | a, m :: ms =>
    match Stream.body os json a m with
    | (.ok _, a1) => Stream os json a1 ms
    | (.fatal, a1) => (.fatal, a1)
    | (.panic, a1) => (.panic, a1)

/-- The payloads of the `conn.Write` calls of a trace, failed ones
included, oldest first. -/
def writes : List Event → List GoString
  | [] => []
  | Event.write b _ :: rest => b :: writes rest
  | _ :: rest => writes rest

/-! ## Values for evaluating the definitions on examples -/

/-- A container with the given ID and env, named `name`, with image
`image`, hostname `hostname` and no labels, as in the tests. -/
def exampleContainer (id : GoString) (env : List GoString) : Container :=
  { ID := id, Name := lit "name",
    Config := { Env := env, Labels := GoMap.empty, Image := lit "image",
                Hostname := lit "hostname" } }

/-- A docker client with an empty inventory, as the `MockClient` of the
tests before any container is created. -/
def exampleClient : DockerClient :=
  { ListContainers := fun _ => .ok [],
    Info := .ok { Name := lit "banana-potato", ServerVersion := lit "tangerine" } }

/-- An adapter with empty caches, as the tests build it, on a connection
whose writes succeed. -/
def exampleAdapter : LogstashAdapter :=
  { conn := [], containerTags := GoMap.empty, logstashFields := GoMap.empty,
    decodeJsonLogs := GoMap.empty, k8sLabels := GoMap.empty, client := exampleClient,
    trace := [] }

/-- A stand-in for `encoding/json`, to evaluate the definitions on
examples: `Unmarshal` decodes the documents `{}` and `{"status":"200"}`,
leaves the map nil without an error for `null`, and reports an error for
every other text; `Marshal` encodes every record as `{}`. -/
def exampleJson : EncodingJson :=
  { Unmarshal := fun message =>
      if message = lit "\x7b\x7d" then ⟨false, some GoMap.empty⟩
      else if message = lit "\x7b\"status\":\"200\"\x7d" then
        ⟨false, some (GoMap.empty.set (lit "status") (Value.str (lit "200")))⟩
      else if message = lit "null" then ⟨false, none⟩
      else ⟨true, none⟩,
    Marshal := fun _ => some (lit "\x7b\x7d") }

/-- The message of the test `TestStreamNotJsonWithoutLogstashTags`. -/
def exampleMessage : Message :=
  { Container := exampleContainer (lit "ID") [lit "NON_LOGSTASH_TAGS=not,logstash"],
    Source := lit "FOOOOO", Data := lit "foo bananas" }

/-- The docker info that `Stream` builds for `exampleMessage` when
`DOCKER_LABELS` is empty. -/
def exampleDockerInfo : DockerInfo :=
  { Name := lit "name", ID := lit "ID", Image := lit "image", Hostname := lit "hostname",
    Labels := none }

/-- The field map of the env entry
`LOGSTASH_FIELDS=myfield=something,tags=nastytag,message=hidden`. -/
def exampleFields : GoMap GoString :=
  ((GoMap.empty.set (lit "myfield") (lit "something")).set (lit "tags") (lit "nastytag")).set
    (lit "message") (lit "hidden")

/-- The precondition under which `Merge src dst` does not depend on the
order of the visit: no key present in both `src` and `dst` has
`"pod_" + key` as a key of `src`. -/
def Merge.noAlias (src dst : GoMap GoString) : Prop :=
  ∀ j ∈ src.keys, dst.get j ≠ none → lit "pod_" ++ j ∉ src.keys

/-- The labels `a` and `pod_a`, visited in this order. -/
def exampleSrc : GoMap GoString :=
  (GoMap.empty.set (lit "a") (lit "1")).set (lit "pod_a") (lit "2")

/-- The labels of `exampleSrc`, visited in the other order. -/
def exampleSrcRev : GoMap GoString :=
  (GoMap.empty.set (lit "pod_a") (lit "2")).set (lit "a") (lit "1")

/-- A destination with the key `a`. -/
def exampleDst : GoMap GoString := GoMap.empty.set (lit "a") (lit "0")

/-- The labels `app` and `release` of the pod leader of the test
`TestStreamK8SPodNames`. -/
def exampleMergeSrc : GoMap GoString :=
  (GoMap.empty.set (lit "app") (lit "myapp")).set (lit "release") (lit "bibbling-trouser")

/-- The labels `original` and `release` of the container of the test
`TestStreamK8SPodNames`. -/
def exampleMergeDst : GoMap GoString :=
  (GoMap.empty.set (lit "original") (lit "original")).set (lit "release") (lit "12345")

/-- A destination with the keys `a` and `pod_a`. -/
def exampleDstBoth : GoMap GoString :=
  (GoMap.empty.set (lit "a") (lit "0")).set (lit "pod_a") (lit "9")

/-- The condition under which the loop of `GetPodLabels` takes the
container `ctr` of the inventory as the pod leader of `c`: the same pod
uid label and the type label `podsandbox`. -/
def GetPodLabels.isLeader (c : Container) (ctr : APIContainers) : Bool :=
  decide (ctr.Labels.index K8S_POD_UID_LABEL = c.Config.Labels.index K8S_POD_UID_LABEL
    ∧ ctr.Labels.index K8S_POD_TYPE_LABEL = K8S_POD_PARENT_TYPE)

/-- The map literal of `GetDockerLabels` for the daemon info `info`. -/
def hostLevelLabels (info : DaemonInfo) : GoMap GoString :=
  (GoMap.empty.set (lit "host") info.Name).set (lit "docker_version") info.ServerVersion

/-- The labels of the docker info that `Stream` builds for a message and
passes to `sendMessage`; `none` when the labels are nil or the call ends
in `log.Fatal`. -/
def Stream.dockerLabels (os : Environ) (a : LogstashAdapter) (m : Message) :
    Option (GoMap GoString) :=
  match (Stream.dockerInfo os a m).1 with
  | .ok dockerInfo => dockerInfo.Labels
  | _ => none

/-- The labels of the container `otherName` of the test
`TestStreamK8SPodNames`, which is not a pod leader. -/
def exampleOtherLabels : GoMap GoString :=
  (((GoMap.empty.set (lit "io.kubernetes.pod.uid") (lit "POD-UUID")).set
    (lit "io.kubernetes.container.name") (lit "potato")).set
    (lit "io.kubernetes.docker.type") (lit "container")).set (lit "original") (lit "plobble-goo")

/-- The labels of the pod leader `podParent` of the test
`TestStreamK8SPodNames`. -/
def examplePodLabels : GoMap GoString :=
  (((((GoMap.empty.set (lit "io.kubernetes.pod.uid") (lit "POD-UUID")).set
    (lit "io.kubernetes.docker.type") (lit "podsandbox")).set
    (lit "io.kubernetes.container.name") (lit "POD")).set (lit "app") (lit "myapp")).set
    (lit "thingy") (lit "thangy")).set (lit "release") (lit "bibbling-trouser")

/-- The labels of the container of the message of the test
`TestStreamK8SPodNames`. -/
def exampleOwnLabels : GoMap GoString :=
  ((((GoMap.empty.set (lit "io.kubernetes.pod.uid") (lit "POD-UUID")).set
    (lit "io.kubernetes.container.name") (lit "eggplant")).set
    (lit "io.kubernetes.docker.type") (lit "container")).set (lit "original") (lit "original")).set
    (lit "release") (lit "12345")

/-- The container of the message of the test `TestStreamK8SPodNames`, with
the given labels. -/
def examplePodContainer (labels : GoMap GoString) : Container :=
  { ID := lit "ID", Name := lit "name",
    Config := { Env := [lit "PATH=/bin"], Labels := labels, Image := lit "image",
                Hostname := lit "hostname" } }

/-- The `MockClient` of the test `TestStreamK8SPodNames`: the inventory has
the container `otherName` and the pod leader `podParent`, whatever the
filter is. -/
def examplePodClient : DockerClient :=
  { ListContainers := fun _ =>
      .ok [{ ID := lit "deadbeef", Labels := exampleOtherLabels },
           { ID := lit "deadbeef", Labels := examplePodLabels }],
    Info := .ok { Name := lit "banana-potato", ServerVersion := lit "tangerine" } }

/-- The adapter of the test `TestStreamK8SPodNames`. -/
def examplePodAdapter : LogstashAdapter := { exampleAdapter with client := examplePodClient }

/-- A message of a container with the given labels. -/
def examplePodMessage (labels : GoMap GoString) : Message :=
  { Container := examplePodContainer labels, Source := lit "FOOOOO", Data := lit "foo bananas" }

/-- Labels of a container in the pod of `examplePodLabels` that has a label
`host` of its own. -/
def exampleHostLabels : GoMap GoString :=
  (GoMap.empty.set (lit "io.kubernetes.pod.uid") (lit "POD-UUID")).set (lit "host") (lit "mine")

/-- The payloads of the `conn.Write` calls of a trace that returned no
error: the records that reached the connection, oldest first. -/
def sent : List Event → List GoString
  | [] => []
  | Event.write b false :: rest => b :: sent rest
  | _ :: rest => sent rest

/-- The calls of `client.ListContainers` and `client.Info` of a trace,
oldest first. -/
def clientCalls : List Event → List Event
  | [] => []
  | Event.listContainers f :: rest => Event.listContainers f :: clientCalls rest
  | Event.info :: rest => Event.info :: clientCalls rest
  | _ :: rest => clientCalls rest

/-- The events of `k` failed writes of the bytes `b`, each followed by a
sleep of two seconds. -/
def failedAttempts (b : GoString) : Nat → List Event
  | 0 => []
  | k + 1 => Event.write b true :: Event.sleep 2 :: failedAttempts b k

/-- A docker client whose inventory query fails, with the pod leader of
`examplePodClient` behind it. -/
def exampleFailingListClient : DockerClient :=
  { examplePodClient with ListContainers := fun _ => .error (lit "connection refused") }

/-- A docker client with the inventory of `examplePodClient` whose daemon
info call fails. -/
def exampleFailingInfoClient : DockerClient :=
  { examplePodClient with Info := .error (lit "connection refused") }

/-- The labels of the container of the test `TestStreamJsonLabelsEnabled`. -/
def exampleDottedLabels : GoMap GoString :=
  (GoMap.empty.set (lit "log") (lit "this")).set (lit "another.label") (lit "with.dots")

/-- The events that `Stream` adds to the trace, one list for each message
consumed, in the order of consumption: what the body of the loop adds for
the message, in the state that the messages before it left. -/
def Stream.emitted (os : Environ) (json : EncodingJson) :
    LogstashAdapter → List Message → List (List Event)
  | _, [] => []
  | a, m :: ms =>
    match Stream.body os json a m with
    | (.ok _, a1) => a1.trace.drop a.trace.length :: Stream.emitted os json a1 ms
    | (.fatal, a1) => [a1.trace.drop a.trace.length]
    | (.panic, a1) => [a1.trace.drop a.trace.length]

/-- A message whose data holds two carriage returns, the second one at the
end. -/
def exampleSplitMessage : Message :=
  { Container := exampleContainer (lit "ID") [lit "NON_LOGSTASH_TAGS=not,logstash"],
    Source := lit "FOOOOO", Data := lit "foo\rbananas\r" }

/-- The cache `after` comes from the cache `before` by a call for the ID
`i` that writes each key at most once: every entry of `before` is in
`after` with its value, no key other than `i` is added, nothing is written
when `i` has an entry, and the entries of `after` are those of `before`,
followed by one entry for `i` at most. -/
def writeOnce {V : Type} (before after : GoMap V) (i : GoString) : Prop :=
  (∀ k v, before.get k = some v → after.get k = some v) ∧
  (∀ k, k ≠ i → after.get k = before.get k) ∧
  (before.get i ≠ none → after = before) ∧
  (after.entries = before.entries ∨
    ∃ v, before.get i = none ∧ after.entries = before.entries ++ [(i, v)])

/-- The map that the description of `Merge` gives for `src` and `dst`:
`dst` extended with `src[k]` under `k` for each key `k` of `src` that is
not a key of `dst`, and then with `src[k]` under `"pod_" + k` for each key
`k` of `src` that is a key of `dst`, which replaces an entry of `dst`
under `"pod_" + k`. -/
def Merge.extended (src dst : GoMap GoString) : GoMap GoString :=
  let fresh := src.entries.filter (fun e => (dst.get e.1).isNone)
  let colliding := src.entries.filter (fun e => !(dst.get e.1).isNone)
  let withFresh := fresh.foldl (fun m e => m.set e.1 e.2) dst
  colliding.foldl (fun m e => m.set (lit "pod_" ++ e.1) e.2) withFresh

/-- The labels of a pod leader that has a label `a.b`. -/
def exampleDottedLeaderLabels : GoMap GoString :=
  ((GoMap.empty.set (lit "io.kubernetes.pod.uid") (lit "POD-UUID")).set
    (lit "io.kubernetes.docker.type") (lit "podsandbox")).set (lit "a.b") (lit "leader")

/-- The labels of a container in the pod of `exampleDottedLeaderLabels` that
has a label `a.b` of its own. -/
def exampleDottedOwnLabels : GoMap GoString :=
  (GoMap.empty.set (lit "io.kubernetes.pod.uid") (lit "POD-UUID")).set (lit "a.b") (lit "own")

/-- A docker client whose inventory is the pod leader with the labels
`exampleDottedLeaderLabels`. -/
def exampleDottedClient : DockerClient :=
  { ListContainers := fun _ =>
      .ok [{ ID := lit "deadbeef", Labels := exampleDottedLeaderLabels }],
    Info := .ok { Name := lit "banana-potato", ServerVersion := lit "tangerine" } }

/-- An adapter with empty caches on the client `exampleDottedClient`. -/
def exampleDottedAdapter : LogstashAdapter := { exampleAdapter with client := exampleDottedClient }

/-- The element of the inventory at which the loop of `GetPodLabels`
returns: the first one that passes the test of the `if` in the loop. -/
def GetPodLabels.leader (c : Container) : List APIContainers → Option APIContainers
  | [] => none
  | ctr :: rest =>
    if ctr.Labels.index K8S_POD_UID_LABEL = c.Config.Labels.index K8S_POD_UID_LABEL
        ∧ ctr.Labels.index K8S_POD_TYPE_LABEL = K8S_POD_PARENT_TYPE then some ctr
    else GetPodLabels.leader c rest

/-! ## Lemmas on maps -/

theorem rawGet_rawSet_self {V : Type} (k : GoString) (v : V) (es : List (GoString × V)) :
    rawGet k (rawSet k v es) = some v := by
  induction es with
  | nil => simp [rawSet, rawGet]
  | cons e es ih =>
    obtain ⟨k', v'⟩ := e
    by_cases h : k' = k
    · simp [rawSet, rawGet, h]
    · simp [rawSet, rawGet, h, ih]

theorem rawGet_rawSet_ne {V : Type} (k k2 : GoString) (v : V) (es : List (GoString × V))
    (hne : k2 ≠ k) : rawGet k2 (rawSet k v es) = rawGet k2 es := by
  induction es with
  | nil => simp [rawSet, rawGet, Ne.symm hne]
  | cons e es ih =>
    obtain ⟨k', v'⟩ := e
    by_cases h : k' = k
    · subst h
      simp [rawSet, rawGet, Ne.symm hne]
    · by_cases h2 : k' = k2
      · subst h2
        simp [rawSet, rawGet, h]
      · simp [rawSet, rawGet, h, h2, ih]

theorem GoMap_get_empty {V : Type} (k : GoString) : (GoMap.empty : GoMap V).get k = none := rfl

theorem GoMap_get_set_self {V : Type} (m : GoMap V) (k : GoString) (v : V) :
    (m.set k v).get k = some v := rawGet_rawSet_self k v m.entries

theorem GoMap_get_set_ne {V : Type} (m : GoMap V) (k k2 : GoString) (v : V) (hne : k2 ≠ k) :
    (m.set k v).get k2 = m.get k2 := rawGet_rawSet_ne k k2 v m.entries hne

theorem GoMap_get_set {V : Type} (m : GoMap V) (k k2 : GoString) (v : V) :
    (m.set k v).get k2 = if k2 = k then some v else m.get k2 := by
  by_cases h : k2 = k
  · subst h
    simp [GoMap_get_set_self]
  · simp [h, GoMap_get_set_ne m k k2 v h]

/-! ## Lemmas on strings -/

theorem HasPrefix_append (p v : GoString) : HasPrefix (p ++ v) p = true := by
  induction p with
  | nil => simp [HasPrefix]
  | cons c p ih => simp [HasPrefix, List.isPrefixOf]

theorem TrimPrefix_append (p v : GoString) : TrimPrefix (p ++ v) p = v := by
  simp [TrimPrefix, HasPrefix_append]

theorem Split_ne_nil (s : GoString) (sep : Nat) : Split s sep ≠ [] := by
  cases s with
  | nil => simp [Split]
  | cons c cs =>
    by_cases h : c = sep
    · simp [Split, h]
    · cases hs : Split cs sep <;> simp [Split, h, hs]

theorem Join_Split (s : GoString) (sep : Nat) : Join (Split s sep) sep = s := by
  induction s with
  | nil => simp [Split, Join]
  | cons c cs ih =>
    by_cases h : c = sep
    · cases hs : Split cs sep with
      | nil => exact absurd hs (Split_ne_nil cs sep)
      | cons p ps =>
        rw [hs] at ih
        simp [Split, h, hs, Join, ih]
    · cases hs : Split cs sep with
      | nil => exact absurd hs (Split_ne_nil cs sep)
      | cons p ps =>
        rw [hs] at ih
        cases ps with
        | nil =>
          simp only [Join] at ih
          simp [Split, h, hs, Join, ih]
        | cons q qs =>
          simp only [Join] at ih
          simp [Split, h, hs, Join, ih]

theorem Split_no_sep (s : GoString) (sep : Nat) : ∀ t ∈ Split s sep, sep ∉ t := by
  induction s with
  | nil => simp [Split]
  | cons c cs ih =>
    by_cases h : c = sep
    · intro t ht
      simp only [Split, h, if_true, List.mem_cons] at ht
      rcases ht with rfl | ht
      · simp
      · exact ih t ht
    · cases hs : Split cs sep with
      | nil => exact absurd hs (Split_ne_nil cs sep)
      | cons p ps =>
        rw [hs] at ih
        intro t ht
        simp only [Split, h, if_false, hs, List.mem_cons] at ht
        rcases ht with rfl | ht
        · have hp := ih p (List.mem_cons_self _ _)
          simp only [List.mem_cons, not_or]
          exact ⟨fun h2 => h h2.symm, hp⟩
        · exact ih t (List.mem_cons_of_mem _ ht)

theorem GetContainerTags_scan_first (d v : GoString) (pre post : List GoString)
    (hpre : ∀ e ∈ pre, HasPrefix e (lit "LOGSTASH_TAGS=") = false) :
    GetContainerTags.scan d (pre ++ (lit "LOGSTASH_TAGS=" ++ v) :: post) = v := by
  induction pre with
  | nil => simp [GetContainerTags.scan, HasPrefix_append, TrimPrefix_append]
  | cons e pre ih =>
    have he := hpre e (List.mem_cons_self _ _)
    simp only [List.cons_append, GetContainerTags.scan, he]
    exact ih (fun x hx => hpre x (List.mem_cons_of_mem _ hx))

theorem GetContainerTags_scan_none (d : GoString) (env : List GoString)
    (h : ∀ e ∈ env, HasPrefix e (lit "LOGSTASH_TAGS=") = false) :
    GetContainerTags.scan d env = d := by
  induction env with
  | nil => rfl
  | cons e env ih =>
    have he := h e (List.mem_cons_self _ _)
    simp only [GetContainerTags.scan, he]
    exact ih (fun x hx => h x (List.mem_cons_of_mem _ hx))

theorem GetLogstashFields_scan_none (d : GoString) (env : List GoString)
    (h : ∀ e ∈ env, HasPrefix e (lit "LOGSTASH_FIELDS=") = false) :
    GetLogstashFields.scan d env = d := by
  induction env generalizing d with
  | nil => rfl
  | cons e env ih =>
    have he := h e (List.mem_cons_self _ _)
    simp only [GetLogstashFields.scan, he]
    exact ih d (fun x hx => h x (List.mem_cons_of_mem _ hx))

theorem GetLogstashFields_scan_last (d v : GoString) (pre post : List GoString)
    (hpost : ∀ e ∈ post, HasPrefix e (lit "LOGSTASH_FIELDS=") = false) :
    GetLogstashFields.scan d (pre ++ (lit "LOGSTASH_FIELDS=" ++ v) :: post) = v := by
  induction pre generalizing d with
  | nil =>
    simp only [List.nil_append, GetLogstashFields.scan, HasPrefix_append, TrimPrefix_append,
      if_true]
    exact GetLogstashFields_scan_none v post hpost
  | cons e pre ih =>
    by_cases he : HasPrefix e (lit "LOGSTASH_FIELDS=") = true
    · simp only [List.cons_append, GetLogstashFields.scan, he, if_true]
      exact ih _
    · simp only [List.cons_append, GetLogstashFields.scan, he]
      exact ih _

/-! ## Tags -/

/-- Claim C7.  On a cache miss, when the container's env has an entry
`LOGSTASH_TAGS=v` and no entry before it has the prefix `LOGSTASH_TAGS=`,
the tags returned by `GetContainerTags` are computed from `v` alone: the
empty list when `v` is empty, the pieces of `v` split on `,` otherwise.
Neither the entries `post` after it, which may have the prefix too, nor
the process environment `os` affect the result. -/
theorem GetContainerTags_first_entry_wins (os : Environ) (c : Container)
    (a : LogstashAdapter) (pre post : List GoString) (v : GoString)
    (hmiss : a.containerTags.get c.ID = none)
    (henv : c.Config.Env = pre ++ (lit "LOGSTASH_TAGS=" ++ v) :: post)
    (hpre : ∀ e ∈ pre, HasPrefix e (lit "LOGSTASH_TAGS=") = false) :
    (GetContainerTags os c a).1 = (if v = [] then [] else Split v comma) := by
  simp only [GetContainerTags, hmiss, henv, GetContainerTags_scan_first _ v pre post hpre,
    GetContainerTags.split]
  cases v <;> simp

theorem GetContainerTags_first_entry_wins_witness :
    (GetContainerTags [(lit "LOGSTASH_TAGS", lit "default")]
        (exampleContainer (lit "ID")
          [lit "NON_LOGSTASH_TAGS=not,logstash", lit "LOGSTASH_TAGS=example,tags",
           lit "LOGSTASH_TAGS=other"]) exampleAdapter).1
      = (if lit "example,tags" = [] then [] else Split (lit "example,tags") comma) :=
  GetContainerTags_first_entry_wins _ _ _ [lit "NON_LOGSTASH_TAGS=not,logstash"]
    [lit "LOGSTASH_TAGS=other"] (lit "example,tags") (by decide) (by decide) (by decide)

/-- Claim C8.  On a cache miss, with `s` the resolved tag string (the value
of the first `LOGSTASH_TAGS=` entry of the env, or else the process-wide
`LOGSTASH_TAGS`): the tags are the empty list if `s` is empty and the
pieces of `s` split on `,` otherwise; they are never the list of one empty
tag; joined with `,` they give back `s`; no tag contains `,`.  In
particular an env without a `LOGSTASH_TAGS=` entry and an empty
process-wide default give no tags. -/
theorem GetContainerTags_of_resolved_string (os : Environ) (c : Container)
    (a : LogstashAdapter) (s : GoString) (hmiss : a.containerTags.get c.ID = none)
    (hs : GetContainerTags.scan (Getenv os (lit "LOGSTASH_TAGS")) c.Config.Env = s) :
    (GetContainerTags os c a).1 = (if s = [] then [] else Split s comma) ∧
    (GetContainerTags os c a).1 ≠ [[]] ∧
    Join (GetContainerTags os c a).1 comma = s ∧
    (∀ t ∈ (GetContainerTags os c a).1, comma ∉ t) ∧
    ((∀ e ∈ c.Config.Env, HasPrefix e (lit "LOGSTASH_TAGS=") = false) →
        Getenv os (lit "LOGSTASH_TAGS") = [] → (GetContainerTags os c a).1 = []) := by
  have htags : (GetContainerTags os c a).1 = (if s = [] then [] else Split s comma) := by
    simp only [GetContainerTags, hmiss, hs, GetContainerTags.split]
    cases s <;> simp
  have hjoin : Join (GetContainerTags os c a).1 comma = s := by
    rw [htags]
    by_cases h : s = []
    · simp [h, Join]
    · simp only [h, if_false]
      exact Join_Split s comma
  refine ⟨htags, ?_, hjoin, ?_, ?_⟩
  · intro h
    rw [h] at hjoin htags
    have hs0 : s = [] := by simpa [Join] using hjoin.symm
    simp [hs0] at htags
  · rw [htags]
    by_cases h : s = []
    · simp [h]
    · simp only [h, if_false]
      exact Split_no_sep s comma
  · intro hno hdef
    rw [GetContainerTags_scan_none _ _ hno, hdef] at hs
    rw [htags, ← hs]
    simp

theorem GetContainerTags_of_resolved_string_witness :
    (GetContainerTags [] (exampleContainer (lit "ID") [lit "LOGSTASH_TAGS=a,,b"])
        exampleAdapter).1 = [lit "a", [], lit "b"] ∧
    (GetContainerTags [] (exampleContainer (lit "ID") [lit "NON_LOGSTASH_TAGS=not,logstash"])
        exampleAdapter).1 = [] :=
  ⟨(GetContainerTags_of_resolved_string [] (exampleContainer (lit "ID")
      [lit "LOGSTASH_TAGS=a,,b"]) exampleAdapter (lit "a,,b") (by decide)
      (by decide)).1.trans (by decide),
   (GetContainerTags_of_resolved_string [] (exampleContainer (lit "ID")
      [lit "NON_LOGSTASH_TAGS=not,logstash"]) exampleAdapter [] (by decide)
      (by decide)).2.2.2.2 (by decide) (by decide)⟩

/-! ## Fields -/

theorem Split_append_sep (k t : GoString) (sep : Nat) (hk : sep ∉ k) :
    Split (k ++ sep :: t) sep = k :: Split t sep := by
  induction k with
  | nil => simp [Split]
  | cons c k ih =>
    simp only [List.mem_cons, not_or] at hk
    have hc : ¬ c = sep := fun h => hk.1 h.symm
    simp [Split, hc, ih hk.2]

theorem Split_of_no_sep (v : GoString) (sep : Nat) (hv : sep ∉ v) : Split v sep = [v] := by
  induction v with
  | nil => simp [Split]
  | cons c v ih =>
    simp only [List.mem_cons, not_or] at hv
    have hc : ¬ c = sep := fun h => hv.1 h.symm
    simp [Split, hc, ih hv.2]

theorem Split_key_value (k v rest : GoString) (sep : Nat) (hk : sep ∉ k) (hv : sep ∉ v)
    (hrest : rest = [] ∨ rest.head? = some sep) :
    ∃ tl, Split (k ++ sep :: (v ++ rest)) sep = k :: v :: tl := by
  rw [Split_append_sep k _ sep hk]
  rcases hrest with h | h
  · subst h
    exact ⟨[], by simp [Split_of_no_sep v sep hv]⟩
  · cases rest with
    | nil => simp at h
    | cons r rs =>
      simp only [List.head?_cons, Option.some.injEq] at h
      subst h
      exact ⟨Split rs r, by rw [Split_append_sep v rs r hv]⟩

theorem Split_of_mem (g : GoString) (sep : Nat) (hg : sep ∈ g) :
    ∃ k v tl, Split g sep = k :: v :: tl := by
  induction g with
  | nil => simp at hg
  | cons c g ih =>
    by_cases hc : c = sep
    · obtain ⟨x, xs, hx⟩ := List.exists_cons_of_ne_nil (Split_ne_nil g sep)
      exact ⟨[], x, xs, by simp [Split, hc, hx]⟩
    · have hg2 : sep ∈ g := by
        rcases List.mem_cons.1 hg with h | h
        · exact absurd h.symm hc
        · exact h
      obtain ⟨k, v, tl, h⟩ := ih hg2
      exact ⟨c :: k, v, tl, by simp [Split, hc, h]⟩

theorem GetLogstashFields_fill_append (m : GoMap GoString) (xs ys : List GoString) :
    GetLogstashFields.fill m (xs ++ ys)
      = (GetLogstashFields.fill m xs).bind (fun m1 => GetLogstashFields.fill m1 ys) := by
  induction xs generalizing m with
  | nil => simp [GetLogstashFields.fill]
  | cons x xs ih =>
    simp only [List.cons_append, GetLogstashFields.fill]
    split
    · exact ih _
    · simp

theorem GetLogstashFields_fill_ok (m : GoMap GoString) (xs : List GoString)
    (h : ∀ g ∈ xs, equals ∈ g) : ∃ m1, GetLogstashFields.fill m xs = some m1 := by
  induction xs generalizing m with
  | nil => exact ⟨m, rfl⟩
  | cons x xs ih =>
    obtain ⟨k, v, tl, hx⟩ := Split_of_mem x equals (h x (List.mem_cons_self _ _))
    simp only [GetLogstashFields.fill, hx]
    exact ih _ (fun g hg => h g (List.mem_cons_of_mem _ hg))

theorem GetLogstashFields_fill_get_other (m m1 : GoMap GoString) (xs : List GoString)
    (k : GoString) (hfill : GetLogstashFields.fill m xs = some m1)
    (h : ∀ g ∈ xs, (Split g equals).head? ≠ some k) : m1.get k = m.get k := by
  induction xs generalizing m with
  | nil =>
    simp only [GetLogstashFields.fill, Option.some.injEq] at hfill
    rw [hfill]
  | cons x xs ih =>
    have hx := h x (List.mem_cons_self _ _)
    simp only [GetLogstashFields.fill] at hfill
    split at hfill
    · rename_i k1 v1 tl heq
      rw [heq] at hx
      simp only [List.head?_cons, ne_eq, Option.some.injEq] at hx
      rw [ih _ hfill (fun g hg => h g (List.mem_cons_of_mem _ hg))]
      exact GoMap_get_set_ne m k1 k v1 (fun h2 => hx h2.symm)
    · simp at hfill

/-- Claim C9.  On a cache miss, when the container's env has an entry
`LOGSTASH_FIELDS=v` and no entry after it has the prefix
`LOGSTASH_FIELDS=`, the result of `GetLogstashFields` is computed from
`v` alone: the field map parsed from `v`, or the panic when `v` is
malformed.  Neither the entries `pre` before it, which may have the prefix
too, nor the process environment `os` affect the result. -/
theorem GetLogstashFields_last_entry_wins (os : Environ) (c : Container)
    (a : LogstashAdapter) (pre post : List GoString) (v : GoString)
    (hmiss : a.logstashFields.get c.ID = none)
    (henv : c.Config.Env = pre ++ (lit "LOGSTASH_FIELDS=" ++ v) :: post)
    (hpost : ∀ e ∈ post, HasPrefix e (lit "LOGSTASH_FIELDS=") = false) :
    (GetLogstashFields os c a).1 =
      (match GetLogstashFields.parse v with
       | some fields => Outcome.ok fields
       | none => Outcome.panic) := by
  simp only [GetLogstashFields, hmiss, henv, GetLogstashFields_scan_last _ v pre post hpost]
  cases GetLogstashFields.parse v <;> rfl

theorem GetLogstashFields_last_entry_wins_witness :
    (GetLogstashFields [(lit "LOGSTASH_FIELDS", lit "default=1")]
        (exampleContainer (lit "ID")
          [lit "LOGSTASH_FIELDS=first=1", lit "PATH=/bin",
           lit "LOGSTASH_FIELDS=myfield=something,anotherfield=something_else",
           lit "MORE=dont,include"]) exampleAdapter).1
      = Outcome.ok ((GoMap.empty.set (lit "myfield") (lit "something")).set
          (lit "anotherfield") (lit "something_else")) :=
  (GetLogstashFields_last_entry_wins [(lit "LOGSTASH_FIELDS", lit "default=1")]
    (exampleContainer (lit "ID")
      [lit "LOGSTASH_FIELDS=first=1", lit "PATH=/bin",
       lit "LOGSTASH_FIELDS=myfield=something,anotherfield=something_else",
       lit "MORE=dont,include"]) exampleAdapter
    [lit "LOGSTASH_FIELDS=first=1", lit "PATH=/bin"]
    [lit "MORE=dont,include"] (lit "myfield=something,anotherfield=something_else")
    rfl (by decide) (by decide)).trans (by rfl)

/-- Claim C10, the failing input.  For the env entry
`LOGSTASH_FIELDS=url=a=b` the field map has `url` mapped to `a`, not to
the remainder `a=b` after the first `=` that the description of the
function asks for: the value is cut at the second `=`. -/
theorem GetLogstashFields_value_stops_at_second_equals :
    ∃ fields, (GetLogstashFields [] (exampleContainer (lit "ID")
          [lit "LOGSTASH_FIELDS=url=a=b"]) exampleAdapter).1 = Outcome.ok fields ∧
      fields.get (lit "url") = some (lit "a") ∧ fields.get (lit "url") ≠ some (lit "a=b") :=
  ⟨GoMap.empty.set (lit "url") (lit "a"), by rfl, by decide, by decide⟩

/-- Claim C10, what the code does.  On a cache miss the resolved field
string, when not empty, is split on `,` and every piece is split on every
`=`, not on the first one only: the key is `sp[0]`, the text before the
first `=`, and the value is `sp[1]`, the text between the first `=` and
the next `=` or the end of the piece.  So when the piece `k=v` or
`k=v=...` is the last piece with the key `k`, and every other piece
contains `=`, the call succeeds with `fields[k] = v`: the remainder of
the piece after `v` is lost, and the value is the whole remainder after
the first `=` only when that remainder holds no `=`. -/
theorem GetLogstashFields_value_is_second_segment (os : Environ) (c : Container)
    (a : LogstashAdapter) (pre post : List GoString) (k v rest : GoString)
    (hmiss : a.logstashFields.get c.ID = none)
    (hne : GetLogstashFields.scan (Getenv os (lit "LOGSTASH_FIELDS")) c.Config.Env ≠ [])
    (hsplit : Split (GetLogstashFields.scan (Getenv os (lit "LOGSTASH_FIELDS")) c.Config.Env)
        comma = pre ++ (k ++ equals :: (v ++ rest)) :: post)
    (hk : equals ∉ k) (hv : equals ∉ v) (hrest : rest = [] ∨ rest.head? = some equals)
    (hall : ∀ g ∈ pre ++ post, equals ∈ g)
    (hlast : ∀ g ∈ post, (Split g equals).head? ≠ some k) :
    ∃ fields, (GetLogstashFields os c a).1 = Outcome.ok fields ∧ fields.get k = some v := by
  obtain ⟨m1, hm1⟩ := GetLogstashFields_fill_ok GoMap.empty pre
    (fun g hg => hall g (List.mem_append_left _ hg))
  obtain ⟨m2, hm2⟩ := GetLogstashFields_fill_ok (m1.set k v) post
    (fun g hg => hall g (List.mem_append_right _ hg))
  obtain ⟨tl, htl⟩ := Split_key_value k v rest equals hk hv hrest
  have hparse : GetLogstashFields.parse
      (GetLogstashFields.scan (Getenv os (lit "LOGSTASH_FIELDS")) c.Config.Env) = some m2 := by
    have hlen : (GetLogstashFields.scan (Getenv os (lit "LOGSTASH_FIELDS")) c.Config.Env).length
        > 0 := List.length_pos.2 hne
    simp only [GetLogstashFields.parse, hlen, if_true, hsplit, GetLogstashFields_fill_append,
      hm1, Option.bind, GetLogstashFields.fill, htl, hm2]
  refine ⟨m2, ?_, ?_⟩
  · simp only [GetLogstashFields, hmiss, hparse]
  · rw [GetLogstashFields_fill_get_other _ _ post k hm2 hlast]
    exact GoMap_get_set_self m1 k v

theorem GetLogstashFields_value_is_second_segment_witness :
    ∃ fields, (GetLogstashFields [] (exampleContainer (lit "ID")
          [lit "LOGSTASH_FIELDS=x=1,url=a=b,y=2"]) exampleAdapter).1 = Outcome.ok fields ∧
      fields.get (lit "url") = some (lit "a") :=
  GetLogstashFields_value_is_second_segment [] (exampleContainer (lit "ID")
    [lit "LOGSTASH_FIELDS=x=1,url=a=b,y=2"]) exampleAdapter [lit "x=1"] [lit "y=2"]
    (lit "url") (lit "a") (lit "=b") rfl (by decide) (by decide) (by decide) (by decide)
    (by decide) (by decide) (by decide)

/-! ## The record of `sendMessage` -/

theorem rawGet_eq_none_iff {V : Type} (k : GoString) (es : List (GoString × V)) :
    rawGet k es = none ↔ k ∉ es.map Prod.fst := by
  induction es with
  | nil => simp [rawGet]
  | cons e es ih =>
    obtain ⟨k1, v1⟩ := e
    by_cases h : k1 = k
    · simp [rawGet, h]
    · have h2 : ¬ k = k1 := fun h3 => h h3.symm
      simp [rawGet, h, h2, ih]

theorem GoMap_mem_keys_iff {V : Type} (m : GoMap V) (k : GoString) :
    k ∈ m.keys ↔ m.get k ≠ none := by
  unfold GoMap.keys GoMap.get
  rw [ne_eq, rawGet_eq_none_iff, not_not]

theorem sendMessage_overlay_get (es : List (GoString × GoString))
    (hnd : (es.map Prod.fst).Nodup) (data : GoMap Value) (k : GoString) :
    (sendMessage.overlay data es).get k =
      (match rawGet k es with
       | some v => some (Value.str v)
       | none => data.get k) := by
  induction es generalizing data with
  | nil => simp [sendMessage.overlay, rawGet]
  | cons e es ih =>
    obtain ⟨k1, v1⟩ := e
    simp only [List.map_cons, List.nodup_cons] at hnd
    simp only [sendMessage.overlay, ih hnd.2]
    by_cases h : k1 = k
    · subst h
      have hnone : rawGet k1 es = none := (rawGet_eq_none_iff k1 es).2 hnd.1
      simp [rawGet, hnone, GoMap_get_set_self]
    · have h2 : k ≠ k1 := fun h3 => h h3.symm
      simp only [rawGet, h, if_false, GoMap_get_set_ne _ k1 k _ h2]

theorem sendMessage_record_get (json : EncodingJson) (source message : GoString)
    (dockerInfo : DockerInfo) (tags : List GoString) (fields : GoMap GoString)
    (decodeJson : Bool) (k : GoString) :
    (sendMessage.record json source message dockerInfo tags fields decodeJson).get k =
      if k = lit "tags" then some (Value.tags tags)
      else if k = lit "stream" then some (Value.str source)
      else if k = lit "docker" then some (Value.docker dockerInfo)
      else
        (match fields.get k with
         | some v => some (Value.str v)
         | none => (sendMessage.base json message decodeJson).get k) := by
  simp only [sendMessage.record, GoMap_get_set, sendMessage_overlay_get _ fields.nodup]
  rfl

theorem sendMessage_base_wrap (json : EncodingJson) (message : GoString) (decodeJson : Bool)
    (h : decodeJson = false ∨ (json.Unmarshal message).err = true
      ∨ (json.Unmarshal message).data = none) :
    sendMessage.base json message decodeJson
      = GoMap.empty.set (lit "message") (Value.str message) := by
  unfold sendMessage.base
  rcases h with h | h | h
  · subst h
    rfl
  · cases decodeJson
    · rfl
    · simp only [if_true, h]
  · cases decodeJson
    · rfl
    · simp only [if_true, h]
      cases (json.Unmarshal message).err <;> rfl

theorem sendMessage_wrap_get (message k : GoString) :
    (GoMap.empty.set (lit "message") (Value.str message)).get k
      = if k = lit "message" then some (Value.str message) else none := by
  rw [GoMap_get_set]
  rfl

theorem sendMessage_record_mem_keys (json : EncodingJson) (source message : GoString)
    (dockerInfo : DockerInfo) (tags : List GoString) (fields : GoMap GoString)
    (decodeJson : Bool) (k : GoString) :
    k ∈ (sendMessage.record json source message dockerInfo tags fields decodeJson).keys ↔
      (k = lit "tags" ∨ k = lit "stream" ∨ k = lit "docker" ∨ k ∈ fields.keys
        ∨ k ∈ (sendMessage.base json message decodeJson).keys) := by
  rw [GoMap_mem_keys_iff, GoMap_mem_keys_iff, GoMap_mem_keys_iff, sendMessage_record_get]
  by_cases h1 : k = lit "tags"
  · rw [if_pos h1]
    simp [h1]
  rw [if_neg h1]
  by_cases h2 : k = lit "stream"
  · rw [if_pos h2]
    simp [h2]
  rw [if_neg h2]
  by_cases h3 : k = lit "docker"
  · rw [if_pos h3]
    simp [h3]
  rw [if_neg h3]
  simp only [h1, h2, h3, false_or]
  cases fields.get k <;> simp

theorem sendMessage_wrap_mem_keys (message k : GoString) :
    k ∈ (GoMap.empty.set (lit "message") (Value.str message)).keys ↔ k = lit "message" := by
  rw [GoMap_mem_keys_iff, sendMessage_wrap_get]
  by_cases h : k = lit "message"
  · rw [if_pos h]
    simp [h]
  · rw [if_neg h]
    simp [h]

/-- Claim C2.  Whatever the source, the message, the docker info, the tags,
the fields and the decode flag are, and whatever `json.Unmarshal` returns,
the record that `sendMessage` passes to `json.Marshal` has `docker` equal
to the docker info, `stream` equal to the source and `tags` equal to the
tags: a key `docker`, `stream` or `tags` of the fields or of the decoded
body is overwritten. -/
theorem sendMessage_reserved_keys (json : EncodingJson) (source message : GoString)
    (dockerInfo : DockerInfo) (tags : List GoString) (fields : GoMap GoString)
    (decodeJson : Bool) :
    (sendMessage.record json source message dockerInfo tags fields decodeJson).get (lit "docker")
        = some (Value.docker dockerInfo) ∧
    (sendMessage.record json source message dockerInfo tags fields decodeJson).get (lit "stream")
        = some (Value.str source) ∧
    (sendMessage.record json source message dockerInfo tags fields decodeJson).get (lit "tags")
        = some (Value.tags tags) := by
  refine ⟨?_, ?_, ?_⟩
  · rw [sendMessage_record_get, if_neg (by decide), if_neg (by decide), if_pos rfl]
  · rw [sendMessage_record_get, if_neg (by decide), if_pos rfl]
  · rw [sendMessage_record_get, if_pos rfl]

/-- Claim C3.  With decoding disabled, for every message, the text of a
JSON object included, the keys of the record are exactly `message`,
`docker`, `stream`, `tags` and the keys of the fields, and when the fields
have no key `message` the value under `message` is the message string
itself. -/
theorem sendMessage_decode_disabled (json : EncodingJson) (source message : GoString)
    (dockerInfo : DockerInfo) (tags : List GoString) (fields : GoMap GoString) :
    (∀ k, k ∈ (sendMessage.record json source message dockerInfo tags fields false).keys ↔
        (k = lit "message" ∨ k = lit "docker" ∨ k = lit "stream" ∨ k = lit "tags"
          ∨ k ∈ fields.keys)) ∧
    (fields.get (lit "message") = none →
      (sendMessage.record json source message dockerInfo tags fields false).get (lit "message")
        = some (Value.str message)) := by
  have hbase := sendMessage_base_wrap json message false (Or.inl rfl)
  constructor
  · intro k
    rw [sendMessage_record_mem_keys, hbase, sendMessage_wrap_mem_keys]
    tauto
  · intro hf
    rw [sendMessage_record_get, if_neg (by decide), if_neg (by decide), if_neg (by decide), hf,
      hbase, sendMessage_wrap_get, if_pos rfl]

theorem sendMessage_decode_disabled_witness :
    (sendMessage.record exampleJson (lit "FOOOOO") (lit "\x7b\"status\":\"200\"\x7d")
        exampleDockerInfo [] GoMap.empty false).get (lit "message")
      = some (Value.str (lit "\x7b\"status\":\"200\"\x7d")) :=
  (sendMessage_decode_disabled exampleJson (lit "FOOOOO") (lit "\x7b\"status\":\"200\"\x7d")
    exampleDockerInfo [] GoMap.empty).2 rfl

/-- Claim C4.  With decoding enabled, when `json.Unmarshal` reports an error
(the message is not JSON, or is a JSON number, string, boolean or array)
or leaves the map nil (the message is `null`), the base record is the
message string under the key `message`: the record has `message` equal to
the message string when the fields have no key `message`, and every key of
the record is `message`, a key of the fields, `docker`, `stream` or
`tags`. -/
theorem sendMessage_decode_failed (json : EncodingJson) (source message : GoString)
    (dockerInfo : DockerInfo) (tags : List GoString) (fields : GoMap GoString)
    (hdec : (json.Unmarshal message).err = true ∨ (json.Unmarshal message).data = none) :
    sendMessage.base json message true = GoMap.empty.set (lit "message") (Value.str message) ∧
    (fields.get (lit "message") = none →
      (sendMessage.record json source message dockerInfo tags fields true).get (lit "message")
        = some (Value.str message)) ∧
    (∀ k ∈ (sendMessage.record json source message dockerInfo tags fields true).keys,
        k = lit "message" ∨ k ∈ fields.keys ∨ k = lit "docker" ∨ k = lit "stream"
          ∨ k = lit "tags") := by
  have hbase := sendMessage_base_wrap json message true (Or.inr hdec)
  refine ⟨hbase, ?_, ?_⟩
  · intro hf
    rw [sendMessage_record_get, if_neg (by decide), if_neg (by decide), if_neg (by decide), hf,
      hbase, sendMessage_wrap_get, if_pos rfl]
  · intro k hk
    rw [sendMessage_record_mem_keys, hbase, sendMessage_wrap_mem_keys] at hk
    tauto

theorem sendMessage_decode_failed_witness :
    (sendMessage.record exampleJson (lit "FOOOOO") (lit "foo bananas") exampleDockerInfo []
        GoMap.empty true).get (lit "message") = some (Value.str (lit "foo bananas")) ∧
    (sendMessage.record exampleJson (lit "FOOOOO") (lit "null") exampleDockerInfo []
        GoMap.empty true).get (lit "message") = some (Value.str (lit "null")) :=
  ⟨(sendMessage_decode_failed exampleJson (lit "FOOOOO") (lit "foo bananas") exampleDockerInfo
      [] GoMap.empty (Or.inl rfl)).2.1 rfl,
   (sendMessage_decode_failed exampleJson (lit "FOOOOO") (lit "null") exampleDockerInfo
      [] GoMap.empty (Or.inr rfl)).2.1 rfl⟩

/-- Claim C5.  With decoding enabled, when `json.Unmarshal` succeeds with
the object `obj`, the decoded map is the base record: every key of `obj`
that is neither a key of the fields nor `docker`, `stream` or `tags` has
its decoded value in the record, the record has a key `message` exactly
when `obj` or the fields have one, and for the empty object and fields
without a key `message` the record has no key `message`. -/
theorem sendMessage_decoded_object (json : EncodingJson) (source message : GoString)
    (dockerInfo : DockerInfo) (tags : List GoString) (fields : GoMap GoString)
    (obj : GoMap Value) (hdec : json.Unmarshal message = ⟨false, some obj⟩) :
    sendMessage.base json message true = obj ∧
    (∀ k v, obj.get k = some v → k ∉ fields.keys → k ≠ lit "docker" → k ≠ lit "stream" →
      k ≠ lit "tags" →
      (sendMessage.record json source message dockerInfo tags fields true).get k = some v) ∧
    (lit "message" ∈ (sendMessage.record json source message dockerInfo tags fields true).keys ↔
      (lit "message" ∈ obj.keys ∨ lit "message" ∈ fields.keys)) ∧
    (obj.entries = [] → fields.get (lit "message") = none →
      (sendMessage.record json source message dockerInfo tags fields true).get (lit "message")
        = none) := by
  have hbase : sendMessage.base json message true = obj := by
    simp only [sendMessage.base, if_true, hdec]
  refine ⟨hbase, ?_, ?_, ?_⟩
  · intro k v hk hf h1 h2 h3
    have hf2 : fields.get k = none := by
      by_contra hc
      exact hf ((GoMap_mem_keys_iff fields k).2 hc)
    rw [sendMessage_record_get, if_neg h3, if_neg h2, if_neg h1, hf2, hbase]
    exact hk
  · rw [sendMessage_record_mem_keys, hbase]
    have d1 : lit "message" ≠ lit "tags" := by decide
    have d2 : lit "message" ≠ lit "stream" := by decide
    have d3 : lit "message" ≠ lit "docker" := by decide
    tauto
  · intro he hf
    rw [sendMessage_record_get, if_neg (by decide), if_neg (by decide), if_neg (by decide), hf,
      hbase]
    simp only [GoMap.get, he, rawGet]

theorem sendMessage_decoded_object_witness :
    (sendMessage.record exampleJson (lit "FOOOOO") (lit "\x7b\"status\":\"200\"\x7d")
        exampleDockerInfo [] GoMap.empty true).get (lit "status")
      = some (Value.str (lit "200")) ∧
    (sendMessage.record exampleJson (lit "FOOOOO") (lit "\x7b\x7d")
        exampleDockerInfo [] GoMap.empty true).get (lit "message") = none :=
  ⟨(sendMessage_decoded_object exampleJson (lit "FOOOOO") (lit "\x7b\"status\":\"200\"\x7d")
      exampleDockerInfo [] GoMap.empty
      (GoMap.empty.set (lit "status") (Value.str (lit "200"))) rfl).2.1
      (lit "status") (Value.str (lit "200")) rfl (by decide) (by decide) (by decide)
      (by decide),
   (sendMessage_decoded_object exampleJson (lit "FOOOOO") (lit "\x7b\x7d")
      exampleDockerInfo [] GoMap.empty GoMap.empty rfl).2.2.2 rfl rfl⟩

/-- Claim C6.  For every fields map and every key `k` of it other than
`docker`, `stream` and `tags`, the record has under `k` the value that the
fields have under `k`, whatever the decoded body or the message wrapper
had under `k`. -/
theorem sendMessage_fields_overlay (json : EncodingJson) (source message : GoString)
    (dockerInfo : DockerInfo) (tags : List GoString) (fields : GoMap GoString)
    (decodeJson : Bool) (k v : GoString) (hk : fields.get k = some v)
    (h1 : k ≠ lit "docker") (h2 : k ≠ lit "stream") (h3 : k ≠ lit "tags") :
    (sendMessage.record json source message dockerInfo tags fields decodeJson).get k
      = some (Value.str v) := by
  rw [sendMessage_record_get, if_neg h3, if_neg h2, if_neg h1, hk]

theorem sendMessage_fields_overlay_witness :
    (sendMessage.record exampleJson (lit "FOOOOO") (lit "foo bananas") exampleDockerInfo []
        exampleFields true).get (lit "message") = some (Value.str (lit "hidden")) :=
  sendMessage_fields_overlay exampleJson (lit "FOOOOO") (lit "foo bananas") exampleDockerInfo []
    exampleFields true (lit "message") (lit "hidden") (by decide) (by decide) (by decide)
    (by decide)

/-! ## `Stream` without the delimiter workaround -/

theorem writes_append (t1 t2 : List Event) : writes (t1 ++ t2) = writes t1 ++ writes t2 := by
  induction t1 with
  | nil => rfl
  | cons e t1 ih => cases e <;> simp [writes, ih]

theorem GetContainerTags_trace (os : Environ) (c : Container) (a : LogstashAdapter) :
    (GetContainerTags os c a).2.trace = a.trace := by
  unfold GetContainerTags
  cases a.containerTags.get c.ID <;> rfl

theorem GetLogstashFields_trace (os : Environ) (c : Container) (a : LogstashAdapter) :
    (GetLogstashFields os c a).2.trace = a.trace := by
  unfold GetLogstashFields
  cases a.logstashFields.get c.ID with
  | some f => rfl
  | none =>
    simp only
    cases GetLogstashFields.parse
      (GetLogstashFields.scan (Getenv os (lit "LOGSTASH_FIELDS")) c.Config.Env) <;> rfl

theorem IsDecodeJsonLogs_trace (os : Environ) (c : Container) (a : LogstashAdapter) :
    (IsDecodeJsonLogs os c a).2.trace = a.trace := by
  unfold IsDecodeJsonLogs
  cases a.decodeJsonLogs.get c.ID <;> rfl

theorem GetDockerLabels_trace (a : LogstashAdapter) :
    (GetDockerLabels a).2.trace = a.trace ++ [Event.info] := by
  unfold GetDockerLabels
  cases a.client.Info <;> rfl

theorem GetPodLabels_loop_writes (c : Container) (current_labels : GoMap GoString)
    (a : LogstashAdapter) (containers : List APIContainers) (labels : GoMap GoString)
    (a2 : LogstashAdapter)
    (h : GetPodLabels.loop c current_labels a containers = some (labels, a2)) :
    writes a2.trace = writes a.trace := by
  induction containers with
  | nil => simp [GetPodLabels.loop] at h
  | cons ctr rest ih =>
    simp only [GetPodLabels.loop] at h
    split at h
    · simp only [Option.some.injEq, Prod.mk.injEq] at h
      rw [← h.2]
      simp [GetDockerLabels_trace, writes_append, writes]
    · exact ih h

theorem GetPodLabels_writes (c : Container) (current_labels : GoMap GoString)
    (a : LogstashAdapter) :
    writes (GetPodLabels c current_labels a).2.trace = writes a.trace := by
  unfold GetPodLabels
  cases a.k8sLabels.get c.ID with
  | some l => rfl
  | none =>
    cases c.Config.Labels.get K8S_POD_UID_LABEL with
    | none => rfl
    | some u =>
      simp only
      cases a.client.ListContainers
        (K8S_POD_UID_LABEL ++ lit "=" ++ c.Config.Labels.index K8S_POD_UID_LABEL) with
      | error e => simp [writes_append, writes]
      | ok containers =>
        simp only
        cases hl : GetPodLabels.loop c current_labels
          { a with trace := a.trace ++ [Event.listContainers
            (K8S_POD_UID_LABEL ++ lit "=" ++ c.Config.Labels.index K8S_POD_UID_LABEL)] }
          containers with
        | none => simp [writes_append, writes]
        | some r =>
          obtain ⟨l, a2⟩ := r
          have := GetPodLabels_loop_writes c current_labels _ containers l a2 hl
          simpa [writes_append, writes] using this

theorem Stream_dockerInfo_writes (os : Environ) (a : LogstashAdapter) (m : Message) :
    writes (Stream.dockerInfo os a m).2.trace = writes a.trace := by
  unfold Stream.dockerInfo
  by_cases h : Getenv os (lit "DOCKER_LABELS") ≠ []
  · rw [if_pos h]
    have := GetPodLabels_writes m.Container
      (Stream.labels GoMap.empty m.Container.Config.Labels.entries) a
    dsimp only
    generalize GetPodLabels m.Container
      (Stream.labels GoMap.empty m.Container.Config.Labels.entries) a = r at this ⊢
    obtain ⟨r, a1⟩ := r
    cases r <;> exact this
  · rw [if_neg h]

theorem Stream_body_writes (os : Environ) (json : EncodingJson) (a : LogstashAdapter)
    (m : Message) (h : Getenv os (lit "BROKEN_JOURNALD") = []) :
    writes (Stream.body os json a m).2.trace = writes a.trace := by
  unfold Stream.body
  have h1 := Stream_dockerInfo_writes os a m
  cases hd : Stream.dockerInfo os a m with
  | mk r a1 =>
    rw [hd] at h1
    cases r with
    | fatal => exact h1
    | panic => exact h1
    | ok dockerInfo =>
      simp only
      have h2 := GetContainerTags_trace os m.Container a1
      have h3 := GetLogstashFields_trace os m.Container (GetContainerTags os m.Container a1).2
      cases hf : GetLogstashFields os m.Container (GetContainerTags os m.Container a1).2 with
      | mk rf a3 =>
        rw [hf] at h3
        cases rf with
        | fatal => simp only; rw [h3, h2]; exact h1
        | panic => simp only; rw [h3, h2]; exact h1
        | ok fields =>
          simp only [h, ne_eq, not_true_eq_false, if_false]
          rw [IsDecodeJsonLogs_trace, h3, h2]
          exact h1

/-- Claim C1, what the code does.  When `BROKEN_JOURNALD` is empty or unset,
`Stream` makes no call of `conn.Write`, whatever the messages are: the
writes of the trace after the call are those before it.  The call of
`sendMessage` is made only in the branch for a non-empty
`BROKEN_JOURNALD`. -/
theorem Stream_workaround_unset_writes_nothing (os : Environ) (json : EncodingJson)
    (a : LogstashAdapter) (ms : List Message) (h : Getenv os (lit "BROKEN_JOURNALD") = []) :
    writes (Stream os json a ms).2.trace = writes a.trace := by
  induction ms generalizing a with
  | nil => rfl
  | cons m ms ih =>
    have hb := Stream_body_writes os json a m h
    simp only [Stream]
    cases hs : Stream.body os json a m with
    | mk r a1 =>
      rw [hs] at hb
      cases r with
      | ok u => simp only; rw [ih a1, hb]
      | fatal => exact hb
      | panic => exact hb

theorem Stream_workaround_unset_writes_nothing_witness :
    Getenv [] (lit "BROKEN_JOURNALD") = [] ∧
    writes (Stream [] exampleJson exampleAdapter [exampleMessage]).2.trace = [] ∧
    (writes (Stream [(lit "BROKEN_JOURNALD", lit "1")] exampleJson exampleAdapter
      [exampleMessage]).2.trace).length = 1 :=
  ⟨by decide,
   Stream_workaround_unset_writes_nothing [] exampleJson exampleAdapter [exampleMessage]
     (by decide),
   by decide⟩

/-! ## The panic of `GetLogstashFields` -/

theorem Split_sep_append (t u : GoString) (sep : Nat) :
    Split (t ++ sep :: u) sep = Split t sep ++ Split u sep := by
  induction t with
  | nil => simp [Split]
  | cons c t ih =>
    by_cases hc : c = sep
    · simp [Split, hc, ih]
    · obtain ⟨p, ps, hp⟩ := List.exists_cons_of_ne_nil (Split_ne_nil t sep)
      simp [Split, hc, ih, hp]

theorem GetLogstashFields_fill_none_iff (m : GoMap GoString) (xs : List GoString) :
    GetLogstashFields.fill m xs = none ↔ ∃ f ∈ xs, equals ∉ f := by
  constructor
  · intro h
    by_contra hc
    have hall : ∀ g ∈ xs, equals ∈ g := by
      intro g hg
      by_contra hg2
      exact hc ⟨g, hg, hg2⟩
    obtain ⟨m1, hm1⟩ := GetLogstashFields_fill_ok m xs hall
    rw [hm1] at h
    exact Option.noConfusion h
  · rintro ⟨f, hf, hno⟩
    induction xs generalizing m with
    | nil => simp at hf
    | cons x xs ih =>
      by_cases hx : equals ∈ x
      · obtain ⟨k, v, tl, hs⟩ := Split_of_mem x equals hx
        simp only [GetLogstashFields.fill, hs]
        rcases List.mem_cons.1 hf with h | h
        · exact absurd (h ▸ hx) hno
        · exact ih _ h
      · simp only [GetLogstashFields.fill, Split_of_no_sep x equals hx]

/-- Claim C11.  On a cache miss, with `s` the resolved field string,
`GetLogstashFields` panics exactly when `s` is not empty and one of its
pieces between commas contains no `=`; this is the case when `s` ends in
a comma or has two commas in a row.  When it panics the adapter is
unchanged, so the fields cache has no entry for the container. -/
theorem GetLogstashFields_panics_iff (os : Environ) (c : Container) (a : LogstashAdapter)
    (s : GoString) (hmiss : a.logstashFields.get c.ID = none)
    (hs : GetLogstashFields.scan (Getenv os (lit "LOGSTASH_FIELDS")) c.Config.Env = s) :
    ((GetLogstashFields os c a).1 = Outcome.panic ↔
        (s ≠ [] ∧ ∃ f ∈ Split s comma, equals ∉ f)) ∧
    ((GetLogstashFields os c a).1 = Outcome.panic →
        (GetLogstashFields os c a).2 = a ∧
        (GetLogstashFields os c a).2.logstashFields.get c.ID = none) ∧
    (∀ t, s = t ++ [comma] → (GetLogstashFields os c a).1 = Outcome.panic) ∧
    (∀ t u, s = t ++ comma :: comma :: u → (GetLogstashFields os c a).1 = Outcome.panic) := by
  have hiff : (GetLogstashFields os c a).1 = Outcome.panic ↔
      (s ≠ [] ∧ ∃ f ∈ Split s comma, equals ∉ f) := by
    simp only [GetLogstashFields, hmiss, hs]
    cases hp : GetLogstashFields.parse s with
    | none =>
      simp only [true_iff]
      unfold GetLogstashFields.parse at hp
      by_cases hlen : s.length > 0
      · rw [if_pos hlen] at hp
        exact ⟨List.length_pos.1 hlen, (GetLogstashFields_fill_none_iff _ _).1 hp⟩
      · rw [if_neg hlen] at hp
        exact Option.noConfusion hp
    | some fields =>
      refine ⟨fun h => Outcome.noConfusion h, ?_⟩
      rintro ⟨hne, hex⟩
      unfold GetLogstashFields.parse at hp
      rw [if_pos (List.length_pos.2 hne), (GetLogstashFields_fill_none_iff _ _).2 hex] at hp
      exact Option.noConfusion hp
  refine ⟨hiff, ?_, ?_, ?_⟩
  · intro hpanic
    have h2 : (GetLogstashFields os c a).2 = a := by
      simp only [GetLogstashFields, hmiss, hs] at hpanic ⊢
      cases hp : GetLogstashFields.parse s with
      | none => rfl
      | some fields =>
        rw [hp] at hpanic
        exact Outcome.noConfusion hpanic
    rw [h2]
    exact ⟨rfl, hmiss⟩
  · intro t ht
    refine hiff.2 ⟨by simp [ht], [], ?_, by simp⟩
    rw [ht, Split_sep_append]
    simp [Split]
  · intro t u ht
    refine hiff.2 ⟨by simp [ht], [], ?_, by simp⟩
    rw [ht, Split_sep_append]
    simp [Split]

theorem GetLogstashFields_panics_iff_witness :
    (GetLogstashFields [] (exampleContainer (lit "ID") [lit "LOGSTASH_FIELDS=a=1,b"])
        exampleAdapter).1 = Outcome.panic ∧
    (GetLogstashFields [] (exampleContainer (lit "ID") [lit "LOGSTASH_FIELDS=a=1,"])
        exampleAdapter).1 = Outcome.panic ∧
    ¬ (GetLogstashFields [] (exampleContainer (lit "ID") [lit "LOGSTASH_FIELDS=a=1,b=2"])
        exampleAdapter).1 = Outcome.panic :=
  ⟨(GetLogstashFields_panics_iff [] (exampleContainer (lit "ID") [lit "LOGSTASH_FIELDS=a=1,b"])
      exampleAdapter (lit "a=1,b") rfl (by decide)).1.2
      ⟨by decide, lit "b", by decide, by decide⟩,
   (GetLogstashFields_panics_iff [] (exampleContainer (lit "ID") [lit "LOGSTASH_FIELDS=a=1,"])
      exampleAdapter (lit "a=1,") rfl (by decide)).2.2.1 (lit "a=1") (by decide),
   fun h => absurd ((GetLogstashFields_panics_iff [] (exampleContainer (lit "ID")
      [lit "LOGSTASH_FIELDS=a=1,b=2"]) exampleAdapter (lit "a=1,b=2") rfl
      (by decide)).1.1 h).2 (by decide)⟩

/-! ## The decode flag and the process-wide defaults -/

theorem IsDecodeJsonLogs_scan_none (d : GoString) (env : List GoString)
    (h : ∀ e ∈ env, HasPrefix e (lit "DECODE_JSON_LOGS=") = false) :
    IsDecodeJsonLogs.scan d env = d := by
  induction env generalizing d with
  | nil => rfl
  | cons e env ih =>
    have he := h e (List.mem_cons_self _ _)
    simp only [IsDecodeJsonLogs.scan, he]
    exact ih d (fun x hx => h x (List.mem_cons_of_mem _ hx))

theorem IsDecodeJsonLogs_scan_last (d v : GoString) (pre post : List GoString)
    (hpost : ∀ e ∈ post, HasPrefix e (lit "DECODE_JSON_LOGS=") = false) :
    IsDecodeJsonLogs.scan d (pre ++ (lit "DECODE_JSON_LOGS=" ++ v) :: post) = v := by
  induction pre generalizing d with
  | nil =>
    simp only [List.nil_append, IsDecodeJsonLogs.scan, HasPrefix_append, TrimPrefix_append,
      if_true]
    exact IsDecodeJsonLogs_scan_none v post hpost
  | cons e pre ih =>
    by_cases he : HasPrefix e (lit "DECODE_JSON_LOGS=") = true
    · simp only [List.cons_append, IsDecodeJsonLogs.scan, he, if_true]
      exact ih _
    · simp only [List.cons_append, IsDecodeJsonLogs.scan, he]
      exact ih _

theorem GetContainerTags_scan_default (d d2 : GoString) (env : List GoString)
    (h : ∃ e ∈ env, HasPrefix e (lit "LOGSTASH_TAGS=") = true) :
    GetContainerTags.scan d env = GetContainerTags.scan d2 env := by
  induction env with
  | nil => simp at h
  | cons e env ih =>
    by_cases he : HasPrefix e (lit "LOGSTASH_TAGS=") = true
    · simp only [GetContainerTags.scan, he, if_true]
    · obtain ⟨x, hx, hp⟩ := h
      rcases List.mem_cons.1 hx with h1 | h1
      · exact absurd (h1 ▸ hp) he
      · simp only [GetContainerTags.scan, he]
        exact ih ⟨x, h1, hp⟩

theorem GetLogstashFields_scan_default (d d2 : GoString) (env : List GoString)
    (h : ∃ e ∈ env, HasPrefix e (lit "LOGSTASH_FIELDS=") = true) :
    GetLogstashFields.scan d env = GetLogstashFields.scan d2 env := by
  induction env generalizing d d2 with
  | nil => simp at h
  | cons e env ih =>
    by_cases he : HasPrefix e (lit "LOGSTASH_FIELDS=") = true
    · simp only [GetLogstashFields.scan, he, if_true]
    · obtain ⟨x, hx, hp⟩ := h
      rcases List.mem_cons.1 hx with h1 | h1
      · exact absurd (h1 ▸ hp) he
      · simp only [GetLogstashFields.scan, he]
        exact ih d d2 ⟨x, h1, hp⟩

theorem IsDecodeJsonLogs_scan_default (d d2 : GoString) (env : List GoString)
    (h : ∃ e ∈ env, HasPrefix e (lit "DECODE_JSON_LOGS=") = true) :
    IsDecodeJsonLogs.scan d env = IsDecodeJsonLogs.scan d2 env := by
  induction env generalizing d d2 with
  | nil => simp at h
  | cons e env ih =>
    by_cases he : HasPrefix e (lit "DECODE_JSON_LOGS=") = true
    · simp only [IsDecodeJsonLogs.scan, he, if_true]
    · obtain ⟨x, hx, hp⟩ := h
      rcases List.mem_cons.1 hx with h1 | h1
      · exact absurd (h1 ▸ hp) he
      · simp only [IsDecodeJsonLogs.scan, he]
        exact ih d d2 ⟨x, h1, hp⟩

/-- Claim C12.  On a cache miss, with `s` the string that `IsDecodeJsonLogs`
resolves: `s` is the value of the last env entry with the prefix
`DECODE_JSON_LOGS=` when there is one and the process-wide
`DECODE_JSON_LOGS` otherwise; the result is false exactly when `s` is
`false`, and it is true for every other string, the empty string
included. -/
theorem IsDecodeJsonLogs_of_resolved_string (os : Environ) (c : Container)
    (a : LogstashAdapter) (s : GoString) (hmiss : a.decodeJsonLogs.get c.ID = none)
    (hs : IsDecodeJsonLogs.scan (Getenv os (lit "DECODE_JSON_LOGS")) c.Config.Env = s) :
    (∀ pre v post, c.Config.Env = pre ++ (lit "DECODE_JSON_LOGS=" ++ v) :: post →
        (∀ e ∈ post, HasPrefix e (lit "DECODE_JSON_LOGS=") = false) → s = v) ∧
    ((∀ e ∈ c.Config.Env, HasPrefix e (lit "DECODE_JSON_LOGS=") = false) →
        s = Getenv os (lit "DECODE_JSON_LOGS")) ∧
    ((IsDecodeJsonLogs os c a).1 = false ↔ s = lit "false") ∧
    (s ≠ lit "false" → (IsDecodeJsonLogs os c a).1 = true) ∧
    (s = [] → (IsDecodeJsonLogs os c a).1 = true) := by
  have hval : (IsDecodeJsonLogs os c a).1 = decide (s ≠ lit "false") := by
    simp only [IsDecodeJsonLogs, hmiss, hs]
  refine ⟨?_, ?_, ?_, ?_, ?_⟩
  · intro pre v post henv hpost
    rw [← hs, henv]
    exact IsDecodeJsonLogs_scan_last _ v pre post hpost
  · intro hno
    rw [← hs]
    exact IsDecodeJsonLogs_scan_none _ _ hno
  · rw [hval]
    simp
  · intro hne
    rw [hval]
    simp [hne]
  · intro he
    rw [hval, he]
    decide

theorem IsDecodeJsonLogs_of_resolved_string_witness :
    (IsDecodeJsonLogs [(lit "DECODE_JSON_LOGS", lit "true")]
        (exampleContainer (lit "ID")
          [lit "DECODE_JSON_LOGS=yes", lit "NON_LOGSTASH_TAGS=not,logstash",
           lit "DECODE_JSON_LOGS=false"]) exampleAdapter).1 = false ∧
    (IsDecodeJsonLogs [] (exampleContainer (lit "ID") [lit "NON_LOGSTASH_TAGS=not,logstash"])
        exampleAdapter).1 = true :=
  ⟨(IsDecodeJsonLogs_of_resolved_string [(lit "DECODE_JSON_LOGS", lit "true")]
      (exampleContainer (lit "ID")
        [lit "DECODE_JSON_LOGS=yes", lit "NON_LOGSTASH_TAGS=not,logstash",
         lit "DECODE_JSON_LOGS=false"]) exampleAdapter (lit "false") rfl (by decide)).2.2.1.2
      rfl,
   (IsDecodeJsonLogs_of_resolved_string [] (exampleContainer (lit "ID")
      [lit "NON_LOGSTASH_TAGS=not,logstash"]) exampleAdapter [] rfl (by decide)).2.2.2.2 rfl⟩

/-- Claim C13.  On cache misses, for `GetContainerTags`, `GetLogstashFields`
and `IsDecodeJsonLogs`: when the container's env has an entry with the
prefix of the operation, the result is the same for every process
environment (`os` and `os2`), so an entry with an empty value overrides a
default that is not empty; when the env has no such entry, the result is
the one computed from the process-wide default string. -/
theorem container_env_overrides_default (os os2 : Environ) (c : Container)
    (a : LogstashAdapter) (ht : a.containerTags.get c.ID = none)
    (hf : a.logstashFields.get c.ID = none) (hd : a.decodeJsonLogs.get c.ID = none) :
    ((∃ e ∈ c.Config.Env, HasPrefix e (lit "LOGSTASH_TAGS=") = true) →
        (GetContainerTags os c a).1 = (GetContainerTags os2 c a).1) ∧
    ((∀ e ∈ c.Config.Env, HasPrefix e (lit "LOGSTASH_TAGS=") = false) →
        (GetContainerTags os c a).1 = GetContainerTags.split (Getenv os (lit "LOGSTASH_TAGS"))) ∧
    ((∃ e ∈ c.Config.Env, HasPrefix e (lit "LOGSTASH_FIELDS=") = true) →
        (GetLogstashFields os c a).1 = (GetLogstashFields os2 c a).1) ∧
    ((∀ e ∈ c.Config.Env, HasPrefix e (lit "LOGSTASH_FIELDS=") = false) →
        (GetLogstashFields os c a).1 =
          (match GetLogstashFields.parse (Getenv os (lit "LOGSTASH_FIELDS")) with
           | some fields => Outcome.ok fields
           | none => Outcome.panic)) ∧
    ((∃ e ∈ c.Config.Env, HasPrefix e (lit "DECODE_JSON_LOGS=") = true) →
        (IsDecodeJsonLogs os c a).1 = (IsDecodeJsonLogs os2 c a).1) ∧
    ((∀ e ∈ c.Config.Env, HasPrefix e (lit "DECODE_JSON_LOGS=") = false) →
        (IsDecodeJsonLogs os c a).1
          = decide (Getenv os (lit "DECODE_JSON_LOGS") ≠ lit "false")) := by
  refine ⟨?_, ?_, ?_, ?_, ?_, ?_⟩
  · intro h
    simp only [GetContainerTags, ht]
    rw [GetContainerTags_scan_default _ (Getenv os2 (lit "LOGSTASH_TAGS")) _ h]
  · intro h
    simp only [GetContainerTags, ht]
    rw [GetContainerTags_scan_none _ _ h]
  · intro h
    simp only [GetLogstashFields, hf]
    rw [GetLogstashFields_scan_default _ (Getenv os2 (lit "LOGSTASH_FIELDS")) _ h]
  · intro h
    simp only [GetLogstashFields, hf]
    rw [GetLogstashFields_scan_none _ _ h]
    cases GetLogstashFields.parse (Getenv os (lit "LOGSTASH_FIELDS")) <;> rfl
  · intro h
    simp only [IsDecodeJsonLogs, hd]
    rw [IsDecodeJsonLogs_scan_default _ (Getenv os2 (lit "DECODE_JSON_LOGS")) _ h]
  · intro h
    simp only [IsDecodeJsonLogs, hd]
    rw [IsDecodeJsonLogs_scan_none _ _ h]

theorem container_env_overrides_default_witness :
    (GetContainerTags [(lit "LOGSTASH_TAGS", lit "example,tags")]
        (exampleContainer (lit "ID") [lit "LOGSTASH_TAGS="]) exampleAdapter).1 = [] ∧
    (GetContainerTags [(lit "LOGSTASH_TAGS", lit "example,tags")]
        (exampleContainer (lit "ID") [lit "NON_LOGSTASH_TAGS=not,logstash"])
        exampleAdapter).1 = [lit "example", lit "tags"] :=
  ⟨((container_env_overrides_default [(lit "LOGSTASH_TAGS", lit "example,tags")] []
      (exampleContainer (lit "ID") [lit "LOGSTASH_TAGS="]) exampleAdapter rfl rfl rfl).1
      ⟨lit "LOGSTASH_TAGS=", by decide, by decide⟩).trans (by decide),
   ((container_env_overrides_default [(lit "LOGSTASH_TAGS", lit "example,tags")] []
      (exampleContainer (lit "ID") [lit "NON_LOGSTASH_TAGS=not,logstash"]) exampleAdapter
      rfl rfl rfl).2.1 (by decide)).trans (by decide)⟩

/-! ## `Merge` -/

theorem rawGet_eq_some_iff_mem {V : Type} (k : GoString) (v : V) (es : List (GoString × V))
    (hnd : (es.map Prod.fst).Nodup) : rawGet k es = some v ↔ (k, v) ∈ es := by
  induction es with
  | nil => simp [rawGet]
  | cons e es ih =>
    obtain ⟨k1, v1⟩ := e
    simp only [List.map_cons, List.nodup_cons] at hnd
    by_cases h : k1 = k
    · subst h
      simp only [rawGet, if_true, Option.some.injEq, List.mem_cons, Prod.mk.injEq, true_and]
      constructor
      · intro h1
        exact Or.inl h1.symm
      · rintro (h1 | h1)
        · exact h1.symm
        · exact absurd (List.mem_map_of_mem Prod.fst h1) hnd.1
    · have h2 : ¬ k = k1 := fun h3 => h h3.symm
      simp only [rawGet, h, if_false, ih hnd.2, List.mem_cons, Prod.mk.injEq, h2, false_and,
        false_or]

theorem pod_key_injective (i j : GoString) (h : lit "pod_" ++ i = lit "pod_" ++ j) : i = j :=
  List.append_cancel_left h

theorem Merge_loop_mono (visit : List (GoString × GoString)) (m : GoMap GoString)
    (x : GoString) (hx : m.get x ≠ none) : (Merge.loop visit m).get x ≠ none := by
  induction visit generalizing m with
  | nil => exact hx
  | cons e rest ih =>
    obtain ⟨i, w⟩ := e
    simp only [Merge.loop]
    cases m.get i with
    | none =>
      apply ih
      rw [GoMap_get_set]
      split
      · simp
      · exact hx
    | some d =>
      apply ih
      rw [GoMap_get_set]
      split
      · simp
      · exact hx

theorem Merge_loop_stable (visit : List (GoString × GoString)) (m : GoMap GoString)
    (x v : GoString) (hx : m.get x = some v)
    (hpod : ∀ i ∈ visit.map Prod.fst, lit "pod_" ++ i ≠ x) :
    (Merge.loop visit m).get x = some v := by
  induction visit generalizing m with
  | nil => exact hx
  | cons e rest ih =>
    obtain ⟨i, w⟩ := e
    have hrest : ∀ i ∈ rest.map Prod.fst, lit "pod_" ++ i ≠ x :=
      fun j hj => hpod j (List.mem_cons_of_mem _ hj)
    simp only [Merge.loop]
    cases hi : m.get i with
    | none =>
      have hne : x ≠ i := by
        intro h
        rw [h, hi] at hx
        exact Option.noConfusion hx
      exact ih _ (by rw [GoMap_get_set_ne _ _ _ _ hne]; exact hx) hrest
    | some d =>
      have hne : x ≠ lit "pod_" ++ i := fun h => hpod i (by simp) h.symm
      exact ih _ (by rw [GoMap_get_set_ne _ _ _ _ hne]; exact hx) hrest

theorem Merge_loop_collision (visit : List (GoString × GoString)) (m : GoMap GoString)
    (k v : GoString) (hnd : (visit.map Prod.fst).Nodup) (hk : (k, v) ∈ visit)
    (hm : m.get k ≠ none) : (Merge.loop visit m).get (lit "pod_" ++ k) = some v := by
  induction visit generalizing m with
  | nil => simp at hk
  | cons e rest ih =>
    obtain ⟨i, w⟩ := e
    simp only [List.map_cons, List.nodup_cons] at hnd
    by_cases hik : i = k
    · subst hik
      have hw : w = v := by
        rcases List.mem_cons.1 hk with h | h
        · exact (Prod.mk.inj h).2.symm
        · exact absurd (List.mem_map_of_mem Prod.fst h) hnd.1
      subst hw
      simp only [Merge.loop]
      cases hi : m.get i with
      | none => exact absurd hi hm
      | some d =>
        apply Merge_loop_stable
        · exact GoMap_get_set_self _ _ _
        · intro j hj h
          have := pod_key_injective _ _ h
          exact hnd.1 (this ▸ hj)
    · have hk2 : (k, v) ∈ rest := by
        rcases List.mem_cons.1 hk with h | h
        · exact absurd (Prod.mk.inj h).1.symm hik
        · exact h
      simp only [Merge.loop]
      cases m.get i with
      | none =>
        apply ih _ hnd.2 hk2
        rw [GoMap_get_set]
        split
        · simp
        · exact hm
      | some d =>
        apply ih _ hnd.2 hk2
        rw [GoMap_get_set]
        split
        · simp
        · exact hm

theorem Merge_loop_noAlias_step (i w : GoString) (rest : List (GoString × GoString))
    (m : GoMap GoString) (hnd : (((i, w) :: rest).map Prod.fst).Nodup)
    (hna : ∀ j ∈ ((i, w) :: rest).map Prod.fst, m.get j ≠ none →
      lit "pod_" ++ j ∉ ((i, w) :: rest).map Prod.fst) :
    ∀ j ∈ rest.map Prod.fst,
      (match m.get i with
        | none => m.set i w
        | some _ => m.set (lit "pod_" ++ i) w).get j ≠ none →
      lit "pod_" ++ j ∉ rest.map Prod.fst := by
  intro j hj hget hmem
  simp only [List.map_cons, List.nodup_cons] at hnd
  have hjv : j ∈ ((i, w) :: rest).map Prod.fst := List.mem_cons_of_mem _ hj
  by_cases hmj : m.get j = none
  · cases hi : m.get i with
    | none =>
      rw [hi] at hget
      simp only at hget
      rw [GoMap_get_set] at hget
      by_cases hji : j = i
      · exact hnd.1 (hji ▸ hj)
      · rw [if_neg hji] at hget
        exact hget hmj
    | some d =>
      rw [hi] at hget
      simp only at hget
      rw [GoMap_get_set] at hget
      by_cases hji : j = lit "pod_" ++ i
      · have := hna i (by simp) (by rw [hi]; simp)
        exact this (hji ▸ hjv)
      · rw [if_neg hji] at hget
        exact hget hmj
  · exact hna j hjv hmj (List.mem_cons_of_mem _ hmem)

theorem Merge_loop_keep (visit : List (GoString × GoString)) (m : GoMap GoString)
    (k v : GoString) (hnd : (visit.map Prod.fst).Nodup)
    (hna : ∀ j ∈ visit.map Prod.fst, m.get j ≠ none → lit "pod_" ++ j ∉ visit.map Prod.fst)
    (hk : m.get k = some v)
    (hfree : ∀ j ∈ visit.map Prod.fst, lit "pod_" ++ j = k → m.get j = none) :
    (Merge.loop visit m).get k = some v := by
  induction visit generalizing m with
  | nil => exact hk
  | cons e rest ih =>
    obtain ⟨i, w⟩ := e
    have hstep := Merge_loop_noAlias_step i w rest m hnd hna
    have hnd2 := hnd
    simp only [List.map_cons, List.nodup_cons] at hnd2
    simp only [Merge.loop]
    cases hi : m.get i with
    | none =>
      rw [hi] at hstep
      have hne : k ≠ i := by
        intro h
        rw [h, hi] at hk
        exact Option.noConfusion hk
      apply ih _ hnd2.2 hstep
      · rw [GoMap_get_set_ne _ _ _ _ hne]
        exact hk
      · intro j hj hjk
        have hji : j ≠ i := fun h => hnd2.1 (h ▸ hj)
        rw [GoMap_get_set_ne _ _ _ _ hji]
        exact hfree j (List.mem_cons_of_mem _ hj) hjk
    | some d =>
      rw [hi] at hstep
      have hne : k ≠ lit "pod_" ++ i := by
        intro h
        have := hfree i (by simp) h.symm
        rw [hi] at this
        exact Option.noConfusion this
      apply ih _ hnd2.2 hstep
      · rw [GoMap_get_set_ne _ _ _ _ hne]
        exact hk
      · intro j hj hjk
        have hji : j ≠ lit "pod_" ++ i := by
          intro h
          have := hna i (by simp) (by rw [hi]; simp)
          exact this (h ▸ List.mem_cons_of_mem _ hj)
        rw [GoMap_get_set_ne _ _ _ _ hji]
        exact hfree j (List.mem_cons_of_mem _ hj) hjk

theorem Merge_loop_fresh (visit : List (GoString × GoString)) (m : GoMap GoString)
    (k v : GoString) (hnd : (visit.map Prod.fst).Nodup)
    (hna : ∀ j ∈ visit.map Prod.fst, m.get j ≠ none → lit "pod_" ++ j ∉ visit.map Prod.fst)
    (hk : (k, v) ∈ visit) (hm : m.get k = none) :
    (Merge.loop visit m).get k = some v := by
  induction visit generalizing m with
  | nil => simp at hk
  | cons e rest ih =>
    obtain ⟨i, w⟩ := e
    have hstep := Merge_loop_noAlias_step i w rest m hnd hna
    have hnd2 := hnd
    simp only [List.map_cons, List.nodup_cons] at hnd2
    have hkv : k ∈ ((i, w) :: rest).map Prod.fst := List.mem_map_of_mem Prod.fst hk
    by_cases hik : i = k
    · subst hik
      have hw : w = v := by
        rcases List.mem_cons.1 hk with h | h
        · exact (Prod.mk.inj h).2.symm
        · exact absurd (List.mem_map_of_mem Prod.fst h) hnd2.1
      subst hw
      simp only [Merge.loop, hm]
      rw [hm] at hstep
      apply Merge_loop_keep _ _ _ _ hnd2.2 hstep (GoMap_get_set_self _ _ _)
      intro j hj hjk
      have hji : j ≠ i := fun h => hnd2.1 (h ▸ hj)
      rw [GoMap_get_set_ne _ _ _ _ hji]
      by_contra hc
      exact hna j (List.mem_cons_of_mem _ hj) hc (hjk ▸ hkv)
    · have hk2 : (k, v) ∈ rest := by
        rcases List.mem_cons.1 hk with h | h
        · exact absurd (Prod.mk.inj h).1.symm hik
        · exact h
      have hki : k ≠ i := fun h => hik h.symm
      simp only [Merge.loop]
      cases hi : m.get i with
      | none =>
        rw [hi] at hstep
        apply ih _ hnd2.2 hstep hk2
        rw [GoMap_get_set_ne _ _ _ _ hki]
        exact hm
      | some d =>
        rw [hi] at hstep
        have hne : k ≠ lit "pod_" ++ i := by
          intro h
          have := hna i (by simp) (by rw [hi]; simp)
          exact this (h ▸ hkv)
        apply ih _ hnd2.2 hstep hk2
        rw [GoMap_get_set_ne _ _ _ _ hne]
        exact hm

theorem Merge_visit_nodup (src : GoMap GoString) (visit : List (GoString × GoString))
    (hperm : visit.Perm src.entries) : (visit.map Prod.fst).Nodup :=
  ((hperm.map Prod.fst).nodup_iff).2 src.nodup

theorem Merge_visit_mem (src : GoMap GoString) (visit : List (GoString × GoString))
    (hperm : visit.Perm src.entries) (k v : GoString) (hk : src.get k = some v) :
    (k, v) ∈ visit :=
  hperm.mem_iff.2 ((rawGet_eq_some_iff_mem k v src.entries src.nodup).1 hk)

theorem Merge_visit_noAlias (src dst : GoMap GoString) (visit : List (GoString × GoString))
    (hperm : visit.Perm src.entries) (hna : Merge.noAlias src dst) :
    ∀ j ∈ visit.map Prod.fst, dst.get j ≠ none → lit "pod_" ++ j ∉ visit.map Prod.fst := by
  intro j hj hd hmem
  have hkeys : ∀ x, x ∈ visit.map Prod.fst ↔ x ∈ src.keys :=
    fun x => (hperm.map Prod.fst).mem_iff
  exact hna j ((hkeys j).1 hj) hd ((hkeys _).1 hmem)

/-- Claim C14, as the claim states it, fails: with `src` holding `a` and
`pod_a` and `dst` holding `a`, the key `pod_a` of `src` is not a key of
`dst`, yet the result has under `pod_a` the value of `a`, not the value of
`pod_a`, in both orders of the visit. -/
theorem Merge_aliased_key_not_copied :
    exampleSrc.get (lit "pod_a") = some (lit "2") ∧
    exampleDst.get (lit "pod_a") = none ∧
    (Merge (some exampleSrc) exampleDst).get (lit "pod_a") = some (lit "1") ∧
    (Merge (some exampleSrcRev) exampleDst).get (lit "pod_a") = some (lit "1") := by
  decide

/-- Claim C14, amended.  For every pair of maps and every order `visit` in
which the entries of `src` are visited (`Merge` visits them in the order
of `src.entries`): a key `k` of `src` that is a key of the original `dst`
has `src[k]` under `"pod_" + k` in the result; a key `k` of `src` that is
not a key of the original `dst` has `src[k]` under `k` in the result,
provided that no key present in both `src` and `dst` has `"pod_" + key`
as a key of `src`. -/
theorem Merge_assigns_src_entries (src dst : GoMap GoString)
    (visit : List (GoString × GoString)) (hperm : visit.Perm src.entries)
    (k v : GoString) (hk : src.get k = some v) :
    Merge (some src) dst = Merge.loop src.entries dst ∧
    (dst.get k = none → Merge.noAlias src dst → (Merge.loop visit dst).get k = some v) ∧
    (dst.get k ≠ none → (Merge.loop visit dst).get (lit "pod_" ++ k) = some v) := by
  have hnd := Merge_visit_nodup src visit hperm
  have hmem := Merge_visit_mem src visit hperm k v hk
  refine ⟨rfl, ?_, ?_⟩
  · intro hd hna
    exact Merge_loop_fresh visit dst k v hnd (Merge_visit_noAlias src dst visit hperm hna)
      hmem hd
  · intro hd
    exact Merge_loop_collision visit dst k v hnd hmem hd

theorem Merge_assigns_src_entries_witness :
    (Merge (some exampleMergeSrc) exampleMergeDst).get (lit "app") = some (lit "myapp") ∧
    (Merge (some exampleMergeSrc) exampleMergeDst).get (lit "pod_release")
      = some (lit "bibbling-trouser") :=
  ⟨(Merge_assigns_src_entries exampleMergeSrc exampleMergeDst exampleMergeSrc.entries
      (List.Perm.refl _) (lit "app") (lit "myapp") (by decide)).2.1 (by decide)
      (by unfold Merge.noAlias; decide),
   (Merge_assigns_src_entries exampleMergeSrc exampleMergeDst exampleMergeSrc.entries
      (List.Perm.refl _) (lit "release") (lit "bibbling-trouser") (by decide)).2.2
      (by decide)⟩

/-- Claim C15, as the claim states it, fails: with `src` holding `a` and
`pod_a` and `dst` holding `a` and `pod_a`, the key `pod_a` is present in
both, yet the result has under `pod_a` the value of `a` in `src`, not the
original value of `dst`. -/
theorem Merge_aliased_key_overwritten :
    exampleSrc.get (lit "pod_a") = some (lit "2") ∧
    exampleDstBoth.get (lit "pod_a") = some (lit "9") ∧
    (Merge (some exampleSrc) exampleDstBoth).get (lit "pod_a") = some (lit "1") ∧
    (Merge (some exampleSrcRev) exampleDstBoth).get (lit "pod_a") = some (lit "1") := by
  decide

/-- Claim C15, amended.  For every pair of maps such that no key present in
both `src` and `dst` has `"pod_" + key` as a key of `src`, and every
order `visit` in which the entries of `src` are visited (`Merge` visits
them in the order of `src.entries`): every key `k` present in both `src`
and `dst` has in the result the value that the original `dst` has under
`k`. -/
theorem Merge_keeps_dst_on_collision (src dst : GoMap GoString)
    (visit : List (GoString × GoString)) (hperm : visit.Perm src.entries)
    (hna : Merge.noAlias src dst) (k d : GoString) (hs : src.get k ≠ none)
    (hd : dst.get k = some d) :
    Merge (some src) dst = Merge.loop src.entries dst ∧
    (Merge.loop visit dst).get k = some d := by
  have hnd := Merge_visit_nodup src visit hperm
  have hna2 := Merge_visit_noAlias src dst visit hperm hna
  have hkv : k ∈ visit.map Prod.fst :=
    (hperm.map Prod.fst).mem_iff.2 ((GoMap_mem_keys_iff src k).2 hs)
  refine ⟨rfl, Merge_loop_keep visit dst k d hnd hna2 hd ?_⟩
  intro j hj hjk
  by_contra hc
  exact hna2 j hj hc (hjk ▸ hkv)

theorem Merge_keeps_dst_on_collision_witness :
    (Merge (some exampleMergeSrc) exampleMergeDst).get (lit "release") = some (lit "12345") :=
  (Merge_keeps_dst_on_collision exampleMergeSrc exampleMergeDst exampleMergeSrc.entries
    (List.Perm.refl _) (by unfold Merge.noAlias; decide) (lit "release") (lit "12345")
    (by decide) (by decide)).2

/-! ## `SelectContainerLabels` -/

theorem rawSet_of_not_mem {V : Type} (k : GoString) (v : V) (es : List (GoString × V))
    (h : k ∉ es.map Prod.fst) : rawSet k v es = es ++ [(k, v)] := by
  induction es with
  | nil => rfl
  | cons e es ih =>
    obtain ⟨k1, v1⟩ := e
    simp only [List.map_cons, List.mem_cons, not_or] at h
    have h1 : ¬ k1 = k := fun h2 => h.1 h2.symm
    simp [rawSet, h1, ih h.2]

theorem GoMap_ext {V : Type} (m1 m2 : GoMap V) (h : m1.entries = m2.entries) : m1 = m2 := by
  cases m1
  cases m2
  simp only [GoMap.mk.injEq]
  exact h

theorem rawGet_filter_key {V : Type} (p : GoString → Bool) (k : GoString)
    (es : List (GoString × V)) :
    rawGet k (es.filter (fun e => p e.1)) = if p k = true then rawGet k es else none := by
  induction es with
  | nil => simp [rawGet]
  | cons e es ih =>
    obtain ⟨k1, v1⟩ := e
    by_cases hp : p k1 = true
    · by_cases hk : k1 = k
      · subst hk
        simp [List.filter, hp, rawGet]
      · simp only [List.filter, hp, rawGet, hk, if_false, ih]
    · have hp2 : p k1 = false := by simpa using hp
      by_cases hk : k1 = k
      · subst hk
        simp only [List.filter, hp2, ih, rawGet]
        simp
      · simp only [List.filter, hp2, rawGet, hk, if_false, ih]

theorem SelectContainerLabels_loop_entries (result : GoMap GoString)
    (es : List (GoString × GoString)) (hnd : (es.map Prod.fst).Nodup)
    (hdisj : ∀ k ∈ es.map Prod.fst, k ∉ result.keys) :
    (SelectContainerLabels.loop result es).entries =
      result.entries ++ es.filter
        (fun e => !(HasPrefix e.1 K8S_IO_PREFIX || HasPrefix e.1 K8S_ANNOTATION_PREFIX)) := by
  induction es generalizing result with
  | nil => simp [SelectContainerLabels.loop]
  | cons e es ih =>
    obtain ⟨k, v⟩ := e
    simp only [List.map_cons, List.nodup_cons] at hnd
    have hrest : ∀ k2 ∈ es.map Prod.fst, k2 ∉ result.keys :=
      fun k2 h2 => hdisj k2 (List.mem_cons_of_mem _ h2)
    by_cases hp : (HasPrefix k K8S_IO_PREFIX || HasPrefix k K8S_ANNOTATION_PREFIX) = true
    · simp only [SelectContainerLabels.loop, hp, if_true, List.filter, Bool.not_true]
      exact ih result hnd.2 hrest
    · have hp2 : (HasPrefix k K8S_IO_PREFIX || HasPrefix k K8S_ANNOTATION_PREFIX) = false := by
        simpa using hp
      have hk : k ∉ result.entries.map Prod.fst := hdisj k (by simp)
      have hset : (result.set k v).entries = result.entries ++ [(k, v)] :=
        rawSet_of_not_mem k v result.entries hk
      simp only [SelectContainerLabels.loop, hp2, List.filter, Bool.not_false, Bool.false_eq_true,
        if_false]
      rw [ih (result.set k v) hnd.2, hset]
      · simp
      · intro k2 h2 hmem
        unfold GoMap.keys at hmem
        rw [hset] at hmem
        simp only [List.map_append, List.map_cons, List.map_nil, List.mem_append,
          List.mem_singleton] at hmem
        rcases hmem with h3 | h3
        · exact hrest k2 h2 h3
        · exact hnd.1 (h3 ▸ h2)

theorem SelectContainerLabels_entries (source : GoMap GoString) :
    (SelectContainerLabels source).entries = source.entries.filter
      (fun e => !(HasPrefix e.1 K8S_IO_PREFIX || HasPrefix e.1 K8S_ANNOTATION_PREFIX)) := by
  unfold SelectContainerLabels
  rw [SelectContainerLabels_loop_entries GoMap.empty source.entries source.nodup
    (fun k _ h => by simp [GoMap.keys, GoMap.empty] at h)]
  simp [GoMap.empty]

theorem SelectContainerLabels_get (source : GoMap GoString) (k : GoString) :
    (SelectContainerLabels source).get k =
      if (HasPrefix k K8S_IO_PREFIX || HasPrefix k K8S_ANNOTATION_PREFIX) = true then none
      else source.get k := by
  unfold GoMap.get
  rw [SelectContainerLabels_entries,
    rawGet_filter_key (fun x => !(HasPrefix x K8S_IO_PREFIX || HasPrefix x K8S_ANNOTATION_PREFIX))]
  by_cases hp : (HasPrefix k K8S_IO_PREFIX || HasPrefix k K8S_ANNOTATION_PREFIX) = true
  · simp [hp]
  · simp [hp]

/-- Claim C16.  For every map `source`, `SelectContainerLabels source` has
exactly the entries of `source` whose key starts with neither
`io.kubernetes.` nor `annotation.kubernetes.io/`, with their values, and
applying `SelectContainerLabels` to its own result gives the same map.
The function only reads `source`: its loop assigns to `result` alone. -/
theorem SelectContainerLabels_keeps_unprefixed (source : GoMap GoString) :
    (∀ k v, (SelectContainerLabels source).get k = some v ↔
        (source.get k = some v ∧ HasPrefix k (lit "io.kubernetes.") = false
          ∧ HasPrefix k (lit "annotation.kubernetes.io/") = false)) ∧
    SelectContainerLabels (SelectContainerLabels source) = SelectContainerLabels source := by
  constructor
  · intro k v
    rw [SelectContainerLabels_get]
    show (if (HasPrefix k (lit "io.kubernetes.") || HasPrefix k (lit "annotation.kubernetes.io/"))
        = true then none else source.get k) = some v ↔ _
    cases h1 : HasPrefix k (lit "io.kubernetes.") <;>
      cases h2 : HasPrefix k (lit "annotation.kubernetes.io/") <;> simp
  · apply GoMap_ext
    rw [SelectContainerLabels_entries, SelectContainerLabels_entries, List.filter_filter]
    simp

/-! ## `GetPodLabels` -/

theorem GetDockerLabels_labels (a : LogstashAdapter) :
    (GetDockerLabels a).1 =
      (match a.client.Info with
       | .error _ => none
       | .ok info => some (hostLevelLabels info)) := by
  unfold GetDockerLabels
  cases a.client.Info <;> rfl

theorem GetPodLabels_loop_leader (c : Container) (current_labels : GoMap GoString)
    (a : LogstashAdapter) (ctr : APIContainers) (rest : List APIContainers)
    (h : GetPodLabels.isLeader c ctr = true) :
    GetPodLabels.loop c current_labels a (ctr :: rest) =
      some (Merge (GetDockerLabels a).1
          (Merge (some (SelectContainerLabels ctr.Labels)) current_labels),
        { a with
          k8sLabels := (a.k8sLabels.set c.ID
              (Merge (some (SelectContainerLabels ctr.Labels)) current_labels)).set c.ID
            (Merge (GetDockerLabels a).1
              (Merge (some (SelectContainerLabels ctr.Labels)) current_labels)),
          trace := a.trace ++ [Event.info] }) := by
  have hc : ctr.Labels.index K8S_POD_UID_LABEL = c.Config.Labels.index K8S_POD_UID_LABEL
      ∧ ctr.Labels.index K8S_POD_TYPE_LABEL = K8S_POD_PARENT_TYPE := by
    simpa [GetPodLabels.isLeader] using h
  simp only [GetPodLabels.loop, if_pos hc, GetDockerLabels]
  cases a.client.Info <;> simp [GoMap_get_set_self]

theorem GetPodLabels_loop_skip (c : Container) (current_labels : GoMap GoString)
    (a : LogstashAdapter) (ctr : APIContainers) (rest : List APIContainers)
    (h : GetPodLabels.isLeader c ctr = false) :
    GetPodLabels.loop c current_labels a (ctr :: rest)
      = GetPodLabels.loop c current_labels a rest := by
  have hc : ¬ (ctr.Labels.index K8S_POD_UID_LABEL = c.Config.Labels.index K8S_POD_UID_LABEL
      ∧ ctr.Labels.index K8S_POD_TYPE_LABEL = K8S_POD_PARENT_TYPE) := by
    simpa [GetPodLabels.isLeader] using h
  simp only [GetPodLabels.loop, if_neg hc]

theorem GetPodLabels_loop_first (c : Container) (current_labels : GoMap GoString)
    (a : LogstashAdapter) (pre post : List APIContainers) (leader : APIContainers)
    (hpre : ∀ x ∈ pre, GetPodLabels.isLeader c x = false)
    (hleader : GetPodLabels.isLeader c leader = true) :
    GetPodLabels.loop c current_labels a (pre ++ leader :: post)
      = GetPodLabels.loop c current_labels a [leader] := by
  induction pre with
  | nil =>
    rw [List.nil_append, GetPodLabels_loop_leader _ _ _ _ _ hleader,
      GetPodLabels_loop_leader _ _ _ _ _ hleader]
  | cons x pre ih =>
    rw [List.cons_append, GetPodLabels_loop_skip _ _ _ _ _ (hpre x (List.mem_cons_self _ _))]
    exact ih (fun y hy => hpre y (List.mem_cons_of_mem _ hy))

theorem GetPodLabels_loop_none (c : Container) (current_labels : GoMap GoString)
    (a : LogstashAdapter) (containers : List APIContainers)
    (h : ∀ x ∈ containers, GetPodLabels.isLeader c x = false) :
    GetPodLabels.loop c current_labels a containers = none := by
  induction containers with
  | nil => rfl
  | cons x rest ih =>
    rw [GetPodLabels_loop_skip _ _ _ _ _ (h x (List.mem_cons_self _ _))]
    exact ih (fun y hy => h y (List.mem_cons_of_mem _ hy))

theorem GetPodLabels_of_list (c : Container) (current_labels : GoMap GoString)
    (a : LogstashAdapter) (containers : List APIContainers)
    (hmiss : a.k8sLabels.get c.ID = none)
    (huid : c.Config.Labels.get K8S_POD_UID_LABEL ≠ none)
    (hlist : a.client.ListContainers
      (K8S_POD_UID_LABEL ++ lit "=" ++ c.Config.Labels.index K8S_POD_UID_LABEL)
        = .ok containers) :
    GetPodLabels c current_labels a =
      (match GetPodLabels.loop c current_labels
          { a with trace := a.trace ++ [Event.listContainers
            (K8S_POD_UID_LABEL ++ lit "=" ++ c.Config.Labels.index K8S_POD_UID_LABEL)] }
          containers with
       | some (labels, a2) => (.ok labels, a2)
       | none => (.ok current_labels,
          { a with trace := a.trace ++ [Event.listContainers
            (K8S_POD_UID_LABEL ++ lit "=" ++ c.Config.Labels.index K8S_POD_UID_LABEL)] })) := by
  unfold GetPodLabels
  rw [hmiss]
  cases hu : c.Config.Labels.get K8S_POD_UID_LABEL with
  | none => exact absurd hu huid
  | some u =>
    simp only [hlist]

/-- Claim C19.  For every container whose labels have no key
`io.kubernetes.pod.uid` and that has no cached pod labels, `GetPodLabels`
returns the labels of the caller with no error and leaves the adapter as
it was: no call of `ListContainers` or `Info` is added to the trace and
the cache of pod labels is unchanged. -/
theorem GetPodLabels_fast_path (c : Container) (current_labels : GoMap GoString)
    (a : LogstashAdapter) (hmiss : a.k8sLabels.get c.ID = none)
    (hno : c.Config.Labels.get (lit "io.kubernetes.pod.uid") = none) :
    GetPodLabels c current_labels a = (Except.ok current_labels, a) ∧
    (GetPodLabels c current_labels a).2.trace = a.trace ∧
    (GetPodLabels c current_labels a).2.k8sLabels = a.k8sLabels := by
  have h : GetPodLabels c current_labels a = (Except.ok current_labels, a) := by
    unfold GetPodLabels
    rw [hmiss]
    have hno2 : c.Config.Labels.get K8S_POD_UID_LABEL = none := hno
    simp only [hno2]
  rw [h]
  exact ⟨rfl, rfl, rfl⟩

theorem GetPodLabels_fast_path_witness :
    (GetPodLabels (exampleContainer (lit "ID") []) exampleMergeDst examplePodAdapter).2.trace
      = [] :=
  (GetPodLabels_fast_path (exampleContainer (lit "ID") []) exampleMergeDst examplePodAdapter
    rfl rfl).2.1

/-- Claim C17.  On a cache miss, when the container has the pod uid label,
`ListContainers` succeeds, `leader` is the first pod leader of its result
and `Info` succeeds with `info`, `GetPodLabels` returns with no error
`Merge(hostLevelLabels, Merge(SelectContainerLabels(leaderLabels),
currentLabels))`, where `hostLevelLabels` has the daemon name under `host`
and the daemon server version under `docker_version`. -/
theorem GetPodLabels_leader_found (c : Container) (current_labels : GoMap GoString)
    (a : LogstashAdapter) (pre post : List APIContainers) (leader : APIContainers)
    (info : DaemonInfo) (hmiss : a.k8sLabels.get c.ID = none)
    (huid : c.Config.Labels.get K8S_POD_UID_LABEL ≠ none)
    (hlist : a.client.ListContainers
      (K8S_POD_UID_LABEL ++ lit "=" ++ c.Config.Labels.index K8S_POD_UID_LABEL)
        = .ok (pre ++ leader :: post))
    (hpre : ∀ x ∈ pre, GetPodLabels.isLeader c x = false)
    (hleader : GetPodLabels.isLeader c leader = true)
    (hinfo : a.client.Info = .ok info) :
    (GetPodLabels c current_labels a).1 =
      Except.ok (Merge (some (hostLevelLabels info))
        (Merge (some (SelectContainerLabels leader.Labels)) current_labels)) ∧
    (hostLevelLabels info).get (lit "host") = some info.Name ∧
    (hostLevelLabels info).get (lit "docker_version") = some info.ServerVersion ∧
    (hostLevelLabels info).keys = [lit "host", lit "docker_version"] := by
  refine ⟨?_, ?_, ?_, ?_⟩
  · rw [GetPodLabels_of_list c current_labels a _ hmiss huid hlist,
      GetPodLabels_loop_first _ _ _ pre post leader hpre hleader,
      GetPodLabels_loop_leader _ _ _ _ _ hleader, GetDockerLabels_labels]
    simp only [hinfo]
  · unfold hostLevelLabels
    rw [GoMap_get_set_ne _ _ _ _ (by decide), GoMap_get_set_self]
  · unfold hostLevelLabels
    rw [GoMap_get_set_self]
  · rfl

theorem GetPodLabels_leader_found_witness :
    (GetPodLabels (examplePodContainer exampleOwnLabels) exampleMergeDst examplePodAdapter).1 =
      Except.ok (Merge (some (hostLevelLabels
          { Name := lit "banana-potato", ServerVersion := lit "tangerine" }))
        (Merge (some (SelectContainerLabels examplePodLabels)) exampleMergeDst)) :=
  (GetPodLabels_leader_found (examplePodContainer exampleOwnLabels) exampleMergeDst
    examplePodAdapter [{ ID := lit "deadbeef", Labels := exampleOtherLabels }] []
    { ID := lit "deadbeef", Labels := examplePodLabels }
    { Name := lit "banana-potato", ServerVersion := lit "tangerine" }
    rfl (by decide) rfl (by decide) (by decide) rfl).1

/-- Claim C20.  On a cache miss, when the container has the pod uid label
and `ListContainers` returns the list `containers`: the leader used is
the first element of the list that satisfies the leader condition, so the
labels returned are merged from its labels whatever the elements `post`
after it are; when no element satisfies the condition, the call returns
the labels of the caller with no error and writes no pod labels to the
cache. -/
theorem GetPodLabels_first_leader_wins (c : Container) (current_labels : GoMap GoString)
    (a : LogstashAdapter) (containers : List APIContainers)
    (hmiss : a.k8sLabels.get c.ID = none)
    (huid : c.Config.Labels.get K8S_POD_UID_LABEL ≠ none)
    (hlist : a.client.ListContainers
      (K8S_POD_UID_LABEL ++ lit "=" ++ c.Config.Labels.index K8S_POD_UID_LABEL)
        = .ok containers) :
    (∀ pre leader post, containers = pre ++ leader :: post →
        (∀ x ∈ pre, GetPodLabels.isLeader c x = false) →
        GetPodLabels.isLeader c leader = true →
        (GetPodLabels c current_labels a).1 =
          Except.ok (Merge (GetDockerLabels a).1
            (Merge (some (SelectContainerLabels leader.Labels)) current_labels))) ∧
    ((∀ x ∈ containers, GetPodLabels.isLeader c x = false) →
        (GetPodLabels c current_labels a).1 = Except.ok current_labels ∧
        (GetPodLabels c current_labels a).2.k8sLabels = a.k8sLabels) := by
  constructor
  · intro pre leader post hc hpre hleader
    rw [GetPodLabels_of_list c current_labels a _ hmiss huid hlist, hc,
      GetPodLabels_loop_first _ _ _ pre post leader hpre hleader,
      GetPodLabels_loop_leader _ _ _ _ _ hleader]
    simp only [GetDockerLabels_labels]
  · intro hnone
    rw [GetPodLabels_of_list c current_labels a _ hmiss huid hlist,
      GetPodLabels_loop_none _ _ _ _ hnone]
    exact ⟨rfl, rfl⟩

theorem GetPodLabels_first_leader_wins_witness :
    (GetPodLabels (examplePodContainer exampleOwnLabels) exampleMergeDst
        { examplePodAdapter with client := { examplePodClient with
          ListContainers := fun _ => .ok
            [{ ID := lit "1", Labels := exampleOtherLabels },
             { ID := lit "2", Labels := examplePodLabels },
             { ID := lit "3", Labels := exampleOtherLabels },
             { ID := lit "4", Labels := (examplePodLabels.set (lit "app") (lit "later")) }] } }).1
      = Except.ok (Merge (some (hostLevelLabels
          { Name := lit "banana-potato", ServerVersion := lit "tangerine" }))
        (Merge (some (SelectContainerLabels examplePodLabels)) exampleMergeDst)) :=
  (GetPodLabels_first_leader_wins (examplePodContainer exampleOwnLabels) exampleMergeDst
    { examplePodAdapter with client := { examplePodClient with
      ListContainers := fun _ => .ok
        [{ ID := lit "1", Labels := exampleOtherLabels },
         { ID := lit "2", Labels := examplePodLabels },
         { ID := lit "3", Labels := exampleOtherLabels },
         { ID := lit "4", Labels := (examplePodLabels.set (lit "app") (lit "later")) }] } }
    _ rfl (by decide) rfl).1
    [{ ID := lit "1", Labels := exampleOtherLabels }]
    { ID := lit "2", Labels := examplePodLabels }
    [{ ID := lit "3", Labels := exampleOtherLabels },
     { ID := lit "4", Labels := (examplePodLabels.set (lit "app") (lit "later")) }]
    rfl (by decide) (by decide)

/-! ## The pod labels in `Stream` -/

theorem Merge_loop_get_none (visit : List (GoString × GoString)) (m : GoMap GoString)
    (x : GoString) (hx : m.get x = none) (hmem : x ∉ visit.map Prod.fst)
    (hpod : ∀ i ∈ visit.map Prod.fst, x ≠ lit "pod_" ++ i) :
    (Merge.loop visit m).get x = none := by
  induction visit generalizing m with
  | nil => exact hx
  | cons e rest ih =>
    obtain ⟨i, w⟩ := e
    simp only [List.map_cons, List.mem_cons, not_or] at hmem
    have hrest : ∀ j ∈ rest.map Prod.fst, x ≠ lit "pod_" ++ j :=
      fun j hj => hpod j (List.mem_cons_of_mem _ hj)
    simp only [Merge.loop]
    cases m.get i with
    | none =>
      apply ih _ _ hmem.2 hrest
      rw [GoMap_get_set_ne _ _ _ _ hmem.1]
      exact hx
    | some d =>
      apply ih _ _ hmem.2 hrest
      rw [GoMap_get_set_ne _ _ _ _ (hpod i (by simp))]
      exact hx

theorem host_ne_pod_key (i : GoString) : lit "host" ≠ lit "pod_" ++ i := by
  intro h
  have h2 := congrArg List.head? h
  have h3 : (lit "pod_" ++ i).head? = some 112 := rfl
  rw [h3] at h2
  revert h2
  decide

theorem docker_version_ne_pod_key (i : GoString) : lit "docker_version" ≠ lit "pod_" ++ i := by
  intro h
  have h2 := congrArg List.head? h
  have h3 : (lit "pod_" ++ i).head? = some 112 := rfl
  rw [h3] at h2
  revert h2
  decide

theorem Merge_hostLevelLabels (info : DaemonInfo) (inner : GoMap GoString)
    (hhost : inner.get (lit "host") = none)
    (hversion : inner.get (lit "docker_version") = none) :
    Merge (some (hostLevelLabels info)) inner =
      (inner.set (lit "host") info.Name).set (lit "docker_version") info.ServerVersion := by
  have he : (hostLevelLabels info).entries =
      [(lit "host", info.Name), (lit "docker_version", info.ServerVersion)] := rfl
  have h2 : (inner.set (lit "host") info.Name).get (lit "docker_version") = none := by
    rw [GoMap_get_set_ne _ _ _ _ (by decide)]
    exact hversion
  simp only [Merge, he, Merge.loop, hhost, h2]

theorem Stream_dockerLabels_of_GetPodLabels (os : Environ) (a : LogstashAdapter) (m : Message)
    (labels : GoMap GoString) (hlabels : Getenv os (lit "DOCKER_LABELS") ≠ [])
    (h : (GetPodLabels m.Container
      (Stream.labels GoMap.empty m.Container.Config.Labels.entries) a).1 = Except.ok labels) :
    Stream.dockerLabels os a m = some labels := by
  unfold Stream.dockerLabels Stream.dockerInfo
  rw [if_pos hlabels]
  dsimp only
  generalize GetPodLabels m.Container
    (Stream.labels GoMap.empty m.Container.Config.Labels.entries) a = r at h ⊢
  obtain ⟨r1, a1⟩ := r
  simp only at h
  subst h
  rfl

/-- Claim C18, as the claim states it, fails: for a container with the
labels `io.kubernetes.pod.uid` and `host`, whose pod leader is the one of
the test `TestStreamK8SPodNames`, the labels of the docker info have the
container's own value under `host`; the daemon name is under
`pod_host`. -/
theorem Stream_pod_labels_host_not_daemon_name :
    (Stream.dockerLabels [(lit "DOCKER_LABELS", lit "1")] examplePodAdapter
        (examplePodMessage exampleHostLabels)).bind (fun l => l.get (lit "host"))
      = some (lit "mine") ∧
    (Stream.dockerLabels [(lit "DOCKER_LABELS", lit "1")] examplePodAdapter
        (examplePodMessage exampleHostLabels)).bind (fun l => l.get (lit "pod_host"))
      = some (lit "banana-potato") ∧
    examplePodAdapter.client.Info
      = .ok { Name := lit "banana-potato", ServerVersion := lit "tangerine" } :=
  ⟨by decide, by decide, rfl⟩

/-- Claim C18, amended.  In `Stream` with `DOCKER_LABELS` set, for a
container A with the pod uid label and no cached pod labels, when
`ListContainers` succeeds, B is the first pod leader of its result and
`Info` succeeds, and provided that no key present in both the selected
labels of B and the normalised labels of A has `"pod_" + key` among the
selected labels of B, and that neither has a key `host` or
`docker_version`: (i) each label of B whose key has neither kubernetes
prefix and is not a key of the normalised labels of A is in the labels of
the docker info with the value of B; (ii) each such key that is a key of
the normalised labels of A keeps the value of A and has the value of B
under `"pod_" + key`; (iii) `host` is the daemon name and `docker_version`
the daemon server version. -/
theorem Stream_pod_labels (os : Environ) (a : LogstashAdapter) (m : Message)
    (pre post : List APIContainers) (leader : APIContainers) (info : DaemonInfo)
    (hlabels : Getenv os (lit "DOCKER_LABELS") ≠ [])
    (hmiss : a.k8sLabels.get m.Container.ID = none)
    (huid : m.Container.Config.Labels.get K8S_POD_UID_LABEL ≠ none)
    (hlist : a.client.ListContainers
      (K8S_POD_UID_LABEL ++ lit "=" ++ m.Container.Config.Labels.index K8S_POD_UID_LABEL)
        = .ok (pre ++ leader :: post))
    (hpre : ∀ x ∈ pre, GetPodLabels.isLeader m.Container x = false)
    (hleader : GetPodLabels.isLeader m.Container leader = true)
    (hinfo : a.client.Info = .ok info)
    (hna : Merge.noAlias (SelectContainerLabels leader.Labels)
      (Stream.labels GoMap.empty m.Container.Config.Labels.entries))
    (hhostA : (Stream.labels GoMap.empty m.Container.Config.Labels.entries).get (lit "host")
      = none)
    (hversionA : (Stream.labels GoMap.empty m.Container.Config.Labels.entries).get
      (lit "docker_version") = none)
    (hhostB : leader.Labels.get (lit "host") = none)
    (hversionB : leader.Labels.get (lit "docker_version") = none) :
    ∃ labels, Stream.dockerLabels os a m = some labels ∧
      (∀ k v, leader.Labels.get k = some v → HasPrefix k K8S_IO_PREFIX = false →
        HasPrefix k K8S_ANNOTATION_PREFIX = false →
        (Stream.labels GoMap.empty m.Container.Config.Labels.entries).get k = none →
        labels.get k = some v) ∧
      (∀ k v w, leader.Labels.get k = some v → HasPrefix k K8S_IO_PREFIX = false →
        HasPrefix k K8S_ANNOTATION_PREFIX = false →
        (Stream.labels GoMap.empty m.Container.Config.Labels.entries).get k = some w →
        labels.get k = some w ∧ labels.get (lit "pod_" ++ k) = some v) ∧
      labels.get (lit "host") = some info.Name ∧
      labels.get (lit "docker_version") = some info.ServerVersion := by
  generalize hown : Stream.labels GoMap.empty m.Container.Config.Labels.entries = own at *
  generalize hsel : SelectContainerLabels leader.Labels = sel at *
  have hselget : ∀ k v, leader.Labels.get k = some v → HasPrefix k K8S_IO_PREFIX = false →
      HasPrefix k K8S_ANNOTATION_PREFIX = false → sel.get k = some v := by
    intro k v hk h1 h2
    rw [← hsel, SelectContainerLabels_get]
    simp [h1, h2, hk]
  have hselnone : ∀ k, leader.Labels.get k = none → sel.get k = none := by
    intro k hk
    rw [← hsel, SelectContainerLabels_get]
    simp [hk]
  have hnd : (sel.entries.map Prod.fst).Nodup := sel.nodup
  have hna2 := Merge_visit_noAlias sel own sel.entries (List.Perm.refl _) hna
  have hmemkeys : ∀ k, k ∉ sel.entries.map Prod.fst ↔ sel.get k = none := by
    intro k
    have := GoMap_mem_keys_iff sel k
    unfold GoMap.keys at this
    rw [this]
    simp
  have hinner_none : ∀ x, own.get x = none → sel.get x = none →
      (∀ i, x ≠ lit "pod_" ++ i) → (Merge.loop sel.entries own).get x = none := by
    intro x h1 h2 h3
    exact Merge_loop_get_none sel.entries own x h1 ((hmemkeys x).2 h2) (fun i _ => h3 i)
  have hih := hinner_none (lit "host") hhostA (hselnone _ hhostB) host_ne_pod_key
  have hiv := hinner_none (lit "docker_version") hversionA (hselnone _ hversionB)
    docker_version_ne_pod_key
  have hres := (GetPodLabels_leader_found m.Container own a pre post leader info hmiss huid
    hlist hpre hleader hinfo).1
  rw [hsel] at hres
  have houter := Merge_hostLevelLabels info (Merge (some sel) own) hih hiv
  rw [houter] at hres
  refine ⟨_, Stream_dockerLabels_of_GetPodLabels os a m _ hlabels (by rw [hown]; exact hres),
    ?_, ?_, ?_, ?_⟩
  · intro k v hk h1 h2 hA
    have hs := hselget k v hk h1 h2
    have hkh : k ≠ lit "host" := by
      intro h
      rw [h, hselnone _ hhostB] at hs
      exact Option.noConfusion hs
    have hkv : k ≠ lit "docker_version" := by
      intro h
      rw [h, hselnone _ hversionB] at hs
      exact Option.noConfusion hs
    rw [GoMap_get_set_ne _ _ _ _ hkv, GoMap_get_set_ne _ _ _ _ hkh]
    exact Merge_loop_fresh sel.entries own k v hnd hna2
      ((rawGet_eq_some_iff_mem k v sel.entries sel.nodup).1 hs) hA
  · intro k v w hk h1 h2 hA
    have hs := hselget k v hk h1 h2
    have hkh : k ≠ lit "host" := by
      intro h
      rw [h, hselnone _ hhostB] at hs
      exact Option.noConfusion hs
    have hkv : k ≠ lit "docker_version" := by
      intro h
      rw [h, hselnone _ hversionB] at hs
      exact Option.noConfusion hs
    have hmem := (rawGet_eq_some_iff_mem k v sel.entries sel.nodup).1 hs
    have hkk : k ∈ sel.entries.map Prod.fst := List.mem_map_of_mem Prod.fst hmem
    constructor
    · rw [GoMap_get_set_ne _ _ _ _ hkv, GoMap_get_set_ne _ _ _ _ hkh]
      apply Merge_loop_keep sel.entries own k w hnd hna2 hA
      intro j hj hjk
      by_contra hc
      exact hna2 j hj hc (hjk ▸ hkk)
    · rw [GoMap_get_set_ne _ _ _ _ (fun h => docker_version_ne_pod_key k h.symm),
        GoMap_get_set_ne _ _ _ _ (fun h => host_ne_pod_key k h.symm)]
      exact Merge_loop_collision sel.entries own k v hnd hmem (by rw [hA]; simp)
  · rw [GoMap_get_set_ne _ _ _ _ (by decide), GoMap_get_set_self]
  · rw [GoMap_get_set_self]

theorem Stream_pod_labels_witness :
    ∃ labels, Stream.dockerLabels [(lit "DOCKER_LABELS", lit "1")] examplePodAdapter
        (examplePodMessage exampleOwnLabels) = some labels ∧
      labels.get (lit "app") = some (lit "myapp") ∧
      labels.get (lit "release") = some (lit "12345") ∧
      labels.get (lit "pod_release") = some (lit "bibbling-trouser") ∧
      labels.get (lit "host") = some (lit "banana-potato") ∧
      labels.get (lit "docker_version") = some (lit "tangerine") := by
  obtain ⟨labels, h0, h1, h2, h3, h4⟩ :=
    Stream_pod_labels [(lit "DOCKER_LABELS", lit "1")] examplePodAdapter
      (examplePodMessage exampleOwnLabels)
      [{ ID := lit "deadbeef", Labels := exampleOtherLabels }] []
      { ID := lit "deadbeef", Labels := examplePodLabels }
      { Name := lit "banana-potato", ServerVersion := lit "tangerine" }
      (by decide) rfl (by decide) rfl (by decide) (by decide) rfl
      (by unfold Merge.noAlias; decide) (by decide) (by decide) (by decide) (by decide)
  exact ⟨labels, h0, h1 (lit "app") (lit "myapp") (by decide) (by decide) (by decide)
      (by decide),
    (h2 (lit "release") (lit "bibbling-trouser") (lit "12345") (by decide) (by decide)
      (by decide) (by decide)).1,
    (h2 (lit "release") (lit "bibbling-trouser") (lit "12345") (by decide) (by decide)
      (by decide) (by decide)).2, h3, h4⟩

/-! ## Cache hits -/

/-- Claim C30.  After a call of `GetContainerTags`, of `IsDecodeJsonLogs` or
a successful call of `GetLogstashFields` for a container, the value
returned is in the cache under the container's ID, and in every adapter
that has a value in that cache under the ID, a call for a container `c2`
with the same ID, with any env, and in any process environment `os2`,
returns the cached value and leaves the adapter as it is: the value is
not recomputed. -/
theorem cached_values_are_returned (os os2 : Environ) (c c2 : Container)
    (a a2 : LogstashAdapter) (hid : c2.ID = c.ID) :
    (GetContainerTags os c a).2.containerTags.get c.ID = some (GetContainerTags os c a).1 ∧
    (∀ tags, a2.containerTags.get c.ID = some tags →
        GetContainerTags os2 c2 a2 = (tags, a2)) ∧
    GetContainerTags os2 c2 (GetContainerTags os c a).2
      = ((GetContainerTags os c a).1, (GetContainerTags os c a).2) ∧
    (∀ fields, (GetLogstashFields os c a).1 = Outcome.ok fields →
        (GetLogstashFields os c a).2.logstashFields.get c.ID = some fields ∧
        GetLogstashFields os2 c2 (GetLogstashFields os c a).2
          = (Outcome.ok fields, (GetLogstashFields os c a).2)) ∧
    (∀ fields, a2.logstashFields.get c.ID = some fields →
        GetLogstashFields os2 c2 a2 = (Outcome.ok fields, a2)) ∧
    (IsDecodeJsonLogs os c a).2.decodeJsonLogs.get c.ID = some (IsDecodeJsonLogs os c a).1 ∧
    (∀ flag, a2.decodeJsonLogs.get c.ID = some flag →
        IsDecodeJsonLogs os2 c2 a2 = (flag, a2)) ∧
    IsDecodeJsonLogs os2 c2 (IsDecodeJsonLogs os c a).2
      = ((IsDecodeJsonLogs os c a).1, (IsDecodeJsonLogs os c a).2) := by
  have htags : (GetContainerTags os c a).2.containerTags.get c.ID
      = some (GetContainerTags os c a).1 := by
    unfold GetContainerTags
    cases h : a.containerTags.get c.ID with
    | some tags => exact h
    | none => exact GoMap_get_set_self _ _ _
  have htagshit : ∀ (b : LogstashAdapter) tags, b.containerTags.get c.ID = some tags →
      GetContainerTags os2 c2 b = (tags, b) := by
    intro b tags h
    unfold GetContainerTags
    rw [hid, h]
  have hfields : ∀ fields, (GetLogstashFields os c a).1 = Outcome.ok fields →
      (GetLogstashFields os c a).2.logstashFields.get c.ID = some fields := by
    intro fields
    unfold GetLogstashFields
    cases h : a.logstashFields.get c.ID with
    | some f =>
      intro h1
      simp only [Outcome.ok.injEq] at h1
      rw [← h1]
      exact h
    | none =>
      simp only
      cases GetLogstashFields.parse
        (GetLogstashFields.scan (Getenv os (lit "LOGSTASH_FIELDS")) c.Config.Env) with
      | none =>
        intro h1
        exact Outcome.noConfusion h1
      | some f =>
        intro h1
        simp only [Outcome.ok.injEq] at h1
        rw [← h1]
        exact GoMap_get_set_self _ _ _
  have hfieldshit : ∀ (b : LogstashAdapter) fields, b.logstashFields.get c.ID = some fields →
      GetLogstashFields os2 c2 b = (Outcome.ok fields, b) := by
    intro b fields h
    unfold GetLogstashFields
    rw [hid, h]
  have hflag : (IsDecodeJsonLogs os c a).2.decodeJsonLogs.get c.ID
      = some (IsDecodeJsonLogs os c a).1 := by
    unfold IsDecodeJsonLogs
    cases h : a.decodeJsonLogs.get c.ID with
    | some flag => exact h
    | none => exact GoMap_get_set_self _ _ _
  have hflaghit : ∀ (b : LogstashAdapter) flag, b.decodeJsonLogs.get c.ID = some flag →
      IsDecodeJsonLogs os2 c2 b = (flag, b) := by
    intro b flag h
    unfold IsDecodeJsonLogs
    rw [hid, h]
  exact ⟨htags, htagshit a2, htagshit _ _ htags,
    fun fields h => ⟨hfields fields h, hfieldshit _ _ (hfields fields h)⟩, hfieldshit a2,
    hflag, hflaghit a2, hflaghit _ _ hflag⟩

theorem cached_values_are_returned_witness :
    GetContainerTags [(lit "LOGSTASH_TAGS", lit "changed")]
        (exampleContainer (lit "ID") [lit "LOGSTASH_TAGS=other"])
        (GetContainerTags [] (exampleContainer (lit "ID") [lit "LOGSTASH_TAGS=example,tags"])
          exampleAdapter).2
      = ((GetContainerTags [] (exampleContainer (lit "ID") [lit "LOGSTASH_TAGS=example,tags"])
          exampleAdapter).1,
         (GetContainerTags [] (exampleContainer (lit "ID") [lit "LOGSTASH_TAGS=example,tags"])
          exampleAdapter).2) ∧
    (GetContainerTags [] (exampleContainer (lit "ID") [lit "LOGSTASH_TAGS=example,tags"])
          exampleAdapter).1 = [lit "example", lit "tags"] :=
  ⟨(cached_values_are_returned [] [(lit "LOGSTASH_TAGS", lit "changed")]
      (exampleContainer (lit "ID") [lit "LOGSTASH_TAGS=example,tags"])
      (exampleContainer (lit "ID") [lit "LOGSTASH_TAGS=other"]) exampleAdapter exampleAdapter
      rfl).2.2.1, by decide⟩

/-! ## The cache of pod labels and the failures of the docker client -/

theorem exists_first_leader (c : Container) (containers : List APIContainers)
    (h : ∃ x ∈ containers, GetPodLabels.isLeader c x = true) :
    ∃ pre leader post, containers = pre ++ leader :: post ∧
      (∀ x ∈ pre, GetPodLabels.isLeader c x = false) ∧
      GetPodLabels.isLeader c leader = true := by
  induction containers with
  | nil => simp at h
  | cons y rest ih =>
    by_cases hy : GetPodLabels.isLeader c y = true
    · exact ⟨[], y, rest, rfl, by simp, hy⟩
    · obtain ⟨x, hx, hl⟩ := h
      have hx2 : x ∈ rest := by
        rcases List.mem_cons.1 hx with h1 | h1
        · exact absurd (h1 ▸ hl) hy
        · exact h1
      obtain ⟨pre, leader, post, he, hpre, hlead⟩ := ih ⟨x, hx2, hl⟩
      refine ⟨y :: pre, leader, post, by rw [he]; rfl, ?_, hlead⟩
      intro z hz
      rcases List.mem_cons.1 hz with h1 | h1
      · rw [h1]
        simpa using hy
      · exact hpre z h1

theorem GetPodLabels_leader_cached (c : Container) (current_labels : GoMap GoString)
    (a : LogstashAdapter) (pre post : List APIContainers) (leader : APIContainers)
    (hmiss : a.k8sLabels.get c.ID = none)
    (huid : c.Config.Labels.get K8S_POD_UID_LABEL ≠ none)
    (hlist : a.client.ListContainers
      (K8S_POD_UID_LABEL ++ lit "=" ++ c.Config.Labels.index K8S_POD_UID_LABEL)
        = .ok (pre ++ leader :: post))
    (hpre : ∀ x ∈ pre, GetPodLabels.isLeader c x = false)
    (hleader : GetPodLabels.isLeader c leader = true) :
    (GetPodLabels c current_labels a).1 =
      Except.ok (Merge (GetDockerLabels a).1
        (Merge (some (SelectContainerLabels leader.Labels)) current_labels)) ∧
    (GetPodLabels c current_labels a).2.k8sLabels.get c.ID =
      some (Merge (GetDockerLabels a).1
        (Merge (some (SelectContainerLabels leader.Labels)) current_labels)) := by
  rw [GetPodLabels_of_list c current_labels a _ hmiss huid hlist,
    GetPodLabels_loop_first _ _ _ pre post leader hpre hleader,
    GetPodLabels_loop_leader _ _ _ _ _ hleader]
  constructor
  · simp only [GetDockerLabels_labels]
  · simp only [GetDockerLabels_labels]
    exact GoMap_get_set_self _ _ _

theorem GetPodLabels_hit (c : Container) (current_labels : GoMap GoString)
    (a : LogstashAdapter) (labels : GoMap GoString) (h : a.k8sLabels.get c.ID = some labels) :
    GetPodLabels c current_labels a = (Except.ok labels, a) := by
  unfold GetPodLabels
  rw [h]

theorem GetPodLabels_cache_unchanged (c : Container) (current_labels : GoMap GoString)
    (a : LogstashAdapter)
    (h : ¬ (a.k8sLabels.get c.ID = none ∧ c.Config.Labels.get K8S_POD_UID_LABEL ≠ none ∧
      ∃ containers, a.client.ListContainers
        (K8S_POD_UID_LABEL ++ lit "=" ++ c.Config.Labels.index K8S_POD_UID_LABEL)
          = .ok containers ∧ ∃ x ∈ containers, GetPodLabels.isLeader c x = true)) :
    (GetPodLabels c current_labels a).2.k8sLabels = a.k8sLabels := by
  cases hm : a.k8sLabels.get c.ID with
  | some labels => rw [GetPodLabels_hit c current_labels a labels hm]
  | none =>
    cases hu : c.Config.Labels.get K8S_POD_UID_LABEL with
    | none =>
      unfold GetPodLabels
      rw [hm]
      simp only [hu]
    | some u =>
      have huid : c.Config.Labels.get K8S_POD_UID_LABEL ≠ none := by
        rw [hu]
        exact Option.noConfusion
      cases hl : a.client.ListContainers
        (K8S_POD_UID_LABEL ++ lit "=" ++ c.Config.Labels.index K8S_POD_UID_LABEL) with
      | error err =>
        unfold GetPodLabels
        rw [hm]
        simp only [hu, hl]
      | ok containers =>
        have hnone : ∀ x ∈ containers, GetPodLabels.isLeader c x = false := by
          intro x hx
          by_contra hc
          exact h ⟨hm, huid, containers, hl, x, hx, by simpa using hc⟩
        rw [GetPodLabels_of_list c current_labels a _ hm huid hl,
          GetPodLabels_loop_none _ _ _ _ hnone]

/-- Claim C21.  A call of `GetPodLabels` changes the cache of pod labels
exactly when there is no entry for the container's ID, the pod uid label
is present, `ListContainers` succeeds and its result has a pod leader;
the entry written for the ID is then the map returned.  In every other
case the cache is as before.  When an entry exists for the ID, the call
returns it and leaves the adapter as it is, so no call of
`ListContainers` is made, whatever the labels of the caller are; this
holds for every later call for a container with the same ID. -/
theorem GetPodLabels_cache_policy (c : Container) (current_labels : GoMap GoString)
    (a : LogstashAdapter) :
    ((GetPodLabels c current_labels a).2.k8sLabels ≠ a.k8sLabels ↔
      (a.k8sLabels.get c.ID = none ∧ c.Config.Labels.get K8S_POD_UID_LABEL ≠ none ∧
        ∃ containers, a.client.ListContainers
          (K8S_POD_UID_LABEL ++ lit "=" ++ c.Config.Labels.index K8S_POD_UID_LABEL)
            = .ok containers ∧ ∃ x ∈ containers, GetPodLabels.isLeader c x = true)) ∧
    ((GetPodLabels c current_labels a).2.k8sLabels ≠ a.k8sLabels →
      ∃ labels, (GetPodLabels c current_labels a).1 = Except.ok labels ∧
        (GetPodLabels c current_labels a).2.k8sLabels.get c.ID = some labels) ∧
    (∀ labels other, a.k8sLabels.get c.ID = some labels →
      GetPodLabels c other a = (Except.ok labels, a)) ∧
    (∀ labels, (GetPodLabels c current_labels a).2.k8sLabels.get c.ID = some labels →
      ∀ c2 other, c2.ID = c.ID →
        GetPodLabels c2 other (GetPodLabels c current_labels a).2
          = (Except.ok labels, (GetPodLabels c current_labels a).2)) := by
  have hwritten : (a.k8sLabels.get c.ID = none ∧ c.Config.Labels.get K8S_POD_UID_LABEL ≠ none ∧
        ∃ containers, a.client.ListContainers
          (K8S_POD_UID_LABEL ++ lit "=" ++ c.Config.Labels.index K8S_POD_UID_LABEL)
            = .ok containers ∧ ∃ x ∈ containers, GetPodLabels.isLeader c x = true) →
      ∃ labels, (GetPodLabels c current_labels a).1 = Except.ok labels ∧
        (GetPodLabels c current_labels a).2.k8sLabels.get c.ID = some labels := by
    rintro ⟨hm, hu, containers, hl, hx⟩
    obtain ⟨pre, leader, post, he, hpre, hlead⟩ := exists_first_leader c containers hx
    rw [he] at hl
    exact ⟨_, GetPodLabels_leader_cached c current_labels a pre post leader hm hu hl hpre hlead⟩
  have hiff : (GetPodLabels c current_labels a).2.k8sLabels ≠ a.k8sLabels ↔
      (a.k8sLabels.get c.ID = none ∧ c.Config.Labels.get K8S_POD_UID_LABEL ≠ none ∧
        ∃ containers, a.client.ListContainers
          (K8S_POD_UID_LABEL ++ lit "=" ++ c.Config.Labels.index K8S_POD_UID_LABEL)
            = .ok containers ∧ ∃ x ∈ containers, GetPodLabels.isLeader c x = true) := by
    constructor
    · intro hne
      by_contra hc
      exact hne (GetPodLabels_cache_unchanged c current_labels a hc)
    · intro h heq
      obtain ⟨labels, _, hget⟩ := hwritten h
      rw [heq, h.1] at hget
      exact Option.noConfusion hget
  refine ⟨hiff, fun hne => hwritten (hiff.1 hne), ?_, ?_⟩
  · intro labels other h
    exact GetPodLabels_hit c other a labels h
  · intro labels h c2 other hid
    exact GetPodLabels_hit c2 other _ labels (by rw [hid]; exact h)

theorem GetPodLabels_cache_policy_witness :
    (GetPodLabels (examplePodContainer exampleOwnLabels) exampleMergeDst
        examplePodAdapter).2.k8sLabels ≠ examplePodAdapter.k8sLabels ∧
    (GetPodLabels (examplePodContainer exampleOwnLabels) exampleMergeDst
        exampleAdapter).2.k8sLabels = exampleAdapter.k8sLabels :=
  ⟨(GetPodLabels_cache_policy (examplePodContainer exampleOwnLabels) exampleMergeDst
      examplePodAdapter).1.2
      ⟨rfl, by decide, _, rfl, { ID := lit "deadbeef", Labels := examplePodLabels },
        by simp, by decide⟩,
   by
    by_contra hc
    obtain ⟨_, _, containers, hl, x, hx, _⟩ :=
      (GetPodLabels_cache_policy (examplePodContainer exampleOwnLabels) exampleMergeDst
        exampleAdapter).1.1 hc
    have : containers = [] := by
      have h2 : (Except.ok [] : Except GoString (List APIContainers)) = Except.ok containers :=
        hl
      exact (Except.ok.inj h2).symm
    rw [this] at hx
    simp at hx⟩

/-- Claim C22.  When `Info` fails, `GetDockerLabels` returns the nil map, and
`GetPodLabels` in the path with a pod leader returns with no error exactly
`Merge(SelectContainerLabels(leaderLabels), currentLabels)` and caches it;
no key `host` or `docker_version` is added: the result has one only when
the labels of the caller or of the leader have it. -/
theorem GetPodLabels_info_failure (c : Container) (current_labels : GoMap GoString)
    (a : LogstashAdapter) (pre post : List APIContainers) (leader : APIContainers)
    (err : GoString) (hmiss : a.k8sLabels.get c.ID = none)
    (huid : c.Config.Labels.get K8S_POD_UID_LABEL ≠ none)
    (hlist : a.client.ListContainers
      (K8S_POD_UID_LABEL ++ lit "=" ++ c.Config.Labels.index K8S_POD_UID_LABEL)
        = .ok (pre ++ leader :: post))
    (hpre : ∀ x ∈ pre, GetPodLabels.isLeader c x = false)
    (hleader : GetPodLabels.isLeader c leader = true)
    (hinfo : a.client.Info = .error err) :
    (GetDockerLabels a).1 = none ∧
    (GetPodLabels c current_labels a).1 =
      Except.ok (Merge (some (SelectContainerLabels leader.Labels)) current_labels) ∧
    (GetPodLabels c current_labels a).2.k8sLabels.get c.ID =
      some (Merge (some (SelectContainerLabels leader.Labels)) current_labels) ∧
    (current_labels.get (lit "host") = none → leader.Labels.get (lit "host") = none →
      (Merge (some (SelectContainerLabels leader.Labels)) current_labels).get (lit "host")
        = none) ∧
    (current_labels.get (lit "docker_version") = none →
      leader.Labels.get (lit "docker_version") = none →
      (Merge (some (SelectContainerLabels leader.Labels)) current_labels).get
        (lit "docker_version") = none) := by
  have hnil : (GetDockerLabels a).1 = none := by
    rw [GetDockerLabels_labels, hinfo]
  have hc := GetPodLabels_leader_cached c current_labels a pre post leader hmiss huid hlist
    hpre hleader
  rw [hnil] at hc
  have habsent : ∀ x, (∀ i, x ≠ lit "pod_" ++ i) → current_labels.get x = none →
      leader.Labels.get x = none →
      (Merge (some (SelectContainerLabels leader.Labels)) current_labels).get x = none := by
    intro x hpod hcur hlead
    have hsel : (SelectContainerLabels leader.Labels).get x = none := by
      rw [SelectContainerLabels_get]
      simp [hlead]
    have hmem : x ∉ (SelectContainerLabels leader.Labels).entries.map Prod.fst := by
      intro hx
      exact (GoMap_mem_keys_iff _ x).1 hx hsel
    exact Merge_loop_get_none _ current_labels x hcur hmem (fun i _ => hpod i)
  exact ⟨hnil, hc.1, hc.2, habsent _ host_ne_pod_key, habsent _ docker_version_ne_pod_key⟩

theorem GetPodLabels_info_failure_witness :
    (GetPodLabels (examplePodContainer exampleOwnLabels) exampleMergeDst
        { examplePodAdapter with client := exampleFailingInfoClient }).1 =
      Except.ok (Merge (some (SelectContainerLabels examplePodLabels)) exampleMergeDst) ∧
    (Merge (some (SelectContainerLabels examplePodLabels)) exampleMergeDst).get (lit "host")
      = none :=
  ⟨(GetPodLabels_info_failure (examplePodContainer exampleOwnLabels) exampleMergeDst
      { examplePodAdapter with client := exampleFailingInfoClient }
      [{ ID := lit "deadbeef", Labels := exampleOtherLabels }] []
      { ID := lit "deadbeef", Labels := examplePodLabels } (lit "connection refused")
      rfl (by decide) rfl (by decide) (by decide) rfl).2.1,
   (GetPodLabels_info_failure (examplePodContainer exampleOwnLabels) exampleMergeDst
      { examplePodAdapter with client := exampleFailingInfoClient }
      [{ ID := lit "deadbeef", Labels := exampleOtherLabels }] []
      { ID := lit "deadbeef", Labels := examplePodLabels } (lit "connection refused")
      rfl (by decide) rfl (by decide) (by decide) rfl).2.2.2.1 (by decide) (by decide)⟩

/-- Claim C23.  When the container has the pod uid label and no cached pod
labels and `ListContainers` returns the error `err`, `GetPodLabels`
returns `err` and no labels, whatever the labels of the caller are, and
leaves the cache of pod labels as it was; `Stream` with `DOCKER_LABELS`
set ends in `log.Fatal` at this message and makes no call of `conn.Write`
for it. -/
theorem GetPodLabels_inventory_failure (os : Environ) (json : EncodingJson)
    (a : LogstashAdapter) (m : Message) (ms : List Message) (err : GoString)
    (hlabels : Getenv os (lit "DOCKER_LABELS") ≠ [])
    (hmiss : a.k8sLabels.get m.Container.ID = none)
    (huid : m.Container.Config.Labels.get K8S_POD_UID_LABEL ≠ none)
    (hlist : a.client.ListContainers
      (K8S_POD_UID_LABEL ++ lit "=" ++ m.Container.Config.Labels.index K8S_POD_UID_LABEL)
        = .error err) :
    (∀ current_labels, (GetPodLabels m.Container current_labels a).1 = Except.error err) ∧
    (∀ current_labels, (GetPodLabels m.Container current_labels a).2.k8sLabels = a.k8sLabels) ∧
    (∀ current_labels, (GetPodLabels m.Container current_labels a).2.trace
      = a.trace ++ [Event.listContainers
        (K8S_POD_UID_LABEL ++ lit "=" ++ m.Container.Config.Labels.index K8S_POD_UID_LABEL)]) ∧
    (Stream os json a (m :: ms)).1 = Outcome.fatal ∧
    writes (Stream os json a (m :: ms)).2.trace = writes a.trace := by
  have hget : ∀ current_labels, GetPodLabels m.Container current_labels a =
      (Except.error err, { a with trace := a.trace ++ [Event.listContainers
        (K8S_POD_UID_LABEL ++ lit "=" ++ m.Container.Config.Labels.index K8S_POD_UID_LABEL)] })
      := by
    intro current_labels
    unfold GetPodLabels
    rw [hmiss]
    cases hu : m.Container.Config.Labels.get K8S_POD_UID_LABEL with
    | none => exact absurd hu huid
    | some u => simp only [hlist]
  have hinfo : Stream.dockerInfo os a m =
      (Outcome.fatal, { a with trace := a.trace ++ [Event.listContainers
        (K8S_POD_UID_LABEL ++ lit "=" ++ m.Container.Config.Labels.index K8S_POD_UID_LABEL)] })
      := by
    unfold Stream.dockerInfo
    rw [if_pos hlabels]
    simp only [hget]
  have hbody : Stream.body os json a m =
      (Outcome.fatal, { a with trace := a.trace ++ [Event.listContainers
        (K8S_POD_UID_LABEL ++ lit "=" ++ m.Container.Config.Labels.index K8S_POD_UID_LABEL)] })
      := by
    unfold Stream.body
    rw [hinfo]
  refine ⟨fun cl => by rw [hget], fun cl => by rw [hget], fun cl => by rw [hget], ?_, ?_⟩
  · simp only [Stream, hbody]
  · simp only [Stream, hbody, writes_append, writes, List.append_nil]

theorem GetPodLabels_inventory_failure_witness :
    (Stream [(lit "DOCKER_LABELS", lit "1"), (lit "BROKEN_JOURNALD", lit "1")] exampleJson
        { examplePodAdapter with client := exampleFailingListClient }
        [examplePodMessage exampleOwnLabels]).1 = Outcome.fatal ∧
    writes (Stream [(lit "DOCKER_LABELS", lit "1"), (lit "BROKEN_JOURNALD", lit "1")]
        exampleJson { examplePodAdapter with client := exampleFailingListClient }
        [examplePodMessage exampleOwnLabels]).2.trace = [] :=
  (GetPodLabels_inventory_failure
    [(lit "DOCKER_LABELS", lit "1"), (lit "BROKEN_JOURNALD", lit "1")] exampleJson
    { examplePodAdapter with client := exampleFailingListClient }
    (examplePodMessage exampleOwnLabels) [] (lit "connection refused")
    (by decide) rfl (by decide) rfl).2.2.2

/-! ## The labels of the docker info in `Stream` -/

theorem GoMap_mem_keys_set {V : Type} (m : GoMap V) (k x : GoString) (v : V) :
    k ∈ (m.set x v).keys ↔ k = x ∨ k ∈ m.keys := by
  rw [GoMap_mem_keys_iff, GoMap_mem_keys_iff, GoMap_get_set]
  by_cases h : k = x
  · simp [h]
  · simp [h]

theorem Replace_no_old (l : GoString) (old new : Nat) (h : new ≠ old) :
    old ∉ Replace l old new := by
  unfold Replace
  intro hmem
  obtain ⟨c, _, hc⟩ := List.mem_map.1 hmem
  by_cases hco : c = old
  · rw [if_pos hco] at hc
    exact h hc
  · rw [if_neg hco] at hc
    exact hco hc

theorem Stream_labels_mem_keys (init : GoMap GoString) (es : List (GoString × GoString))
    (k : GoString) :
    k ∈ (Stream.labels init es).keys ↔
      k ∈ init.keys ∨ ∃ e ∈ es, k = Replace e.1 dot underscore := by
  induction es generalizing init with
  | nil => simp [Stream.labels]
  | cons e rest ih =>
    obtain ⟨l, v⟩ := e
    simp only [Stream.labels, ih, GoMap_mem_keys_set, List.mem_cons, exists_eq_or_imp]
    tauto

theorem Stream_labels_stable (init : GoMap GoString) (es : List (GoString × GoString))
    (k : GoString) (h : ∀ e ∈ es, Replace e.1 dot underscore ≠ k) :
    (Stream.labels init es).get k = init.get k := by
  induction es generalizing init with
  | nil => rfl
  | cons e rest ih =>
    obtain ⟨l, v⟩ := e
    simp only [Stream.labels]
    rw [ih _ (fun e he => h e (List.mem_cons_of_mem _ he)),
      GoMap_get_set_ne _ _ _ _ (fun hk => h (l, v) (List.mem_cons_self _ _) hk.symm)]

theorem Stream_labels_value (init : GoMap GoString) (es : List (GoString × GoString))
    (l v : GoString) (hnd : (es.map Prod.fst).Nodup) (hmem : (l, v) ∈ es)
    (hinj : ∀ e ∈ es, Replace e.1 dot underscore = Replace l dot underscore → e.1 = l) :
    (Stream.labels init es).get (Replace l dot underscore) = some v := by
  induction es generalizing init with
  | nil => simp at hmem
  | cons e rest ih =>
    obtain ⟨l0, v0⟩ := e
    simp only [List.map_cons, List.nodup_cons] at hnd
    simp only [Stream.labels]
    by_cases hl : l0 = l
    · subst hl
      have hv : v0 = v := by
        rcases List.mem_cons.1 hmem with h | h
        · exact (Prod.mk.inj h).2.symm
        · exact absurd (List.mem_map_of_mem Prod.fst h) hnd.1
      subst hv
      rw [Stream_labels_stable, GoMap_get_set_self]
      intro e he hr
      have := hinj e (List.mem_cons_of_mem _ he) hr
      exact hnd.1 (this ▸ List.mem_map_of_mem Prod.fst he)
    · have hmem2 : (l, v) ∈ rest := by
        rcases List.mem_cons.1 hmem with h | h
        · exact absurd (Prod.mk.inj h).1.symm hl
        · exact h
      exact ih _ hnd.2 hmem2 (fun e he => hinj e (List.mem_cons_of_mem _ he))

/-- Claim C24.  In `Stream` with `DOCKER_LABELS` set, for a container
without the pod uid label (and so without cached pod labels): the labels
of the docker info are a map, not nil, whose keys are exactly the keys of
the container's labels with every `.` replaced by `_`; no key contains
`.`; when no two label keys are normalised to the same key, each
normalised key has the value of its label; a container without labels
gets the empty map. -/
theorem Stream_labels_normalised (os : Environ) (a : LogstashAdapter) (m : Message)
    (hlabels : Getenv os (lit "DOCKER_LABELS") ≠ [])
    (hmiss : a.k8sLabels.get m.Container.ID = none)
    (hno : m.Container.Config.Labels.get (lit "io.kubernetes.pod.uid") = none) :
    ∃ labels, Stream.dockerLabels os a m = some labels ∧
      (∀ k, k ∈ labels.keys ↔
        ∃ l ∈ m.Container.Config.Labels.keys, k = Replace l dot underscore) ∧
      (∀ k ∈ labels.keys, dot ∉ k) ∧
      ((∀ l1 ∈ m.Container.Config.Labels.keys, ∀ l2 ∈ m.Container.Config.Labels.keys,
          Replace l1 dot underscore = Replace l2 dot underscore → l1 = l2) →
        ∀ l v, m.Container.Config.Labels.get l = some v →
          labels.get (Replace l dot underscore) = some v) ∧
      (m.Container.Config.Labels.entries = [] → labels.entries = []) := by
  have hfast := (GetPodLabels_fast_path m.Container
    (Stream.labels GoMap.empty m.Container.Config.Labels.entries) a hmiss hno).1
  have hkeys : ∀ k, k ∈ (Stream.labels GoMap.empty m.Container.Config.Labels.entries).keys ↔
      ∃ l ∈ m.Container.Config.Labels.keys, k = Replace l dot underscore := by
    intro k
    rw [Stream_labels_mem_keys]
    constructor
    · rintro (h | ⟨e, he, hk⟩)
      · simp [GoMap.keys, GoMap.empty] at h
      · exact ⟨e.1, List.mem_map_of_mem Prod.fst he, hk⟩
    · rintro ⟨l, hl, hk⟩
      obtain ⟨e, he, hel⟩ := List.mem_map.1 hl
      exact Or.inr ⟨e, he, by rw [hel]; exact hk⟩
  refine ⟨Stream.labels GoMap.empty m.Container.Config.Labels.entries,
    Stream_dockerLabels_of_GetPodLabels os a m _ hlabels (by rw [hfast]), hkeys, ?_, ?_, ?_⟩
  · intro k hk
    obtain ⟨l, _, hl⟩ := (hkeys k).1 hk
    rw [hl]
    exact Replace_no_old l dot underscore (by decide)
  · intro hinj l v hl
    have hmem := (rawGet_eq_some_iff_mem l v _ m.Container.Config.Labels.nodup).1 hl
    apply Stream_labels_value _ _ l v m.Container.Config.Labels.nodup hmem
    intro e he hr
    exact hinj e.1 (List.mem_map_of_mem Prod.fst he) l (List.mem_map_of_mem Prod.fst hmem) hr
  · intro he
    rw [he]
    rfl

theorem Stream_labels_normalised_witness :
    ∃ labels, Stream.dockerLabels [(lit "DOCKER_LABELS", lit "1")] examplePodAdapter
        (examplePodMessage exampleDottedLabels) = some labels ∧
      labels.get (lit "log") = some (lit "this") ∧
      labels.get (lit "another_label") = some (lit "with.dots") ∧
      labels.get (lit "another.label") = none := by
  obtain ⟨labels, h0, h1, h2, h3, _⟩ :=
    Stream_labels_normalised [(lit "DOCKER_LABELS", lit "1")] examplePodAdapter
      (examplePodMessage exampleDottedLabels) (by decide) rfl (by decide)
  refine ⟨labels, h0, h3 (by decide) (lit "log") (lit "this") (by decide),
    h3 (by decide) (lit "another.label") (lit "with.dots") (by decide), ?_⟩
  by_contra hc
  exact h2 _ ((GoMap_mem_keys_iff labels _).2 hc) (by decide)

/-! ## The write loop of `sendMessage` -/

theorem sent_append (t1 t2 : List Event) : sent (t1 ++ t2) = sent t1 ++ sent t2 := by
  induction t1 with
  | nil => rfl
  | cons e t1 ih =>
    cases e with
    | write b failed => cases failed <;> simp [sent, ih]
    | sleep s => simp [sent, ih]
    | listContainers f => simp [sent, ih]
    | info => simp [sent, ih]

theorem clientCalls_append (t1 t2 : List Event) :
    clientCalls (t1 ++ t2) = clientCalls t1 ++ clientCalls t2 := by
  induction t1 with
  | nil => rfl
  | cons e t1 ih => cases e <;> simp [clientCalls, ih]

theorem writes_failedAttempts (b : GoString) (k : Nat) :
    writes (failedAttempts b k) = List.replicate k b := by
  induction k with
  | zero => rfl
  | succ k ih => simp [failedAttempts, writes, ih, List.replicate_succ]

theorem sent_failedAttempts (b : GoString) (k : Nat) : sent (failedAttempts b k) = [] := by
  induction k with
  | zero => rfl
  | succ k ih => simp [failedAttempts, sent, ih]

theorem clientCalls_failedAttempts (b : GoString) (k : Nat) :
    clientCalls (failedAttempts b k) = [] := by
  induction k with
  | zero => rfl
  | succ k ih => simp [failedAttempts, clientCalls, ih]

theorem sendMessage_write_first_ok (retry : Bool) (js : GoString) (tail : List Bool)
    (trace : List Event) (htail : tail.head? ≠ some true) :
    sendMessage.write retry js tail trace
      = (Outcome.ok (), tail.drop 1, trace ++ [Event.write js false]) := by
  cases tail with
  | nil => rfl
  | cons b rest =>
    cases b with
    | false => rfl
    | true => simp at htail

theorem sendMessage_write_retry (js : GoString) (k : Nat) (tail : List Bool)
    (trace : List Event) (htail : tail.head? ≠ some true) :
    sendMessage.write true js (List.replicate k true ++ tail) trace
      = (Outcome.ok (), tail.drop 1,
          trace ++ failedAttempts js k ++ [Event.write js false]) := by
  induction k generalizing trace with
  | zero =>
    simp only [List.replicate_zero, List.nil_append, failedAttempts, List.append_nil]
    exact sendMessage_write_first_ok true js tail trace htail
  | succ k ih =>
    rw [List.replicate_succ, List.cons_append]
    show sendMessage.write true js (List.replicate k true ++ tail)
      (trace ++ [Event.write js true, Event.sleep 2]) = _
    rw [ih]
    simp [failedAttempts]

theorem sendMessage_write_fatal (js : GoString) (conn : List Bool) (trace : List Event) :
    sendMessage.write false js (true :: conn) trace
      = (Outcome.fatal, conn, trace ++ [Event.write js true]) := by
  simp [sendMessage.write]

theorem leading_failures (conn : List Bool) :
    ∃ k tail, conn = List.replicate k true ++ tail ∧ tail.head? ≠ some true := by
  induction conn with
  | nil => exact ⟨0, [], rfl, by simp⟩
  | cons b rest ih =>
    cases b with
    | false => exact ⟨0, false :: rest, rfl, by simp⟩
    | true =>
      obtain ⟨k, tail, he, ht⟩ := ih
      exact ⟨k + 1, tail, by rw [he, List.replicate_succ]; rfl, ht⟩

theorem sendMessage_of_marshal (os : Environ) (json : EncodingJson) (a : LogstashAdapter)
    (source message : GoString) (dockerInfo : DockerInfo) (tags : List GoString)
    (fields : GoMap GoString) (decodeJson : Bool) (js : GoString)
    (hm : json.Marshal (sendMessage.record json source message dockerInfo tags fields decodeJson)
      = some js) :
    sendMessage os json a source message dockerInfo tags fields decodeJson =
      ((sendMessage.write (decide (Getenv os (lit "RETRY_SEND") ≠ [])) (js ++ [newline])
          a.conn a.trace).1,
        { a with
          conn := (sendMessage.write (decide (Getenv os (lit "RETRY_SEND") ≠ []))
            (js ++ [newline]) a.conn a.trace).2.1,
          trace := (sendMessage.write (decide (Getenv os (lit "RETRY_SEND") ≠ []))
            (js ++ [newline]) a.conn a.trace).2.2 }) := by
  unfold sendMessage
  rw [hm]

/-- Claim C28.  For a record that serializes to `js` and a connection whose
first `k` writes fail and whose next write succeeds: with `RETRY_SEND` set
`sendMessage` returns after `k` failed writes, each followed by a sleep of
two seconds, and one successful write, `k + 1` writes in all, each of the
bytes `js` and a newline; with `RETRY_SEND` empty and `k ≥ 1` the call
ends in `log.Fatal` after one write; with `k = 0` one write is made and no
sleep, in either mode. -/
theorem sendMessage_delivery_policy (os : Environ) (json : EncodingJson) (a : LogstashAdapter)
    (source message : GoString) (dockerInfo : DockerInfo) (tags : List GoString)
    (fields : GoMap GoString) (decodeJson : Bool) (js : GoString) (k : Nat)
    (tail : List Bool)
    (hm : json.Marshal (sendMessage.record json source message dockerInfo tags fields decodeJson)
      = some js)
    (hconn : a.conn = List.replicate k true ++ tail) (htail : tail.head? ≠ some true) :
    (Getenv os (lit "RETRY_SEND") ≠ [] →
      sendMessage os json a source message dockerInfo tags fields decodeJson =
        (Outcome.ok (), { a with
          conn := tail.drop 1,
          trace := a.trace ++ failedAttempts (js ++ [newline]) k
            ++ [Event.write (js ++ [newline]) false] })) ∧
    writes (failedAttempts (js ++ [newline]) k ++ [Event.write (js ++ [newline]) false])
      = List.replicate (k + 1) (js ++ [newline]) ∧
    (Getenv os (lit "RETRY_SEND") = [] → k ≥ 1 →
      (sendMessage os json a source message dockerInfo tags fields decodeJson).1 = Outcome.fatal ∧
      (sendMessage os json a source message dockerInfo tags fields decodeJson).2.trace
        = a.trace ++ [Event.write (js ++ [newline]) true]) ∧
    (k = 0 →
      sendMessage os json a source message dockerInfo tags fields decodeJson =
        (Outcome.ok (), { a with
          conn := tail.drop 1,
          trace := a.trace ++ [Event.write (js ++ [newline]) false] })) := by
  have hsm := sendMessage_of_marshal os json a source message dockerInfo tags fields decodeJson
    js hm
  refine ⟨?_, ?_, ?_, ?_⟩
  · intro hretry
    have hd : decide (Getenv os (lit "RETRY_SEND") ≠ []) = true := by simpa using hretry
    rw [hsm, hd, hconn, sendMessage_write_retry _ k tail _ htail]
  · rw [writes_append, writes_failedAttempts]
    simp [writes, List.replicate_succ']
  · intro hoff hk
    have hd : decide (Getenv os (lit "RETRY_SEND") ≠ []) = false := by simpa using hoff
    obtain ⟨j, hj⟩ : ∃ j, k = j + 1 := ⟨k - 1, by omega⟩
    rw [hsm, hd, hconn, hj, List.replicate_succ, List.cons_append, sendMessage_write_fatal]
    exact ⟨rfl, rfl⟩
  · intro hk
    subst hk
    rw [hsm, hconn]
    simp only [List.replicate_zero, List.nil_append]
    rw [sendMessage_write_first_ok _ _ tail _ htail]

theorem sendMessage_delivery_policy_witness :
    sendMessage [(lit "RETRY_SEND", lit "1")] exampleJson
        { exampleAdapter with conn := [true, true, false, true] } (lit "FOOOOO")
        (lit "foo bananas") exampleDockerInfo [] GoMap.empty true =
      (Outcome.ok (), { exampleAdapter with
        conn := [true],
        trace := [] ++ failedAttempts (lit "\x7b\x7d" ++ [newline]) 2
          ++ [Event.write (lit "\x7b\x7d" ++ [newline]) false] }) ∧
    (sendMessage [] exampleJson
        { exampleAdapter with conn := [true, true, false, true] } (lit "FOOOOO")
        (lit "foo bananas") exampleDockerInfo [] GoMap.empty true).1 = Outcome.fatal :=
  ⟨(sendMessage_delivery_policy [(lit "RETRY_SEND", lit "1")] exampleJson
      { exampleAdapter with conn := [true, true, false, true] } (lit "FOOOOO")
      (lit "foo bananas") exampleDockerInfo [] GoMap.empty true (lit "\x7b\x7d") 2
      [false, true] rfl rfl (by decide)).1 (by decide),
   ((sendMessage_delivery_policy [] exampleJson
      { exampleAdapter with conn := [true, true, false, true] } (lit "FOOOOO")
      (lit "foo bananas") exampleDockerInfo [] GoMap.empty true (lit "\x7b\x7d") 2
      [false, true] rfl rfl (by decide)).2.2.1 (by decide) (by decide)).1⟩

theorem sendMessage_cases (os : Environ) (json : EncodingJson) (a : LogstashAdapter)
    (source message : GoString) (dockerInfo : DockerInfo) (tags : List GoString)
    (fields : GoMap GoString) (decodeJson : Bool) (js : GoString)
    (hm : json.Marshal (sendMessage.record json source message dockerInfo tags fields decodeJson)
      = some js) :
    ∃ k tail, a.conn = List.replicate k true ++ tail ∧ tail.head? ≠ some true ∧
      (((Getenv os (lit "RETRY_SEND") ≠ [] ∨ k = 0) ∧
        sendMessage os json a source message dockerInfo tags fields decodeJson =
          (Outcome.ok (), { a with
            conn := tail.drop 1,
            trace := a.trace ++ failedAttempts (js ++ [newline]) k
              ++ [Event.write (js ++ [newline]) false] })) ∨
       (Getenv os (lit "RETRY_SEND") = [] ∧ k ≥ 1 ∧
        sendMessage os json a source message dockerInfo tags fields decodeJson =
          (Outcome.fatal, { a with
            conn := List.replicate (k - 1) true ++ tail,
            trace := a.trace ++ [Event.write (js ++ [newline]) true] }))) := by
  obtain ⟨k, tail, hconn, htail⟩ := leading_failures a.conn
  have hsm := sendMessage_of_marshal os json a source message dockerInfo tags fields decodeJson
    js hm
  refine ⟨k, tail, hconn, htail, ?_⟩
  by_cases hretry : Getenv os (lit "RETRY_SEND") ≠ []
  · left
    have hd : decide (Getenv os (lit "RETRY_SEND") ≠ []) = true := by simpa using hretry
    refine ⟨Or.inl hretry, ?_⟩
    rw [hsm, hd, hconn, sendMessage_write_retry _ k tail _ htail]
  · have hoff : Getenv os (lit "RETRY_SEND") = [] := by simpa using hretry
    have hd : decide (Getenv os (lit "RETRY_SEND") ≠ []) = false := by simpa using hoff
    cases k with
    | zero =>
      left
      refine ⟨Or.inr rfl, ?_⟩
      rw [hsm, hconn]
      simp only [List.replicate_zero, List.nil_append, failedAttempts, List.append_nil]
      rw [sendMessage_write_first_ok _ _ tail _ htail]
    | succ j =>
      right
      refine ⟨hoff, by omega, ?_⟩
      rw [hsm, hd, hconn, List.replicate_succ, List.cons_append, sendMessage_write_fatal]
      rfl

/-- Claim C27.  For every record that serializes, to the bytes `js`, every
call of `conn.Write` that `sendMessage` makes, and it makes one at least,
is passed `js` followed by one newline byte: the last byte is the
newline, and no byte before it is a newline, `json.Marshal` producing
none in its compact encoding. -/
theorem sendMessage_wire_framing (os : Environ) (json : EncodingJson) (a : LogstashAdapter)
    (source message : GoString) (dockerInfo : DockerInfo) (tags : List GoString)
    (fields : GoMap GoString) (decodeJson : Bool) (js : GoString)
    (hjson : ∀ record out, json.Marshal record = some out → newline ∉ out)
    (hm : json.Marshal (sendMessage.record json source message dockerInfo tags fields decodeJson)
      = some js) :
    ∃ evs, (sendMessage os json a source message dockerInfo tags fields decodeJson).2.trace
        = a.trace ++ evs ∧
      writes evs ≠ [] ∧
      (∀ b ∈ writes evs, b = js ++ [newline]) ∧
      (js ++ [newline]).getLast? = some newline ∧
      (js ++ [newline]).dropLast = js ∧
      newline ∉ (js ++ [newline]).dropLast ∧
      (js ++ [newline]).count newline = 1 := by
  have hno := hjson _ js hm
  obtain ⟨k, tail, _, _, h | h⟩ :=
    sendMessage_cases os json a source message dockerInfo tags fields decodeJson js hm
  · refine ⟨failedAttempts (js ++ [newline]) k ++ [Event.write (js ++ [newline]) false],
      by rw [h.2, List.append_assoc], ?_, ?_, by simp, by simp, by simpa using hno, ?_⟩
    · rw [writes_append]
      simp [writes]
    · intro b hb
      rw [writes_append, writes_failedAttempts] at hb
      simp only [writes, List.mem_append, List.mem_singleton] at hb
      rcases hb with hb | hb
      · exact (List.mem_replicate.1 hb).2
      · exact hb
    · rw [List.count_append, List.count_eq_zero_of_not_mem hno]
      simp
  · refine ⟨[Event.write (js ++ [newline]) true], by rw [h.2.2], by simp [writes], ?_,
      by simp, by simp, by simpa using hno, ?_⟩
    · intro b hb
      simpa [writes] using hb
    · rw [List.count_append, List.count_eq_zero_of_not_mem hno]
      simp

theorem sendMessage_wire_framing_witness :
    ∃ evs, (sendMessage [(lit "RETRY_SEND", lit "1")] exampleJson
        { exampleAdapter with conn := [true] } (lit "FOOOOO") (lit "foo bananas")
        exampleDockerInfo [] GoMap.empty true).2.trace = exampleAdapter.trace ++ evs ∧
      writes evs ≠ [] ∧ ∀ b ∈ writes evs, b = lit "\x7b\x7d" ++ [newline] := by
  obtain ⟨evs, h1, h2, h3, _⟩ :=
    sendMessage_wire_framing [(lit "RETRY_SEND", lit "1")] exampleJson
      { exampleAdapter with conn := [true] } (lit "FOOOOO") (lit "foo bananas")
      exampleDockerInfo [] GoMap.empty true (lit "\x7b\x7d")
      (fun record out h => by
        have h2 : some (lit "\x7b\x7d") = some out := h
        rw [← Option.some.inj h2]
        decide)
      rfl
  exact ⟨evs, h1, h2, h3⟩

/-! ## The trace of `Stream` -/

theorem GetContainerTags_conn (os : Environ) (c : Container) (a : LogstashAdapter) :
    (GetContainerTags os c a).2.conn = a.conn := by
  unfold GetContainerTags
  cases a.containerTags.get c.ID <;> rfl

theorem GetLogstashFields_conn (os : Environ) (c : Container) (a : LogstashAdapter) :
    (GetLogstashFields os c a).2.conn = a.conn := by
  unfold GetLogstashFields
  cases a.logstashFields.get c.ID with
  | some f => rfl
  | none =>
    simp only
    cases GetLogstashFields.parse
      (GetLogstashFields.scan (Getenv os (lit "LOGSTASH_FIELDS")) c.Config.Env) <;> rfl

theorem IsDecodeJsonLogs_conn (os : Environ) (c : Container) (a : LogstashAdapter) :
    (IsDecodeJsonLogs os c a).2.conn = a.conn := by
  unfold IsDecodeJsonLogs
  cases a.decodeJsonLogs.get c.ID <;> rfl

theorem GetPodLabels_loop_trace (c : Container) (current_labels : GoMap GoString)
    (a : LogstashAdapter) (containers : List APIContainers) (labels : GoMap GoString)
    (a2 : LogstashAdapter)
    (h : GetPodLabels.loop c current_labels a containers = some (labels, a2)) :
    a2.trace = a.trace ++ [Event.info] ∧ a2.conn = a.conn := by
  induction containers with
  | nil => simp [GetPodLabels.loop] at h
  | cons ctr rest ih =>
    by_cases hl : GetPodLabels.isLeader c ctr = true
    · rw [GetPodLabels_loop_leader _ _ _ _ _ hl] at h
      simp only [Option.some.injEq, Prod.mk.injEq] at h
      rw [← h.2]
      exact ⟨rfl, rfl⟩
    · rw [GetPodLabels_loop_skip _ _ _ _ _ (by simpa using hl)] at h
      exact ih h

theorem GetPodLabels_events (c : Container) (current_labels : GoMap GoString)
    (a : LogstashAdapter) :
    ∃ evs, (GetPodLabels c current_labels a).2.trace = a.trace ++ evs ∧ sent evs = [] ∧
      (GetPodLabels c current_labels a).2.conn = a.conn := by
  unfold GetPodLabels
  cases a.k8sLabels.get c.ID with
  | some l => exact ⟨[], by simp, rfl, rfl⟩
  | none =>
    cases c.Config.Labels.get K8S_POD_UID_LABEL with
    | none => exact ⟨[], by simp, rfl, rfl⟩
    | some u =>
      simp only
      cases a.client.ListContainers
        (K8S_POD_UID_LABEL ++ lit "=" ++ c.Config.Labels.index K8S_POD_UID_LABEL) with
      | error e => exact ⟨[Event.listContainers _], rfl, rfl, rfl⟩
      | ok containers =>
        simp only
        cases hl : GetPodLabels.loop c current_labels
          { a with trace := a.trace ++ [Event.listContainers
            (K8S_POD_UID_LABEL ++ lit "=" ++ c.Config.Labels.index K8S_POD_UID_LABEL)] }
          containers with
        | none => exact ⟨[Event.listContainers _], rfl, rfl, rfl⟩
        | some r =>
          obtain ⟨l, a2⟩ := r
          obtain ⟨ht, hc⟩ := GetPodLabels_loop_trace c current_labels _ containers l a2 hl
          exact ⟨[Event.listContainers
            (K8S_POD_UID_LABEL ++ lit "=" ++ c.Config.Labels.index K8S_POD_UID_LABEL),
            Event.info], by rw [ht]; simp, rfl, hc⟩

theorem Stream_dockerInfo_events (os : Environ) (a : LogstashAdapter) (m : Message) :
    ∃ evs, (Stream.dockerInfo os a m).2.trace = a.trace ++ evs ∧ sent evs = [] ∧
      (Stream.dockerInfo os a m).2.conn = a.conn := by
  unfold Stream.dockerInfo
  by_cases h : Getenv os (lit "DOCKER_LABELS") ≠ []
  · rw [if_pos h]
    have := GetPodLabels_events m.Container
      (Stream.labels GoMap.empty m.Container.Config.Labels.entries) a
    dsimp only
    generalize GetPodLabels m.Container
      (Stream.labels GoMap.empty m.Container.Config.Labels.entries) a = r at this ⊢
    obtain ⟨r, a1⟩ := r
    cases r <;> exact this
  · rw [if_neg h]
    exact ⟨[], by simp, rfl, rfl⟩

theorem Stream_dockerInfo_off (os : Environ) (a : LogstashAdapter) (m : Message)
    (hoff : Getenv os (lit "DOCKER_LABELS") = []) :
    Stream.dockerInfo os a m =
      (Outcome.ok
        { Name := m.Container.Name, ID := m.Container.ID, Image := m.Container.Config.Image,
          Hostname := m.Container.Config.Hostname, Labels := none }, a) := by
  unfold Stream.dockerInfo
  rw [if_neg (by simp [hoff])]

theorem Stream_sendAll_single (os : Environ) (json : EncodingJson) (source : GoString)
    (dockerInfo : DockerInfo) (tags : List GoString) (fields : GoMap GoString)
    (decodeJson : Bool) (a : LogstashAdapter) (msg : GoString) :
    Stream.sendAll os json source dockerInfo tags fields decodeJson a [msg]
      = sendMessage os json a source msg dockerInfo tags fields decodeJson := by
  simp only [Stream.sendAll]
  generalize sendMessage os json a source msg dockerInfo tags fields decodeJson = r
  obtain ⟨r, a1⟩ := r
  cases r <;> rfl

theorem Stream_body_of_dockerInfo_fatal (os : Environ) (json : EncodingJson)
    (a a1 : LogstashAdapter) (m : Message) (h : Stream.dockerInfo os a m = (Outcome.fatal, a1)) :
    Stream.body os json a m = (Outcome.fatal, a1) := by
  unfold Stream.body
  rw [h]

theorem Stream_body_of_dockerInfo_panic (os : Environ) (json : EncodingJson)
    (a a1 : LogstashAdapter) (m : Message) (h : Stream.dockerInfo os a m = (Outcome.panic, a1)) :
    Stream.body os json a m = (Outcome.panic, a1) := by
  unfold Stream.body
  rw [h]

theorem Stream_body_of_fields_panic (os : Environ) (json : EncodingJson)
    (a a1 a3 : LogstashAdapter) (m : Message) (dockerInfo : DockerInfo)
    (h : Stream.dockerInfo os a m = (Outcome.ok dockerInfo, a1))
    (hf : GetLogstashFields os m.Container (GetContainerTags os m.Container a1).2
      = (Outcome.panic, a3)) :
    Stream.body os json a m = (Outcome.panic, a3) := by
  unfold Stream.body
  rw [h]
  simp only [hf]

theorem Stream_body_of_fields_fatal (os : Environ) (json : EncodingJson)
    (a a1 a3 : LogstashAdapter) (m : Message) (dockerInfo : DockerInfo)
    (h : Stream.dockerInfo os a m = (Outcome.ok dockerInfo, a1))
    (hf : GetLogstashFields os m.Container (GetContainerTags os m.Container a1).2
      = (Outcome.fatal, a3)) :
    Stream.body os json a m = (Outcome.fatal, a3) := by
  unfold Stream.body
  rw [h]
  simp only [hf]

theorem Stream_body_of_resolved (os : Environ) (json : EncodingJson)
    (a a1 a3 : LogstashAdapter) (m : Message) (dockerInfo : DockerInfo)
    (fields : GoMap GoString)
    (h : Stream.dockerInfo os a m = (Outcome.ok dockerInfo, a1))
    (hf : GetLogstashFields os m.Container (GetContainerTags os m.Container a1).2
      = (Outcome.ok fields, a3)) :
    Stream.body os json a m =
      if Getenv os (lit "BROKEN_JOURNALD") ≠ [] then
        Stream.sendAll os json m.Source dockerInfo (GetContainerTags os m.Container a1).1 fields
          (IsDecodeJsonLogs os m.Container a3).1 (IsDecodeJsonLogs os m.Container a3).2
          (Split m.Data carriageReturn)
      else (Outcome.ok (), (IsDecodeJsonLogs os m.Container a3).2) := by
  unfold Stream.body
  rw [h]
  simp only [hf]
  by_cases hb : Getenv os (lit "BROKEN_JOURNALD") ≠ []
  · rw [if_pos hb, if_pos hb]
    by_cases hc : Contains m.Data carriageReturn = false
    · rw [if_pos hc]
      have hno : carriageReturn ∉ m.Data := by simpa [Contains] using hc
      rw [Split_of_no_sep _ _ hno, Stream_sendAll_single]
    · rw [if_neg hc]
  · rw [if_neg hb, if_neg hb]

theorem sendMessage_trace_ext (os : Environ) (json : EncodingJson) (a : LogstashAdapter)
    (source message : GoString) (dockerInfo : DockerInfo) (tags : List GoString)
    (fields : GoMap GoString) (decodeJson : Bool) :
    ∃ evs, (sendMessage os json a source message dockerInfo tags fields decodeJson).2.trace
        = a.trace ++ evs ∧ clientCalls evs = [] := by
  cases hm : json.Marshal
    (sendMessage.record json source message dockerInfo tags fields decodeJson) with
  | none =>
    refine ⟨[], ?_, rfl⟩
    unfold sendMessage
    rw [hm]
    simp
  | some js =>
    obtain ⟨k, tail, _, _, h | h⟩ :=
      sendMessage_cases os json a source message dockerInfo tags fields decodeJson js hm
    · refine ⟨failedAttempts (js ++ [newline]) k ++ [Event.write (js ++ [newline]) false],
        by rw [h.2, List.append_assoc], ?_⟩
      rw [clientCalls_append, clientCalls_failedAttempts]
      rfl
    · exact ⟨[Event.write (js ++ [newline]) true], by rw [h.2.2], rfl⟩

theorem Stream_sendAll_trace_ext (os : Environ) (json : EncodingJson) (source : GoString)
    (dockerInfo : DockerInfo) (tags : List GoString) (fields : GoMap GoString)
    (decodeJson : Bool) (a : LogstashAdapter) (pieces : List GoString) :
    ∃ evs, (Stream.sendAll os json source dockerInfo tags fields decodeJson a pieces).2.trace
        = a.trace ++ evs ∧ clientCalls evs = [] := by
  induction pieces generalizing a with
  | nil => exact ⟨[], by simp [Stream.sendAll], rfl⟩
  | cons msg rest ih =>
    obtain ⟨evs, h1, h2⟩ :=
      sendMessage_trace_ext os json a source msg dockerInfo tags fields decodeJson
    simp only [Stream.sendAll]
    generalize sendMessage os json a source msg dockerInfo tags fields decodeJson = r at h1 ⊢
    obtain ⟨r, a1⟩ := r
    cases r with
    | ok u =>
      obtain ⟨evs2, h3, h4⟩ := ih a1
      refine ⟨evs ++ evs2, ?_, by rw [clientCalls_append, h2, h4]; rfl⟩
      simp only at h1 ⊢
      rw [h3, h1, List.append_assoc]
    | fatal => exact ⟨evs, h1, h2⟩
    | panic => exact ⟨evs, h1, h2⟩

theorem Stream_body_trace_ext (os : Environ) (json : EncodingJson) (a : LogstashAdapter)
    (m : Message) :
    ∃ evs, (Stream.body os json a m).2.trace = (Stream.dockerInfo os a m).2.trace ++ evs ∧
      clientCalls evs = [] := by
  cases hd : Stream.dockerInfo os a m with
  | mk r a1 =>
    cases r with
    | fatal =>
      rw [Stream_body_of_dockerInfo_fatal os json a a1 m hd]
      exact ⟨[], by simp, rfl⟩
    | panic =>
      rw [Stream_body_of_dockerInfo_panic os json a a1 m hd]
      exact ⟨[], by simp, rfl⟩
    | ok dockerInfo =>
      have h2 := GetContainerTags_trace os m.Container a1
      have h3 := GetLogstashFields_trace os m.Container (GetContainerTags os m.Container a1).2
      cases hf : GetLogstashFields os m.Container (GetContainerTags os m.Container a1).2 with
      | mk rf a3 =>
        rw [hf] at h3
        simp only at h3
        cases rf with
        | fatal =>
          rw [Stream_body_of_fields_fatal os json a a1 a3 m dockerInfo hd hf]
          exact ⟨[], by simp [h3, h2], rfl⟩
        | panic =>
          rw [Stream_body_of_fields_panic os json a a1 a3 m dockerInfo hd hf]
          exact ⟨[], by simp [h3, h2], rfl⟩
        | ok fields =>
          rw [Stream_body_of_resolved os json a a1 a3 m dockerInfo fields hd hf]
          have h4 := IsDecodeJsonLogs_trace os m.Container a3
          by_cases hb : Getenv os (lit "BROKEN_JOURNALD") ≠ []
          · rw [if_pos hb]
            obtain ⟨evs, he, hc⟩ := Stream_sendAll_trace_ext os json m.Source dockerInfo
              (GetContainerTags os m.Container a1).1 fields
              (IsDecodeJsonLogs os m.Container a3).1 (IsDecodeJsonLogs os m.Container a3).2
              (Split m.Data carriageReturn)
            exact ⟨evs, by rw [he, h4, h3, h2], hc⟩
          · rw [if_neg hb]
            exact ⟨[], by simp [h4, h3, h2], rfl⟩

/-- Claim C25.  When `DOCKER_LABELS` is empty or unset, for every message
the docker info that `Stream` builds has the container's name, ID, image
and hostname and nil labels, whatever the labels of the container are,
and this is the value under `docker` of every record built from it; the
adapter is unchanged by this step and `Stream` makes no call of
`ListContainers` or `Info`, whatever the messages are. -/
theorem Stream_labels_disabled (os : Environ) (json : EncodingJson) (a : LogstashAdapter)
    (m : Message) (hoff : Getenv os (lit "DOCKER_LABELS") = []) :
    Stream.dockerInfo os a m =
      (Outcome.ok
        { Name := m.Container.Name, ID := m.Container.ID, Image := m.Container.Config.Image,
          Hostname := m.Container.Config.Hostname, Labels := none }, a) ∧
    Stream.dockerLabels os a m = none ∧
    (∀ source message tags fields decodeJson,
      (sendMessage.record json source message
        { Name := m.Container.Name, ID := m.Container.ID, Image := m.Container.Config.Image,
          Hostname := m.Container.Config.Hostname, Labels := none }
        tags fields decodeJson).get (lit "docker") =
      some (Value.docker
        { Name := m.Container.Name, ID := m.Container.ID, Image := m.Container.Config.Image,
          Hostname := m.Container.Config.Hostname, Labels := none })) ∧
    (∀ b ms, clientCalls (Stream os json b ms).2.trace = clientCalls b.trace) := by
  have hinfo := Stream_dockerInfo_off os a m hoff
  refine ⟨hinfo, ?_, ?_, ?_⟩
  · unfold Stream.dockerLabels
    rw [hinfo]
  · intro source message tags fields decodeJson
    rw [sendMessage_record_get, if_neg (by decide), if_neg (by decide), if_pos rfl]
  · intro b ms
    induction ms generalizing b with
    | nil => rfl
    | cons x ms ih =>
      obtain ⟨evs, he, hc⟩ := Stream_body_trace_ext os json b x
      rw [Stream_dockerInfo_off os b x hoff] at he
      simp only at he
      have hb : clientCalls (Stream.body os json b x).2.trace = clientCalls b.trace := by
        rw [he, clientCalls_append, hc, List.append_nil]
      simp only [Stream]
      generalize Stream.body os json b x = r at hb ⊢
      obtain ⟨r, b1⟩ := r
      cases r with
      | ok u => simp only; rw [ih b1]; exact hb
      | fatal => exact hb
      | panic => exact hb

theorem Stream_labels_disabled_witness :
    Stream.dockerLabels [(lit "BROKEN_JOURNALD", lit "1")] examplePodAdapter
        (examplePodMessage exampleOwnLabels) = none ∧
    clientCalls (Stream [(lit "BROKEN_JOURNALD", lit "1")] exampleJson examplePodAdapter
        [examplePodMessage exampleOwnLabels]).2.trace = [] :=
  ⟨(Stream_labels_disabled [(lit "BROKEN_JOURNALD", lit "1")] exampleJson examplePodAdapter
      (examplePodMessage exampleOwnLabels) (by decide)).2.1,
   (Stream_labels_disabled [(lit "BROKEN_JOURNALD", lit "1")] exampleJson examplePodAdapter
      (examplePodMessage exampleOwnLabels) (by decide)).2.2.2 examplePodAdapter
      [examplePodMessage exampleOwnLabels]⟩

/-! ## `Stream` with the delimiter workaround -/

theorem Split_length (s : GoString) (sep : Nat) :
    (Split s sep).length = s.count sep + 1 := by
  induction s with
  | nil => rfl
  | cons c cs ih =>
    by_cases hc : c = sep
    · simp [Split, hc, ih]
    · obtain ⟨p, ps, hp⟩ := List.exists_cons_of_ne_nil (Split_ne_nil cs sep)
      rw [hp] at ih
      have hcount : List.count sep (c :: cs) = List.count sep cs := by
        simp [List.count_cons, hc]
      simp only [Split, hc, if_false, hp, hcount]
      exact ih

theorem filterMap_length_of_all_some {α β : Type} (f : α → Option β) (l : List α)
    (h : ∀ x ∈ l, f x ≠ none) : (l.filterMap f).length = l.length := by
  induction l with
  | nil => rfl
  | cons x l ih =>
    cases hx : f x with
    | none => exact absurd hx (h x (List.mem_cons_self _ _))
    | some y =>
      rw [List.filterMap_cons_some hx, List.length_cons, List.length_cons,
        ih (fun z hz => h z (List.mem_cons_of_mem _ hz))]

theorem sendMessage_delivered (os : Environ) (json : EncodingJson) (a : LogstashAdapter)
    (source message : GoString) (dockerInfo : DockerInfo) (tags : List GoString)
    (fields : GoMap GoString) (decodeJson : Bool)
    (hd : Getenv os (lit "RETRY_SEND") ≠ [] ∨ ∀ b ∈ a.conn, b = false) :
    (sendMessage os json a source message dockerInfo tags fields decodeJson).1 = Outcome.ok () ∧
    sent (sendMessage os json a source message dockerInfo tags fields decodeJson).2.trace =
      sent a.trace ++ ((json.Marshal
        (sendMessage.record json source message dockerInfo tags fields decodeJson)).map
          (fun js => js ++ [newline])).toList ∧
    (Getenv os (lit "RETRY_SEND") ≠ [] ∨
      ∀ b ∈ (sendMessage os json a source message dockerInfo tags fields decodeJson).2.conn,
        b = false) := by
  cases hm : json.Marshal
    (sendMessage.record json source message dockerInfo tags fields decodeJson) with
  | none =>
    have h : sendMessage os json a source message dockerInfo tags fields decodeJson
        = (Outcome.ok (), a) := by
      unfold sendMessage
      rw [hm]
    rw [h]
    exact ⟨rfl, by simp, hd⟩
  | some js =>
    obtain ⟨k, tail, hconn, _, h | h⟩ :=
      sendMessage_cases os json a source message dockerInfo tags fields decodeJson js hm
    · rw [h.2]
      refine ⟨rfl, ?_, ?_⟩
      · simp [sent_append, sent_failedAttempts, sent]
      · rcases hd with hd | hd
        · exact Or.inl hd
        · right
          intro b hb
          apply hd b
          rw [hconn]
          exact List.mem_append_right _ (List.mem_of_mem_drop hb)
    · exfalso
      rcases hd with hd | hd
      · exact hd h.1
      · have hk : k ≥ 1 := h.2.1
        have : true ∈ a.conn := by
          rw [hconn]
          apply List.mem_append_left
          exact List.mem_replicate.2 ⟨by omega, rfl⟩
        exact Bool.noConfusion (hd true this)

theorem Stream_sendAll_delivered (os : Environ) (json : EncodingJson) (source : GoString)
    (dockerInfo : DockerInfo) (tags : List GoString) (fields : GoMap GoString)
    (decodeJson : Bool) (a : LogstashAdapter) (pieces : List GoString)
    (hd : Getenv os (lit "RETRY_SEND") ≠ [] ∨ ∀ b ∈ a.conn, b = false) :
    (Stream.sendAll os json source dockerInfo tags fields decodeJson a pieces).1
      = Outcome.ok () ∧
    sent (Stream.sendAll os json source dockerInfo tags fields decodeJson a pieces).2.trace =
      sent a.trace ++ pieces.filterMap (fun piece =>
        (json.Marshal (sendMessage.record json source piece dockerInfo tags fields
          decodeJson)).map (fun js => js ++ [newline])) := by
  induction pieces generalizing a with
  | nil => exact ⟨rfl, by simp [Stream.sendAll]⟩
  | cons msg rest ih =>
    obtain ⟨h1, h2, h3⟩ :=
      sendMessage_delivered os json a source msg dockerInfo tags fields decodeJson hd
    simp only [Stream.sendAll]
    generalize sendMessage os json a source msg dockerInfo tags fields decodeJson = r
      at h1 h2 h3 ⊢
    obtain ⟨r, a1⟩ := r
    simp only at h1 h2 h3
    subst h1
    obtain ⟨h4, h5⟩ := ih a1 h3
    refine ⟨h4, ?_⟩
    simp only at h5 ⊢
    cases hmm : json.Marshal
      (sendMessage.record json source msg dockerInfo tags fields decodeJson) with
    | none =>
      rw [hmm] at h2
      simp [List.filterMap_cons, hmm, h5, h2]
    | some js =>
      rw [hmm] at h2
      simp [List.filterMap_cons, hmm, h5, h2]

/-- Claim C26.  In `Stream` with `BROKEN_JOURNALD` set, for a message with
data `d` whose docker info and fields are resolved, on a connection that
delivers (`RETRY_SEND` set, or no failing write): the body of the loop
returns, and the records that reach the connection are, in order, the
records of the pieces of `d` split on the carriage return that
serialize, each built with the same source, docker info, tags, fields and
decode flag and followed by a newline.  The pieces are one more than the
carriage returns in `d`, empty pieces included; joined with carriage
returns they give back `d`; data without a carriage return is one piece,
`d` itself; when every piece serializes, one record is sent for each
piece. -/
theorem Stream_workaround_enabled (os : Environ) (json : EncodingJson)
    (a a1 a3 : LogstashAdapter) (m : Message) (dockerInfo : DockerInfo)
    (fields : GoMap GoString)
    (hbroken : Getenv os (lit "BROKEN_JOURNALD") ≠ [])
    (hinfo : Stream.dockerInfo os a m = (Outcome.ok dockerInfo, a1))
    (hfields : GetLogstashFields os m.Container (GetContainerTags os m.Container a1).2
      = (Outcome.ok fields, a3))
    (hdeliver : Getenv os (lit "RETRY_SEND") ≠ [] ∨ ∀ b ∈ a.conn, b = false) :
    (Stream.body os json a m).1 = Outcome.ok () ∧
    sent (Stream.body os json a m).2.trace =
      sent a.trace ++ (Split m.Data carriageReturn).filterMap (fun piece =>
        (json.Marshal (sendMessage.record json m.Source piece dockerInfo
          (GetContainerTags os m.Container a1).1 fields
          (IsDecodeJsonLogs os m.Container a3).1)).map (fun js => js ++ [newline])) ∧
    (Split m.Data carriageReturn).length = m.Data.count carriageReturn + 1 ∧
    Join (Split m.Data carriageReturn) carriageReturn = m.Data ∧
    (carriageReturn ∉ m.Data → Split m.Data carriageReturn = [m.Data]) ∧
    ((∀ piece ∈ Split m.Data carriageReturn,
        json.Marshal (sendMessage.record json m.Source piece dockerInfo
          (GetContainerTags os m.Container a1).1 fields
          (IsDecodeJsonLogs os m.Container a3).1) ≠ none) →
      (sent (Stream.body os json a m).2.trace).length
        = (sent a.trace).length + (m.Data.count carriageReturn + 1)) := by
  have hbody := Stream_body_of_resolved os json a a1 a3 m dockerInfo fields hinfo hfields
  rw [if_pos hbroken] at hbody
  obtain ⟨evs, he, hs, hc⟩ := Stream_dockerInfo_events os a m
  rw [hinfo] at he hc
  simp only at he hc
  have h2 := GetContainerTags_trace os m.Container a1
  have h3 := GetLogstashFields_trace os m.Container (GetContainerTags os m.Container a1).2
  have c2 := GetContainerTags_conn os m.Container a1
  have c3 := GetLogstashFields_conn os m.Container (GetContainerTags os m.Container a1).2
  rw [hfields] at h3 c3
  simp only at h3 c3
  have h4 := IsDecodeJsonLogs_trace os m.Container a3
  have c4 := IsDecodeJsonLogs_conn os m.Container a3
  have hconn : (IsDecodeJsonLogs os m.Container a3).2.conn = a.conn := by
    rw [c4, c3, c2, hc]
  have hsent : sent (IsDecodeJsonLogs os m.Container a3).2.trace = sent a.trace := by
    rw [h4, h3, h2, he, sent_append, hs, List.append_nil]
  have hd : Getenv os (lit "RETRY_SEND") ≠ [] ∨
      ∀ b ∈ (IsDecodeJsonLogs os m.Container a3).2.conn, b = false := by
    rw [hconn]
    exact hdeliver
  obtain ⟨hok, hsend⟩ := Stream_sendAll_delivered os json m.Source dockerInfo
    (GetContainerTags os m.Container a1).1 fields (IsDecodeJsonLogs os m.Container a3).1
    (IsDecodeJsonLogs os m.Container a3).2 (Split m.Data carriageReturn) hd
  rw [hsent] at hsend
  rw [hbody]
  refine ⟨hok, hsend, Split_length _ _, Join_Split _ _, Split_of_no_sep _ _, ?_⟩
  intro hall
  rw [hsend, List.length_append,
    filterMap_length_of_all_some _ _ (fun x hx => by simpa using hall x hx), Split_length]

theorem Stream_workaround_enabled_witness :
    sent (Stream.body [(lit "BROKEN_JOURNALD", lit "1")] exampleJson exampleAdapter
        exampleSplitMessage).2.trace =
      [lit "\x7b\x7d\n", lit "\x7b\x7d\n", lit "\x7b\x7d\n"] ∧
    Split exampleSplitMessage.Data carriageReturn = [lit "foo", lit "bananas", []] :=
  ⟨((Stream_workaround_enabled [(lit "BROKEN_JOURNALD", lit "1")] exampleJson exampleAdapter
      exampleAdapter
      (GetLogstashFields [(lit "BROKEN_JOURNALD", lit "1")] exampleSplitMessage.Container
        (GetContainerTags [(lit "BROKEN_JOURNALD", lit "1")] exampleSplitMessage.Container
          exampleAdapter).2).2
      exampleSplitMessage exampleDockerInfo GoMap.empty (by decide) rfl rfl
      (Or.inr (by decide))).2.1).trans (by decide),
   by decide⟩

/-! ## The order of emission -/

theorem Stream_body_events (os : Environ) (json : EncodingJson) (a : LogstashAdapter)
    (m : Message) : ∃ evs, (Stream.body os json a m).2.trace = a.trace ++ evs := by
  obtain ⟨evs1, h1, _, _⟩ := Stream_dockerInfo_events os a m
  obtain ⟨evs2, h2, _⟩ := Stream_body_trace_ext os json a m
  exact ⟨evs1 ++ evs2, by rw [h2, h1, List.append_assoc]⟩

theorem Stream_append (os : Environ) (json : EncodingJson) (a : LogstashAdapter)
    (ms1 ms2 : List Message) :
    Stream os json a (ms1 ++ ms2) =
      (match Stream os json a ms1 with
       | (.ok _, a1) => Stream os json a1 ms2
       | (.fatal, a1) => (.fatal, a1)
       | (.panic, a1) => (.panic, a1)) := by
  induction ms1 generalizing a with
  | nil => rfl
  | cons m ms ih =>
    simp only [List.cons_append, Stream]
    generalize Stream.body os json a m = r
    obtain ⟨r, a1⟩ := r
    cases r with
    | ok u => exact ih a1
    | fatal => rfl
    | panic => rfl

theorem Stream_trace_emitted (os : Environ) (json : EncodingJson) (a : LogstashAdapter)
    (ms : List Message) :
    (Stream os json a ms).2.trace = a.trace ++ (Stream.emitted os json a ms).flatten := by
  induction ms generalizing a with
  | nil => simp [Stream, Stream.emitted]
  | cons m ms ih =>
    obtain ⟨evs, he⟩ := Stream_body_events os json a m
    simp only [Stream, Stream.emitted]
    generalize Stream.body os json a m = r at he ⊢
    obtain ⟨r, a1⟩ := r
    simp only at he
    cases r with
    | ok u =>
      simp only [List.flatten_cons]
      rw [ih a1, he, List.drop_left, List.append_assoc]
    | fatal =>
      simp only [List.flatten_cons, List.flatten_nil, List.append_nil]
      rw [he, List.drop_left]
    | panic =>
      simp only [List.flatten_cons, List.flatten_nil, List.append_nil]
      rw [he, List.drop_left]

theorem sent_flatten (chunks : List (List Event)) :
    sent chunks.flatten = (chunks.map sent).flatten := by
  induction chunks with
  | nil => rfl
  | cons c cs ih => simp [List.flatten_cons, sent_append, ih]

theorem Stream_emitted_length (os : Environ) (json : EncodingJson) (a : LogstashAdapter)
    (ms : List Message) : (Stream.emitted os json a ms).length ≤ ms.length := by
  induction ms generalizing a with
  | nil => simp [Stream.emitted]
  | cons m ms ih =>
    simp only [Stream.emitted]
    generalize Stream.body os json a m = r
    obtain ⟨r, a1⟩ := r
    cases r with
    | ok u =>
      simp only [List.length_cons]
      exact Nat.succ_le_succ (ih a1)
    | fatal => simp
    | panic => simp

theorem Stream_cons_of_body_ok (os : Environ) (json : EncodingJson) (a a1 : LogstashAdapter)
    (m : Message) (ms : List Message) (h : Stream.body os json a m = (Outcome.ok (), a1)) :
    Stream os json a (m :: ms) = Stream os json a1 ms := by
  simp only [Stream, h]

theorem Stream_cons_of_body_not_ok (os : Environ) (json : EncodingJson) (a : LogstashAdapter)
    (m : Message) (ms : List Message) (h : (Stream.body os json a m).1 ≠ Outcome.ok ()) :
    Stream os json a (m :: ms) = Stream.body os json a m := by
  simp only [Stream]
  generalize Stream.body os json a m = r at h ⊢
  obtain ⟨r, a1⟩ := r
  cases r with
  | ok u => exact absurd rfl h
  | fatal => rfl
  | panic => rfl

theorem Stream_returns_iff (os : Environ) (json : EncodingJson) (a : LogstashAdapter)
    (ms : List Message) :
    (Stream os json a ms).1 = Outcome.ok () ↔
      ∀ ms1 m ms2, ms = ms1 ++ m :: ms2 →
        (Stream.body os json (Stream os json a ms1).2 m).1 = Outcome.ok () := by
  constructor
  · intro h ms1 m ms2 hms
    rw [hms, Stream_append] at h
    generalize Stream os json a ms1 = r at h ⊢
    obtain ⟨r, a1⟩ := r
    cases r with
    | ok u =>
      simp only at h ⊢
      by_contra hb
      rw [Stream_cons_of_body_not_ok os json a1 m ms2 hb] at h
      exact hb h
    | fatal => exact Outcome.noConfusion h
    | panic => exact Outcome.noConfusion h
  · intro h
    induction ms generalizing a with
    | nil => rfl
    | cons m rest ih =>
      have h0 : (Stream.body os json a m).1 = Outcome.ok () := h [] m rest rfl
      have hb : Stream.body os json a m = (Outcome.ok (), (Stream.body os json a m).2) := by
        rw [← h0]
      rw [Stream_cons_of_body_ok os json a _ m rest hb]
      apply ih
      intro r1 x r2 hr
      have h1 := h (m :: r1) x r2 (by rw [hr]; rfl)
      rw [Stream_cons_of_body_ok os json a _ m r1 hb] at h1
      exact h1

theorem Stream_stops_at (os : Environ) (json : EncodingJson) (a : LogstashAdapter)
    (ms1 ms2 : List Message) (m : Message)
    (hbefore : (Stream os json a ms1).1 = Outcome.ok ())
    (hbody : (Stream.body os json (Stream os json a ms1).2 m).1 ≠ Outcome.ok ()) :
    Stream os json a (ms1 ++ m :: ms2) = Stream.body os json (Stream os json a ms1).2 m := by
  rw [Stream_append]
  generalize Stream os json a ms1 = r at hbefore hbody ⊢
  obtain ⟨r, a1⟩ := r
  simp only at hbefore
  subst hbefore
  exact Stream_cons_of_body_not_ok os json a1 m ms2 hbody

theorem Stream_body_returns (os : Environ) (json : EncodingJson)
    (a a1 a3 : LogstashAdapter) (m : Message) (dockerInfo : DockerInfo)
    (fields : GoMap GoString)
    (hinfo : Stream.dockerInfo os a m = (Outcome.ok dockerInfo, a1))
    (hfields : GetLogstashFields os m.Container (GetContainerTags os m.Container a1).2
      = (Outcome.ok fields, a3))
    (hdeliver : Getenv os (lit "BROKEN_JOURNALD") = [] ∨ Getenv os (lit "RETRY_SEND") ≠ [] ∨
      ∀ b ∈ a.conn, b = false) :
    (Stream.body os json a m).1 = Outcome.ok () := by
  have hbody := Stream_body_of_resolved os json a a1 a3 m dockerInfo fields hinfo hfields
  by_cases hb : Getenv os (lit "BROKEN_JOURNALD") ≠ []
  · rw [if_pos hb] at hbody
    obtain ⟨_, _, _, hc⟩ := Stream_dockerInfo_events os a m
    rw [hinfo] at hc
    simp only at hc
    have c2 := GetContainerTags_conn os m.Container a1
    have c3 := GetLogstashFields_conn os m.Container (GetContainerTags os m.Container a1).2
    rw [hfields] at c3
    simp only at c3
    have c4 := IsDecodeJsonLogs_conn os m.Container a3
    have hd : Getenv os (lit "RETRY_SEND") ≠ [] ∨
        ∀ b ∈ (IsDecodeJsonLogs os m.Container a3).2.conn, b = false := by
      rw [c4, c3, c2, hc]
      rcases hdeliver with h | h | h
      · exact absurd h hb
      · exact Or.inl h
      · exact Or.inr h
    rw [hbody]
    exact (Stream_sendAll_delivered os json m.Source dockerInfo
      (GetContainerTags os m.Container a1).1 fields (IsDecodeJsonLogs os m.Container a3).1
      (IsDecodeJsonLogs os m.Container a3).2 (Split m.Data carriageReturn) hd).1
  · rw [if_neg hb] at hbody
    rw [hbody]

theorem forall_split_pair {α : Type} (P : List α → α → Prop) (x y : α)
    (hx : P [] x) (hy : P [x] y) :
    ∀ ms1 m ms2, [x, y] = ms1 ++ m :: ms2 → P ms1 m := by
  intro ms1 m ms2 h
  cases ms1 with
  | nil =>
    simp only [List.nil_append, List.cons.injEq] at h
    rw [← h.1]
    exact hx
  | cons z zs =>
    cases zs with
    | nil =>
      simp only [List.cons_append, List.nil_append, List.cons.injEq] at h
      rw [← h.1, ← h.2.1]
      exact hy
    | cons w ws =>
      simp only [List.cons_append, List.cons.injEq] at h
      exact absurd h.2.2 (by simp)

/-- Claim C29, as the claim states it, fails: with `BROKEN_JOURNALD` set
and `RETRY_SEND` unset, on a connection whose first write fails, the
source delivers one message and is exhausted, and `Stream` does not
return: the failed write ends the process through `log.Fatal`, after one
write attempt and with no record delivered. -/
theorem Stream_failed_write_ends_process :
    (Stream [(lit "BROKEN_JOURNALD", lit "1")] exampleJson
        { exampleAdapter with conn := [true] } [exampleMessage]).1 = Outcome.fatal ∧
    (Stream [(lit "BROKEN_JOURNALD", lit "1")] exampleJson
        { exampleAdapter with conn := [true] } [exampleMessage]).1 ≠ Outcome.ok () ∧
    writes (Stream [(lit "BROKEN_JOURNALD", lit "1")] exampleJson
        { exampleAdapter with conn := [true] } [exampleMessage]).2.trace
      = [lit "\x7b\x7d\n"] ∧
    sent (Stream [(lit "BROKEN_JOURNALD", lit "1")] exampleJson
        { exampleAdapter with conn := [true] } [exampleMessage]).2.trace = [] :=
  ⟨rfl, fun h => Outcome.noConfusion (Eq.trans (Eq.symm h)
      (rfl : (Stream [(lit "BROKEN_JOURNALD", lit "1")] exampleJson
        { exampleAdapter with conn := [true] } [exampleMessage]).1 = Outcome.fatal)),
    by decide, by decide⟩

/-- Claim C29, amended.  For every finite sequence of messages, the events
that `Stream` adds to the trace, and so the records written to the
connection, are the concatenation, in the order of consumption, of what
the body of the loop adds for each message; what is written for the
messages `ms1` comes before everything written for the messages `ms2`
consumed after them.  On a connection that accepts every write after
finitely many failures, `Stream` returns once the messages are exhausted
if and only if the body of the loop returns for every message, in the
state that the messages before it left; the first message at which it
does not (`log.Fatal` or a panic) ends `Stream` there, and no later
message is consumed.  The body returns for a message whose docker info
and fields are resolved when `BROKEN_JOURNALD` is unset, `RETRY_SEND` is
set or no write of the connection fails. -/
theorem Stream_emission_order (os : Environ) (json : EncodingJson) (a : LogstashAdapter)
    (ms : List Message) :
    (Stream os json a ms).2.trace = a.trace ++ (Stream.emitted os json a ms).flatten ∧
    sent (Stream os json a ms).2.trace
      = sent a.trace ++ ((Stream.emitted os json a ms).map sent).flatten ∧
    (Stream.emitted os json a ms).length ≤ ms.length ∧
    (∀ ms1 ms2, ms = ms1 ++ ms2 →
      (Stream.emitted os json a ms1).flatten <+: (Stream.emitted os json a ms).flatten ∧
      ∃ later, (Stream os json a ms).2.trace = (Stream os json a ms1).2.trace ++ later ∧
        ((Stream os json a ms1).1 = Outcome.ok () →
          later = (Stream.emitted os json (Stream os json a ms1).2 ms2).flatten)) ∧
    Stream os json a [] = (Outcome.ok (), a) ∧
    ((Stream os json a ms).1 = Outcome.ok () ↔
      ∀ ms1 m ms2, ms = ms1 ++ m :: ms2 →
        (Stream.body os json (Stream os json a ms1).2 m).1 = Outcome.ok ()) ∧
    (∀ ms1 m ms2, ms = ms1 ++ m :: ms2 → (Stream os json a ms1).1 = Outcome.ok () →
      (Stream.body os json (Stream os json a ms1).2 m).1 ≠ Outcome.ok () →
      Stream os json a ms = Stream.body os json (Stream os json a ms1).2 m) ∧
    (∀ (b b1 b3 : LogstashAdapter) (m : Message) (dockerInfo : DockerInfo)
        (fields : GoMap GoString),
      Stream.dockerInfo os b m = (Outcome.ok dockerInfo, b1) →
      GetLogstashFields os m.Container (GetContainerTags os m.Container b1).2
        = (Outcome.ok fields, b3) →
      (Getenv os (lit "BROKEN_JOURNALD") = [] ∨ Getenv os (lit "RETRY_SEND") ≠ [] ∨
        ∀ x ∈ b.conn, x = false) →
      (Stream.body os json b m).1 = Outcome.ok ()) := by
  have hsplit : ∀ ms1 ms2, ms = ms1 ++ ms2 →
      ∃ later, (Stream os json a ms).2.trace = (Stream os json a ms1).2.trace ++ later ∧
        ((Stream os json a ms1).1 = Outcome.ok () →
          later = (Stream.emitted os json (Stream os json a ms1).2 ms2).flatten) := by
    intro ms1 ms2 hms
    rw [hms, Stream_append]
    generalize Stream os json a ms1 = r
    obtain ⟨r, a1⟩ := r
    cases r with
    | ok u => exact ⟨_, Stream_trace_emitted os json a1 ms2, fun _ => rfl⟩
    | fatal => exact ⟨[], by simp, fun h => Outcome.noConfusion h⟩
    | panic => exact ⟨[], by simp, fun h => Outcome.noConfusion h⟩
  refine ⟨Stream_trace_emitted os json a ms, ?_, Stream_emitted_length os json a ms, ?_, rfl,
    Stream_returns_iff os json a ms, ?_, ?_⟩
  · rw [Stream_trace_emitted, sent_append, sent_flatten]
  · intro ms1 ms2 hms
    obtain ⟨later, h1, h2⟩ := hsplit ms1 ms2 hms
    refine ⟨?_, later, h1, h2⟩
    rw [Stream_trace_emitted os json a ms, Stream_trace_emitted os json a ms1,
      List.append_assoc] at h1
    exact ⟨later, (List.append_cancel_left h1).symm⟩
  · intro ms1 m ms2 hms hbefore hbody
    rw [hms]
    exact Stream_stops_at os json a ms1 ms2 m hbefore hbody
  · intro b b1 b3 m dockerInfo fields hinfo hfields hdeliver
    exact Stream_body_returns os json b b1 b3 m dockerInfo fields hinfo hfields hdeliver

theorem Stream_emission_order_witness :
    (Stream [(lit "BROKEN_JOURNALD", lit "1"), (lit "RETRY_SEND", lit "1")] exampleJson
        { exampleAdapter with conn := [true, false] }
        [exampleMessage, exampleSplitMessage]).1 = Outcome.ok () ∧
    sent (Stream [(lit "BROKEN_JOURNALD", lit "1"), (lit "RETRY_SEND", lit "1")] exampleJson
        { exampleAdapter with conn := [true, false] }
        [exampleMessage, exampleSplitMessage]).2.trace
      = [] ++ ((Stream.emitted [(lit "BROKEN_JOURNALD", lit "1"), (lit "RETRY_SEND", lit "1")]
          exampleJson { exampleAdapter with conn := [true, false] }
          [exampleMessage, exampleSplitMessage]).map sent).flatten ∧
    (Stream.emitted [(lit "BROKEN_JOURNALD", lit "1"), (lit "RETRY_SEND", lit "1")]
        exampleJson { exampleAdapter with conn := [true, false] }
        [exampleMessage, exampleSplitMessage]).map sent
      = [[lit "\x7b\x7d\n"], [lit "\x7b\x7d\n", lit "\x7b\x7d\n", lit "\x7b\x7d\n"]] :=
  ⟨(Stream_emission_order [(lit "BROKEN_JOURNALD", lit "1"), (lit "RETRY_SEND", lit "1")]
      exampleJson { exampleAdapter with conn := [true, false] }
      [exampleMessage, exampleSplitMessage]).2.2.2.2.2.1.2
      (forall_split_pair
        (fun ms1 m => (Stream.body
          [(lit "BROKEN_JOURNALD", lit "1"), (lit "RETRY_SEND", lit "1")] exampleJson
          (Stream [(lit "BROKEN_JOURNALD", lit "1"), (lit "RETRY_SEND", lit "1")] exampleJson
            { exampleAdapter with conn := [true, false] } ms1).2 m).1 = Outcome.ok ())
        exampleMessage exampleSplitMessage (by rfl) (by rfl)),
   (Stream_emission_order [(lit "BROKEN_JOURNALD", lit "1"), (lit "RETRY_SEND", lit "1")]
      exampleJson { exampleAdapter with conn := [true, false] }
      [exampleMessage, exampleSplitMessage]).2.1,
   by decide⟩

/-! ## Write-once caches -/

theorem writeOnce_refl {V : Type} (m : GoMap V) (i : GoString) : writeOnce m m i :=
  ⟨fun _ _ h => h, fun _ _ => rfl, fun _ => rfl, Or.inl rfl⟩

theorem writeOnce_set {V : Type} (m : GoMap V) (i : GoString) (v : V)
    (h : m.get i = none) : writeOnce m (m.set i v) i := by
  refine ⟨?_, ?_, ?_, ?_⟩
  · intro k w hk
    have hne : k ≠ i := by
      intro hki
      rw [hki, h] at hk
      exact Option.noConfusion hk
    rw [GoMap_get_set_ne _ _ _ _ hne]
    exact hk
  · intro k hne
    exact GoMap_get_set_ne _ _ _ _ hne
  · intro hne
    exact absurd h hne
  · exact Or.inr ⟨v, h, rawSet_of_not_mem i v m.entries ((rawGet_eq_none_iff i m.entries).1 h)⟩

/-- Claim C31.  A call of `GetContainerTags`, of `GetLogstashFields` or of
`IsDecodeJsonLogs` for a container with the ID `i` leaves the three caches
of the other operations and the cache of pod labels as they are, and
changes its own cache at most by one new entry for `i`: every entry that
was there keeps its value, no other key is added, and nothing is written
when `i` had an entry; the entry added is the value returned.  A call of
`GetLogstashFields` that panics writes nothing. -/
theorem caches_write_once (os : Environ) (c : Container) (a : LogstashAdapter) :
    (writeOnce a.containerTags (GetContainerTags os c a).2.containerTags c.ID ∧
      (a.containerTags.get c.ID = none →
        (GetContainerTags os c a).2.containerTags
          = a.containerTags.set c.ID (GetContainerTags os c a).1) ∧
      (GetContainerTags os c a).2.logstashFields = a.logstashFields ∧
      (GetContainerTags os c a).2.decodeJsonLogs = a.decodeJsonLogs ∧
      (GetContainerTags os c a).2.k8sLabels = a.k8sLabels) ∧
    (writeOnce a.logstashFields (GetLogstashFields os c a).2.logstashFields c.ID ∧
      (∀ fields, a.logstashFields.get c.ID = none →
        (GetLogstashFields os c a).1 = Outcome.ok fields →
        (GetLogstashFields os c a).2.logstashFields = a.logstashFields.set c.ID fields) ∧
      ((GetLogstashFields os c a).1 = Outcome.panic → (GetLogstashFields os c a).2 = a) ∧
      (GetLogstashFields os c a).2.containerTags = a.containerTags ∧
      (GetLogstashFields os c a).2.decodeJsonLogs = a.decodeJsonLogs ∧
      (GetLogstashFields os c a).2.k8sLabels = a.k8sLabels) ∧
    (writeOnce a.decodeJsonLogs (IsDecodeJsonLogs os c a).2.decodeJsonLogs c.ID ∧
      (a.decodeJsonLogs.get c.ID = none →
        (IsDecodeJsonLogs os c a).2.decodeJsonLogs
          = a.decodeJsonLogs.set c.ID (IsDecodeJsonLogs os c a).1) ∧
      (IsDecodeJsonLogs os c a).2.containerTags = a.containerTags ∧
      (IsDecodeJsonLogs os c a).2.logstashFields = a.logstashFields ∧
      (IsDecodeJsonLogs os c a).2.k8sLabels = a.k8sLabels) := by
  refine ⟨?_, ?_, ?_⟩
  · unfold GetContainerTags
    cases h : a.containerTags.get c.ID with
    | some tags =>
      exact ⟨writeOnce_refl _ _, fun h2 => Option.noConfusion h2, rfl, rfl, rfl⟩
    | none =>
      exact ⟨writeOnce_set _ _ _ h, fun _ => rfl, rfl, rfl, rfl⟩
  · unfold GetLogstashFields
    cases h : a.logstashFields.get c.ID with
    | some fields =>
      exact ⟨writeOnce_refl _ _, fun _ h2 => Option.noConfusion h2, fun _ => rfl, rfl, rfl, rfl⟩
    | none =>
      simp only
      cases GetLogstashFields.parse
        (GetLogstashFields.scan (Getenv os (lit "LOGSTASH_FIELDS")) c.Config.Env) with
      | none =>
        exact ⟨writeOnce_refl _ _, fun _ _ h2 => Outcome.noConfusion h2, fun _ => rfl,
          rfl, rfl, rfl⟩
      | some fields =>
        refine ⟨writeOnce_set _ _ _ h, ?_, fun h2 => Outcome.noConfusion h2, rfl, rfl, rfl⟩
        intro f _ h2
        simp only [Outcome.ok.injEq] at h2
        rw [← h2]
  · unfold IsDecodeJsonLogs
    cases h : a.decodeJsonLogs.get c.ID with
    | some flag =>
      exact ⟨writeOnce_refl _ _, fun h2 => Option.noConfusion h2, rfl, rfl, rfl⟩
    | none =>
      exact ⟨writeOnce_set _ _ _ h, fun _ => rfl, rfl, rfl, rfl⟩

theorem caches_write_once_witness :
    writeOnce exampleAdapter.containerTags
      (GetContainerTags [] exampleMessage.Container exampleAdapter).2.containerTags (lit "ID") ∧
    (GetContainerTags [] exampleMessage.Container exampleAdapter).2.containerTags.entries
      = [(lit "ID", [])] ∧
    (GetContainerTags [(lit "LOGSTASH_TAGS", lit "late")] exampleMessage.Container
      (GetContainerTags [] exampleMessage.Container exampleAdapter).2).2.containerTags.entries
      = [(lit "ID", [])] :=
  ⟨(caches_write_once [] exampleMessage.Container exampleAdapter).1.1, by decide, by decide⟩

/-! ## The order of the visit in `Merge` -/

theorem Merge_loop_append (xs ys : List (GoString × GoString)) (m : GoMap GoString) :
    Merge.loop (xs ++ ys) m = Merge.loop ys (Merge.loop xs m) := by
  induction xs generalizing m with
  | nil => rfl
  | cons e rest ih =>
    obtain ⟨i, w⟩ := e
    simp only [List.cons_append, Merge.loop]
    cases m.get i with
    | none => exact ih _
    | some d => exact ih _

theorem Merge_loop_absent (visit : List (GoString × GoString)) (m : GoMap GoString)
    (x : GoString) (hnd : (visit.map Prod.fst).Nodup)
    (hna : ∀ j ∈ visit.map Prod.fst, m.get j ≠ none → lit "pod_" ++ j ∉ visit.map Prod.fst)
    (hx : m.get x = none) (hmem : x ∉ visit.map Prod.fst)
    (hfree : ∀ j ∈ visit.map Prod.fst, lit "pod_" ++ j = x → m.get j = none) :
    (Merge.loop visit m).get x = none := by
  induction visit generalizing m with
  | nil => exact hx
  | cons e rest ih =>
    obtain ⟨i, w⟩ := e
    have hstep := Merge_loop_noAlias_step i w rest m hnd hna
    have hnd2 := hnd
    simp only [List.map_cons, List.nodup_cons] at hnd2
    simp only [List.map_cons, List.mem_cons, not_or] at hmem
    simp only [Merge.loop]
    cases hi : m.get i with
    | none =>
      rw [hi] at hstep
      apply ih _ hnd2.2 hstep
      · rw [GoMap_get_set_ne _ _ _ _ hmem.1]
        exact hx
      · exact hmem.2
      · intro j hj hjk
        have hji : j ≠ i := fun h => hnd2.1 (h ▸ hj)
        rw [GoMap_get_set_ne _ _ _ _ hji]
        exact hfree j (List.mem_cons_of_mem _ hj) hjk
    | some d =>
      rw [hi] at hstep
      have hne : x ≠ lit "pod_" ++ i := by
        intro h
        have := hfree i (by simp) h.symm
        rw [hi] at this
        exact Option.noConfusion this
      apply ih _ hnd2.2 hstep
      · rw [GoMap_get_set_ne _ _ _ _ hne]
        exact hx
      · exact hmem.2
      · intro j hj hjk
        have hji : j ≠ lit "pod_" ++ i := by
          intro h
          have := hna i (by simp) (by rw [hi]; simp)
          exact this (h ▸ List.mem_cons_of_mem _ hj)
        rw [GoMap_get_set_ne _ _ _ _ hji]
        exact hfree j (List.mem_cons_of_mem _ hj) hjk

theorem Merge_loop_perm_get (src dst : GoMap GoString) (visit : List (GoString × GoString))
    (hperm : visit.Perm src.entries) (hna : Merge.noAlias src dst) (x : GoString) :
    (Merge.loop visit dst).get x = (Merge.loop src.entries dst).get x := by
  have hnd := Merge_visit_nodup src visit hperm
  have hna1 := Merge_visit_noAlias src dst visit hperm hna
  have hna2 := Merge_visit_noAlias src dst src.entries (List.Perm.refl _) hna
  have hkeys : ∀ y, y ∈ visit.map Prod.fst ↔ y ∈ src.entries.map Prod.fst :=
    fun y => (hperm.map Prod.fst).mem_iff
  by_cases ha : ∃ k v, (k, v) ∈ src.entries ∧ dst.get k ≠ none ∧ x = lit "pod_" ++ k
  · obtain ⟨k, v, hmem, hd, hx⟩ := ha
    rw [hx, Merge_loop_collision visit dst k v hnd (hperm.mem_iff.2 hmem) hd,
      Merge_loop_collision src.entries dst k v src.nodup hmem hd]
  · have hfree : ∀ j ∈ src.entries.map Prod.fst, lit "pod_" ++ j = x → dst.get j = none := by
      intro j hj hjx
      by_contra hc
      obtain ⟨e, he, hej⟩ := List.mem_map.1 hj
      exact ha ⟨j, e.2, by rw [← hej]; exact he, hc, hjx.symm⟩
    by_cases hb : ∃ v, (x, v) ∈ src.entries ∧ dst.get x = none
    · obtain ⟨v, hmem, hd⟩ := hb
      rw [Merge_loop_fresh visit dst x v hnd hna1 (hperm.mem_iff.2 hmem) hd,
        Merge_loop_fresh src.entries dst x v src.nodup hna2 hmem hd]
    · cases hd : dst.get x with
      | some d =>
        rw [Merge_loop_keep visit dst x d hnd hna1 hd
            (fun j hj => hfree j ((hkeys j).1 hj)),
          Merge_loop_keep src.entries dst x d src.nodup hna2 hd hfree]
      | none =>
        have hmem : x ∉ src.entries.map Prod.fst := by
          intro h
          obtain ⟨e, he, hex⟩ := List.mem_map.1 h
          exact hb ⟨e.2, by rw [← hex]; exact he, hd⟩
        rw [Merge_loop_absent visit dst x hnd hna1 hd (fun h => hmem ((hkeys x).1 h))
            (fun j hj => hfree j ((hkeys j).1 hj)),
          Merge_loop_absent src.entries dst x src.nodup hna2 hd hmem hfree]

theorem Merge_loop_all_fresh (es : List (GoString × GoString)) (m : GoMap GoString)
    (hnd : (es.map Prod.fst).Nodup) (h : ∀ e ∈ es, m.get e.1 = none) :
    Merge.loop es m = es.foldl (fun m e => m.set e.1 e.2) m := by
  induction es generalizing m with
  | nil => rfl
  | cons e rest ih =>
    obtain ⟨i, w⟩ := e
    simp only [List.map_cons, List.nodup_cons] at hnd
    have hi : m.get i = none := h (i, w) (List.mem_cons_self _ _)
    simp only [Merge.loop, hi, List.foldl_cons]
    apply ih _ hnd.2
    intro e he
    have hne : e.1 ≠ i := fun hei => hnd.1 (hei ▸ List.mem_map_of_mem Prod.fst he)
    rw [GoMap_get_set_ne _ _ _ _ hne]
    exact h e (List.mem_cons_of_mem _ he)

theorem Merge_loop_all_colliding (es : List (GoString × GoString)) (m : GoMap GoString)
    (h : ∀ e ∈ es, m.get e.1 ≠ none) :
    Merge.loop es m = es.foldl (fun m e => m.set (lit "pod_" ++ e.1) e.2) m := by
  induction es generalizing m with
  | nil => rfl
  | cons e rest ih =>
    obtain ⟨i, w⟩ := e
    have hi : m.get i ≠ none := h (i, w) (List.mem_cons_self _ _)
    simp only [Merge.loop, List.foldl_cons]
    cases hg : m.get i with
    | none => exact absurd hg hi
    | some d =>
      simp only
      apply ih
      intro e he
      rw [GoMap_get_set]
      split
      · simp
      · exact h e (List.mem_cons_of_mem _ he)

theorem Merge_extended_eq_loop (src dst : GoMap GoString) :
    Merge.extended src dst =
      Merge.loop (src.entries.filter (fun e => (dst.get e.1).isNone)
        ++ src.entries.filter (fun e => !(dst.get e.1).isNone)) dst := by
  have hnd : ((src.entries.filter (fun e => (dst.get e.1).isNone)).map Prod.fst).Nodup :=
    List.Nodup.sublist ((List.filter_sublist _).map Prod.fst) src.nodup
  have hfresh : ∀ e ∈ src.entries.filter (fun e => (dst.get e.1).isNone),
      dst.get e.1 = none := by
    intro e he
    have := (List.mem_filter.1 he).2
    simpa using this
  rw [Merge_loop_append, Merge_loop_all_fresh _ dst hnd hfresh, Merge_loop_all_colliding]
  · rfl
  · intro e he
    have hd : dst.get e.1 ≠ none := by
      have hf := (List.mem_filter.1 he).2
      intro hn
      rw [hn] at hf
      simp at hf
    rw [← Merge_loop_all_fresh _ dst hnd hfresh]
    exact Merge_loop_mono _ dst e.1 hd

/-- Claim C32.  For every `src` and `dst` such that no key present in both
has `"pod_" + key` as a key of `src`: in whatever order `visit` the
entries of `src` are visited, the result of the loop of `Merge` has under
every key the value that the result of `Merge` has (two Go maps are the
same when they agree on every key), and that is the value of `dst`
extended with `src[k]` under `k` for the keys `k` of `src` not in `dst`
and then with `src[k]` under `"pod_" + k` for the keys `k` of `src` in
`dst`: `src[k]` under a key `k` of `src` not in `dst`, `src[k]` under
`"pod_" + k` for a key `k` of both, the value of `dst` under every other
key.  With or without the precondition, for every list of entries
visited, every key of the original `dst` is a key of the result. -/
theorem Merge_order_independent (src dst : GoMap GoString) :
    (Merge.noAlias src dst →
      (∀ visit : List (GoString × GoString), visit.Perm src.entries →
        ∀ x, (Merge.loop visit dst).get x = (Merge (some src) dst).get x) ∧
      (∀ x, (Merge (some src) dst).get x = (Merge.extended src dst).get x) ∧
      (∀ k v, src.get k = some v → dst.get k = none →
        (Merge (some src) dst).get k = some v) ∧
      (∀ k v, src.get k = some v → dst.get k ≠ none →
        (Merge (some src) dst).get (lit "pod_" ++ k) = some v) ∧
      (∀ x, (src.get x = none ∨ dst.get x ≠ none) →
        (∀ k, src.get k ≠ none → dst.get k ≠ none → x ≠ lit "pod_" ++ k) →
        (Merge (some src) dst).get x = dst.get x)) ∧
    (∀ (visit : List (GoString × GoString)) (x : GoString), dst.get x ≠ none →
      (Merge.loop visit dst).get x ≠ none) ∧
    (∀ x ∈ dst.keys, x ∈ (Merge (some src) dst).keys) := by
  refine ⟨?_, ?_, ?_⟩
  · intro hna
    have hna2 := Merge_visit_noAlias src dst src.entries (List.Perm.refl _) hna
    have hmemkeys : ∀ k, k ∈ src.entries.map Prod.fst ↔ src.get k ≠ none :=
      fun k => GoMap_mem_keys_iff src k
    refine ⟨?_, ?_, ?_, ?_, ?_⟩
    · intro visit hperm x
      exact Merge_loop_perm_get src dst visit hperm hna x
    · intro x
      rw [Merge_extended_eq_loop]
      refine (Merge_loop_perm_get src dst _ ?_ hna x).symm
      exact List.filter_append_perm _ _
    · intro k v hk hd
      exact Merge_loop_fresh src.entries dst k v src.nodup hna2
        ((rawGet_eq_some_iff_mem k v src.entries src.nodup).1 hk) hd
    · intro k v hk hd
      exact Merge_loop_collision src.entries dst k v src.nodup
        ((rawGet_eq_some_iff_mem k v src.entries src.nodup).1 hk) hd
    · intro x hx hpod
      have hfree : ∀ j ∈ src.entries.map Prod.fst, lit "pod_" ++ j = x → dst.get j = none := by
        intro j hj hjx
        by_contra hc
        exact hpod j ((hmemkeys j).1 hj) hc hjx.symm
      cases hd : dst.get x with
      | some d => exact Merge_loop_keep src.entries dst x d src.nodup hna2 hd hfree
      | none =>
        have hsx : src.get x = none := by
          rcases hx with h | h
          · exact h
          · exact absurd hd h
        have hmem : x ∉ src.entries.map Prod.fst := by
          rw [hmemkeys]
          simp [hsx]
        exact Merge_loop_absent src.entries dst x src.nodup hna2 hd hmem hfree
  · intro visit x hx
    exact Merge_loop_mono visit dst x hx
  · intro x hx
    rw [GoMap_mem_keys_iff] at hx ⊢
    exact Merge_loop_mono src.entries dst x hx

theorem Merge_order_independent_witness :
    Merge.noAlias exampleMergeSrc exampleMergeDst ∧
    (Merge.loop exampleMergeSrc.entries.reverse exampleMergeDst).get (lit "pod_release")
      = (Merge (some exampleMergeSrc) exampleMergeDst).get (lit "pod_release") ∧
    (Merge (some exampleMergeSrc) exampleMergeDst).get (lit "pod_release")
      = (Merge.extended exampleMergeSrc exampleMergeDst).get (lit "pod_release") ∧
    (Merge.extended exampleMergeSrc exampleMergeDst).entries
      = [(lit "original", lit "original"), (lit "release", lit "12345"),
         (lit "app", lit "myapp"), (lit "pod_release", lit "bibbling-trouser")] :=
  ⟨by unfold Merge.noAlias; decide,
   ((Merge_order_independent exampleMergeSrc exampleMergeDst).1
      (by unfold Merge.noAlias; decide)).1 exampleMergeSrc.entries.reverse
      (List.reverse_perm _) (lit "pod_release"),
   ((Merge_order_independent exampleMergeSrc exampleMergeDst).1
      (by unfold Merge.noAlias; decide)).2.1 (lit "pod_release"),
   by decide⟩

/-! ## The keys of the leader's labels -/

theorem dot_not_mem_pod_key (i : GoString) (h : dot ∉ i) : dot ∉ lit "pod_" ++ i := by
  intro hmem
  rcases List.mem_append.1 hmem with h1 | h1
  · revert h1
    decide
  · exact h h1

theorem pod_key_ne_of_unprefixed (x i : GoString) (h : HasPrefix x (lit "pod_") = false) :
    lit "pod_" ++ i ≠ x := by
  intro hx
  rw [← hx, HasPrefix_append] at h
  exact Bool.noConfusion h

theorem Merge_loop_dotted_get (visit : List (GoString × GoString)) (m : GoMap GoString)
    (y : GoString) (hdot : dot ∈ y) (hnd : (visit.map Prod.fst).Nodup)
    (hfree : ∀ x ∈ visit.map Prod.fst, dot ∈ x → m.get x = none) :
    (Merge.loop visit m).get y =
      (match rawGet y visit with
       | some v => some v
       | none => m.get y) := by
  induction visit generalizing m with
  | nil => rfl
  | cons e rest ih =>
    obtain ⟨i, w⟩ := e
    simp only [List.map_cons, List.nodup_cons] at hnd
    have hnext : ∀ (m2 : GoMap GoString), (∀ z, dot ∈ z → z ≠ i → m2.get z = m.get z) →
        ∀ x ∈ rest.map Prod.fst, dot ∈ x → m2.get x = none := by
      intro m2 h2 x hx hd
      have hxi : x ≠ i := fun h => hnd.1 (h ▸ hx)
      rw [h2 x hd hxi]
      exact hfree x (List.mem_cons_of_mem _ hx) hd
    simp only [Merge.loop]
    cases hi : m.get i with
    | none =>
      simp only
      rw [ih (m.set i w) hnd.2
        (hnext _ (fun z _ hz => GoMap_get_set_ne _ _ _ _ hz))]
      by_cases hiy : i = y
      · subst hiy
        have hr : rawGet i rest = none := (rawGet_eq_none_iff i rest).2 hnd.1
        simp only [rawGet, if_true, hr, GoMap_get_set_self]
      · have hyi : y ≠ i := fun h => hiy h.symm
        simp only [rawGet, hiy, if_false, GoMap_get_set_ne _ _ _ _ hyi]
    | some d =>
      simp only
      have hino : dot ∉ i := by
        intro hd
        have := hfree i (by simp) hd
        rw [hi] at this
        exact Option.noConfusion this
      have hpod : ∀ z, dot ∈ z → z ≠ lit "pod_" ++ i := by
        intro z hz h
        exact dot_not_mem_pod_key i hino (h ▸ hz)
      rw [ih (m.set (lit "pod_" ++ i) w) hnd.2
        (hnext _ (fun z hz _ => GoMap_get_set_ne _ _ _ _ (hpod z hz)))]
      have hiy : ¬ i = y := fun h => hino (h ▸ hdot)
      simp only [rawGet, hiy, if_false, GoMap_get_set_ne _ _ _ _ (hpod y hdot)]

theorem Stream_labels_no_dot (es : List (GoString × GoString)) (y : GoString)
    (hdot : dot ∈ y) : (Stream.labels GoMap.empty es).get y = none := by
  by_contra hc
  have hmem := (GoMap_mem_keys_iff _ y).2 hc
  rw [Stream_labels_mem_keys] at hmem
  rcases hmem with h | ⟨e, _, he⟩
  · simp [GoMap.keys, GoMap.empty] at h
  · rw [he] at hdot
    exact Replace_no_old e.1 dot underscore (by decide) hdot

theorem GetDockerLabels_keys_no_dot (a : LogstashAdapter) (src : GoMap GoString)
    (h : (GetDockerLabels a).1 = some src) : ∀ x ∈ src.entries.map Prod.fst, dot ∉ x := by
  rw [GetDockerLabels_labels] at h
  cases hi : a.client.Info with
  | error err =>
    rw [hi] at h
    exact Option.noConfusion h
  | ok info =>
    rw [hi] at h
    simp only [Option.some.injEq] at h
    subst h
    intro x hx
    have he : (hostLevelLabels info).entries.map Prod.fst
        = [lit "host", lit "docker_version"] := rfl
    rw [he] at hx
    simp only [List.mem_cons, List.mem_singleton, List.not_mem_nil, or_false] at hx
    rcases hx with h1 | h1
    · rw [h1]
      decide
    · rw [h1]
      decide

theorem Merge_dotted_outer (src : Option (GoMap GoString)) (inner : GoMap GoString)
    (y : GoString) (hdot : dot ∈ y)
    (hsrc : ∀ s, src = some s → ∀ x ∈ s.entries.map Prod.fst, dot ∉ x) :
    (Merge src inner).get y = inner.get y := by
  cases src with
  | none => rfl
  | some s =>
    have hno := hsrc s rfl
    have hr : rawGet y s.entries = none :=
      (rawGet_eq_none_iff y s.entries).2 (fun h => hno y h hdot)
    show (Merge.loop s.entries inner).get y = inner.get y
    rw [Merge_loop_dotted_get s.entries inner y hdot s.nodup
      (fun x hx hd => absurd hd (hno x hx)), hr]

theorem Merge_stable_unprefixed (src : Option (GoMap GoString)) (inner : GoMap GoString)
    (x v : GoString) (hx : inner.get x = some v) (hp : HasPrefix x (lit "pod_") = false) :
    (Merge src inner).get x = some v := by
  cases src with
  | none => exact hx
  | some s =>
    exact Merge_loop_stable s.entries inner x v hx
      (fun i _ => pod_key_ne_of_unprefixed x i hp)

theorem Merge_mono (src : Option (GoMap GoString)) (inner : GoMap GoString)
    (x : GoString) (hx : inner.get x ≠ none) : (Merge src inner).get x ≠ none := by
  cases src with
  | none => exact hx
  | some s => exact Merge_loop_mono s.entries inner x hx

/-- Claim C33.  In `Stream` with `DOCKER_LABELS` set, for a container with
the pod uid label and no cached pod labels whose inventory has a first pod
leader: a label of the leader whose key `k` contains `.` and has neither
kubernetes prefix is never a key of the container's normalised labels and
is in the labels of the docker info under `k` itself, with its value.
When the container has a label with the same key `k`, the leader's label
is under `k` and the container's label is still there under the
normalised key; it has the container's value when the normalised key does
not start with `pod_` and no other label of the container is normalised
to it; and there is nothing under `"pod_" + k` unless the leader has a
label with that very key. -/
theorem Stream_leader_labels_raw_keys (os : Environ) (a : LogstashAdapter) (m : Message)
    (pre post : List APIContainers) (leader : APIContainers)
    (hlabels : Getenv os (lit "DOCKER_LABELS") ≠ [])
    (hmiss : a.k8sLabels.get m.Container.ID = none)
    (huid : m.Container.Config.Labels.get K8S_POD_UID_LABEL ≠ none)
    (hlist : a.client.ListContainers
      (K8S_POD_UID_LABEL ++ lit "=" ++ m.Container.Config.Labels.index K8S_POD_UID_LABEL)
        = .ok (pre ++ leader :: post))
    (hpre : ∀ x ∈ pre, GetPodLabels.isLeader m.Container x = false)
    (hleader : GetPodLabels.isLeader m.Container leader = true) :
    ∃ labels, Stream.dockerLabels os a m = some labels ∧
      (∀ k v, leader.Labels.get k = some v → dot ∈ k →
        HasPrefix k K8S_IO_PREFIX = false → HasPrefix k K8S_ANNOTATION_PREFIX = false →
        (Stream.labels GoMap.empty m.Container.Config.Labels.entries).get k = none ∧
        labels.get k = some v) ∧
      (∀ k v w, leader.Labels.get k = some v → m.Container.Config.Labels.get k = some w →
        dot ∈ k → HasPrefix k K8S_IO_PREFIX = false →
        HasPrefix k K8S_ANNOTATION_PREFIX = false →
        labels.get k = some v ∧
        labels.get (Replace k dot underscore) ≠ none ∧
        (HasPrefix (Replace k dot underscore) (lit "pod_") = false →
          (∀ l ∈ m.Container.Config.Labels.keys,
            Replace l dot underscore = Replace k dot underscore → l = k) →
          labels.get (Replace k dot underscore) = some w) ∧
        (leader.Labels.get (lit "pod_" ++ k) = none →
          labels.get (lit "pod_" ++ k) = none)) := by
  have hres := (GetPodLabels_leader_cached m.Container
    (Stream.labels GoMap.empty m.Container.Config.Labels.entries) a pre post leader hmiss huid
    hlist hpre hleader).1
  generalize hown : Stream.labels GoMap.empty m.Container.Config.Labels.entries = own at *
  have hownnodot : ∀ y, dot ∈ y → own.get y = none := by
    intro y hy
    rw [← hown]
    exact Stream_labels_no_dot _ y hy
  have hdotted : ∀ y, dot ∈ y →
      (Merge (GetDockerLabels a).1
        (Merge (some (SelectContainerLabels leader.Labels)) own)).get y
        = (SelectContainerLabels leader.Labels).get y := by
    intro y hy
    rw [Merge_dotted_outer _ _ y hy (GetDockerLabels_keys_no_dot a)]
    show (Merge.loop (SelectContainerLabels leader.Labels).entries own).get y = _
    rw [Merge_loop_dotted_get _ own y hy (SelectContainerLabels leader.Labels).nodup
      (fun x _ hd => hownnodot x hd), hownnodot y hy]
    unfold GoMap.get
    cases rawGet y (SelectContainerLabels leader.Labels).entries <;> rfl
  have hfirst : ∀ k v, leader.Labels.get k = some v → dot ∈ k →
      HasPrefix k K8S_IO_PREFIX = false → HasPrefix k K8S_ANNOTATION_PREFIX = false →
      (Merge (GetDockerLabels a).1
        (Merge (some (SelectContainerLabels leader.Labels)) own)).get k = some v := by
    intro k v hk hd h1 h2
    rw [hdotted k hd, SelectContainerLabels_get]
    simp [h1, h2, hk]
  refine ⟨_, Stream_dockerLabels_of_GetPodLabels os a m _ hlabels (by rw [hown]; exact hres),
    ?_, ?_⟩
  · intro k v hk hd h1 h2
    exact ⟨hownnodot k hd, hfirst k v hk hd h1 h2⟩
  · intro k v w hk hw hd h1 h2
    have hmem := (rawGet_eq_some_iff_mem k w _ m.Container.Config.Labels.nodup).1 hw
    have hkey : Replace k dot underscore ∈ own.keys := by
      rw [← hown, Stream_labels_mem_keys]
      exact Or.inr ⟨(k, w), hmem, rfl⟩
    refine ⟨hfirst k v hk hd h1 h2, ?_, ?_, ?_⟩
    · exact Merge_mono _ _ _ (Merge_mono _ _ _ ((GoMap_mem_keys_iff _ _).1 hkey))
    · intro hp hinj
      have hval : own.get (Replace k dot underscore) = some w := by
        rw [← hown]
        apply Stream_labels_value _ _ k w m.Container.Config.Labels.nodup hmem
        intro e he hr
        exact hinj e.1 (List.mem_map_of_mem Prod.fst he) hr
      exact Merge_stable_unprefixed _ _ _ _ (Merge_stable_unprefixed _ _ _ _ hval hp) hp
    · intro hnone
      have hpd : dot ∈ lit "pod_" ++ k := List.mem_append_right _ hd
      rw [hdotted _ hpd, SelectContainerLabels_get]
      simp [hnone]

theorem Stream_leader_labels_raw_keys_witness :
    ∃ labels, Stream.dockerLabels [(lit "DOCKER_LABELS", lit "1")] exampleDottedAdapter
        (examplePodMessage exampleDottedOwnLabels) = some labels ∧
      labels.get (lit "a.b") = some (lit "leader") ∧
      labels.get (lit "a_b") = some (lit "own") ∧
      labels.get (lit "pod_a.b") = none ∧
      (Stream.dockerLabels [(lit "DOCKER_LABELS", lit "1")] exampleDottedAdapter
        (examplePodMessage exampleDottedOwnLabels)).map GoMap.keys
        = some [lit "io_kubernetes_pod_uid", lit "a_b", lit "a.b", lit "host",
            lit "docker_version"] := by
  obtain ⟨labels, h0, _, h2⟩ :=
    Stream_leader_labels_raw_keys [(lit "DOCKER_LABELS", lit "1")] exampleDottedAdapter
      (examplePodMessage exampleDottedOwnLabels) [] []
      { ID := lit "deadbeef", Labels := exampleDottedLeaderLabels }
      (by decide) rfl (by decide) rfl (by decide) (by decide)
  have h3 := h2 (lit "a.b") (lit "leader") (lit "own") (by decide) (by decide) (by decide)
    (by decide) (by decide)
  exact ⟨labels, h0, h3.1, h3.2.2.1 (by decide) (by decide), h3.2.2.2 (by decide),
    by decide⟩

/-! ## The leader condition -/

theorem GoMap_index_eq_nonempty (m : GoMap GoString) (k v : GoString)
    (h : m.index k = v) (hv : v ≠ []) : m.get k = some v := by
  unfold GoMap.index at h
  cases hg : m.get k with
  | none =>
    rw [hg] at h
    exact absurd h.symm hv
  | some w =>
    rw [hg] at h
    simp only [Option.getD_some] at h
    rw [h]

theorem GetPodLabels_leader_cons (c : Container) (ctr : APIContainers)
    (rest : List APIContainers) :
    GetPodLabels.leader c (ctr :: rest) =
      if GetPodLabels.isLeader c ctr = true then some ctr else GetPodLabels.leader c rest := by
  by_cases hc : ctr.Labels.index K8S_POD_UID_LABEL = c.Config.Labels.index K8S_POD_UID_LABEL
      ∧ ctr.Labels.index K8S_POD_TYPE_LABEL = K8S_POD_PARENT_TYPE
  · simp [GetPodLabels.leader, GetPodLabels.isLeader, hc]
  · simp only [GetPodLabels.leader, GetPodLabels.isLeader, if_neg hc, decide_eq_true_eq]

theorem GetPodLabels_leader_some (c : Container) (containers : List APIContainers)
    (ctr : APIContainers) (h : GetPodLabels.leader c containers = some ctr) :
    ∃ pre post, containers = pre ++ ctr :: post ∧
      (∀ x ∈ pre, GetPodLabels.isLeader c x = false) ∧
      GetPodLabels.isLeader c ctr = true := by
  induction containers with
  | nil => exact Option.noConfusion h
  | cons y rest ih =>
    rw [GetPodLabels_leader_cons] at h
    by_cases hy : GetPodLabels.isLeader c y = true
    · rw [if_pos hy] at h
      simp only [Option.some.injEq] at h
      subst h
      exact ⟨[], rest, rfl, by simp, hy⟩
    · rw [if_neg hy] at h
      obtain ⟨pre, post, he, hpre, hl⟩ := ih h
      refine ⟨y :: pre, post, by rw [he]; rfl, ?_, hl⟩
      intro z hz
      rcases List.mem_cons.1 hz with h1 | h1
      · rw [h1]
        simpa using hy
      · exact hpre z h1

theorem GetPodLabels_leader_none (c : Container) (containers : List APIContainers)
    (h : GetPodLabels.leader c containers = none) :
    ∀ x ∈ containers, GetPodLabels.isLeader c x = false := by
  induction containers with
  | nil => simp
  | cons y rest ih =>
    rw [GetPodLabels_leader_cons] at h
    by_cases hy : GetPodLabels.isLeader c y = true
    · rw [if_pos hy] at h
      exact Option.noConfusion h
    · rw [if_neg hy] at h
      intro x hx
      rcases List.mem_cons.1 hx with h1 | h1
      · rw [h1]
        simpa using hy
      · exact ih h x h1

theorem GetPodLabels_leader_remove (c : Container) (pre post : List APIContainers)
    (x : APIContainers) (hx : GetPodLabels.isLeader c x = false) :
    GetPodLabels.leader c (pre ++ x :: post) = GetPodLabels.leader c (pre ++ post) := by
  induction pre with
  | nil =>
    rw [List.nil_append, List.nil_append, GetPodLabels_leader_cons, hx]
    simp
  | cons y pre ih =>
    rw [List.cons_append, List.cons_append, GetPodLabels_leader_cons, GetPodLabels_leader_cons,
      ih]

theorem GetPodLabels_loop_eq_leader (c : Container) (current_labels : GoMap GoString)
    (a : LogstashAdapter) (containers : List APIContainers) :
    GetPodLabels.loop c current_labels a containers =
      (match GetPodLabels.leader c containers with
       | none => none
       | some ctr => GetPodLabels.loop c current_labels a [ctr]) := by
  cases hl : GetPodLabels.leader c containers with
  | none => exact GetPodLabels_loop_none _ _ _ _ (GetPodLabels_leader_none c containers hl)
  | some ctr =>
    obtain ⟨pre, post, he, hpre, hlead⟩ := GetPodLabels_leader_some c containers ctr hl
    rw [he]
    exact GetPodLabels_loop_first _ _ _ pre post ctr hpre hlead

/-- Claim C34.  On a cache miss, for a container with the pod uid label and
whatever list `containers` the inventory returns for the filter: the
labels returned are built from an element of the list only if that element
is the first one whose `io.kubernetes.pod.uid` label has the value of the
container's own pod uid label and whose `io.kubernetes.docker.type` label
is `podsandbox` (a label is read as Go reads a map: the empty string when
it is absent; the type label of the element is then present, and so is its
pod uid label when the container's value is not empty); without such an
element the caller's labels are returned and nothing is cached.  An
element of type `podsandbox` with another pod uid, or with the same pod
uid and the type `container`, is never the one used, and the result with
it in the list is the result without it. -/
theorem GetPodLabels_leader_condition (c : Container) (current_labels : GoMap GoString)
    (a : LogstashAdapter) (containers : List APIContainers)
    (hmiss : a.k8sLabels.get c.ID = none)
    (huid : c.Config.Labels.get K8S_POD_UID_LABEL ≠ none)
    (hlist : a.client.ListContainers
      (K8S_POD_UID_LABEL ++ lit "=" ++ c.Config.Labels.index K8S_POD_UID_LABEL)
        = .ok containers) :
    (GetPodLabels c current_labels a).1 =
      (match GetPodLabels.leader c containers with
       | none => Except.ok current_labels
       | some ctr => Except.ok (Merge (GetDockerLabels a).1
          (Merge (some (SelectContainerLabels ctr.Labels)) current_labels))) ∧
    (GetPodLabels.leader c containers = none →
      (GetPodLabels c current_labels a).2.k8sLabels = a.k8sLabels) ∧
    (∀ ctr, GetPodLabels.leader c containers = some ctr →
      ctr ∈ containers ∧
      ctr.Labels.index (lit "io.kubernetes.pod.uid")
        = c.Config.Labels.index (lit "io.kubernetes.pod.uid") ∧
      ctr.Labels.index (lit "io.kubernetes.docker.type") = lit "podsandbox" ∧
      ctr.Labels.get (lit "io.kubernetes.docker.type") = some (lit "podsandbox") ∧
      (c.Config.Labels.index (lit "io.kubernetes.pod.uid") ≠ [] →
        ctr.Labels.get (lit "io.kubernetes.pod.uid")
          = c.Config.Labels.get (lit "io.kubernetes.pod.uid"))) ∧
    (∀ x, x.Labels.index (lit "io.kubernetes.docker.type") = lit "podsandbox" →
      x.Labels.index (lit "io.kubernetes.pod.uid")
        ≠ c.Config.Labels.index (lit "io.kubernetes.pod.uid") →
      GetPodLabels.leader c containers ≠ some x) ∧
    (∀ x, x.Labels.index (lit "io.kubernetes.pod.uid")
        = c.Config.Labels.index (lit "io.kubernetes.pod.uid") →
      x.Labels.index (lit "io.kubernetes.docker.type") = lit "container" →
      GetPodLabels.leader c containers ≠ some x) ∧
    (∀ pre post x, containers = pre ++ x :: post →
      ¬ (x.Labels.index (lit "io.kubernetes.pod.uid")
          = c.Config.Labels.index (lit "io.kubernetes.pod.uid") ∧
        x.Labels.index (lit "io.kubernetes.docker.type") = lit "podsandbox") →
      GetPodLabels.leader c containers = GetPodLabels.leader c (pre ++ post) ∧
      GetPodLabels.loop c current_labels a containers
        = GetPodLabels.loop c current_labels a (pre ++ post)) := by
  have hcond : ∀ ctr, GetPodLabels.leader c containers = some ctr →
      ctr ∈ containers ∧
      ctr.Labels.index (lit "io.kubernetes.pod.uid")
        = c.Config.Labels.index (lit "io.kubernetes.pod.uid") ∧
      ctr.Labels.index (lit "io.kubernetes.docker.type") = lit "podsandbox" := by
    intro ctr hl
    obtain ⟨pre, post, he, _, hlead⟩ := GetPodLabels_leader_some c containers ctr hl
    have hc : ctr.Labels.index K8S_POD_UID_LABEL = c.Config.Labels.index K8S_POD_UID_LABEL
        ∧ ctr.Labels.index K8S_POD_TYPE_LABEL = K8S_POD_PARENT_TYPE := by
      simpa [GetPodLabels.isLeader] using hlead
    exact ⟨by rw [he]; simp, hc.1, hc.2⟩
  refine ⟨?_, ?_, ?_, ?_, ?_, ?_⟩
  · cases hl : GetPodLabels.leader c containers with
    | none =>
      rw [GetPodLabels_of_list c current_labels a _ hmiss huid hlist,
        GetPodLabels_loop_none _ _ _ _ (GetPodLabels_leader_none c containers hl)]
    | some ctr =>
      obtain ⟨pre, post, he, hpre, hlead⟩ := GetPodLabels_leader_some c containers ctr hl
      rw [he] at hlist
      exact (GetPodLabels_leader_cached c current_labels a pre post ctr hmiss huid hlist hpre
        hlead).1
  · intro hl
    rw [GetPodLabels_of_list c current_labels a _ hmiss huid hlist,
      GetPodLabels_loop_none _ _ _ _ (GetPodLabels_leader_none c containers hl)]
  · intro ctr hl
    obtain ⟨hmem, h1, h2⟩ := hcond ctr hl
    refine ⟨hmem, h1, h2, GoMap_index_eq_nonempty _ _ _ h2 (by decide), ?_⟩
    intro hne
    rw [GoMap_index_eq_nonempty _ _ _ h1 hne, GoMap_index_eq_nonempty _ _ _ rfl hne]
  · intro x _ hx hl
    exact hx (hcond x hl).2.1
  · intro x _ hx hl
    have := (hcond x hl).2.2
    rw [hx] at this
    revert this
    decide
  · intro pre post x he hx
    have hx2 : GetPodLabels.isLeader c x = false := by
      simpa [GetPodLabels.isLeader] using hx
    have hrem : GetPodLabels.leader c containers = GetPodLabels.leader c (pre ++ post) := by
      rw [he]
      exact GetPodLabels_leader_remove c pre post x hx2
    refine ⟨hrem, ?_⟩
    rw [GetPodLabels_loop_eq_leader c current_labels a containers,
      GetPodLabels_loop_eq_leader c current_labels a (pre ++ post), hrem]

theorem GetPodLabels_leader_condition_witness :
    GetPodLabels.leader (examplePodContainer exampleOwnLabels)
        [{ ID := lit "deadbeef", Labels := exampleOtherLabels },
         { ID := lit "deadbeef", Labels := examplePodLabels }]
      ≠ some { ID := lit "deadbeef", Labels := exampleOtherLabels } ∧
    (GetPodLabels.leader (examplePodContainer exampleOwnLabels)
        [{ ID := lit "deadbeef", Labels := exampleOtherLabels },
         { ID := lit "deadbeef", Labels := examplePodLabels }]).map (fun x => x.Labels.entries)
      = some examplePodLabels.entries :=
  ⟨(GetPodLabels_leader_condition (examplePodContainer exampleOwnLabels) exampleMergeDst
      examplePodAdapter
      [{ ID := lit "deadbeef", Labels := exampleOtherLabels },
       { ID := lit "deadbeef", Labels := examplePodLabels }]
      rfl (by decide) rfl).2.2.2.2.1
      { ID := lit "deadbeef", Labels := exampleOtherLabels } (by decide) (by decide),
   by decide⟩

end Logstash
